import Mathlib

/-!
# Intrusive reference counting (`quantumvk/utils/intrusive.hpp`)

A shallow embedding of the counter policies, the `IntrusivePtrEnabled` mixin and the
`IntrusivePtr` handle.

* `size_t` values are natural numbers below `2 ^ w`, where `w` is the bit width of `size_t`;
  every arithmetic step on them is reduced modulo `2 ^ w`.
* A payload pointer is an index into the list of payload objects; the null pointer is `none`.
* A handle object is identified by its index in the list of handle objects (its address in
  the source, which is what `this != &other` compares).
* Running the deleter on a payload is recorded in the payload object (`deleted`) and, with
  every counter call, in a trace; the payload's own destructor is outside the model.
* Handles are objects in memory, so the live handles of a state are fewer than `2 ^ w`
  (`State.fits`); counter calls made directly on a counter are not bounded in this way.
-/

namespace Util

/-! ## Counter policies -/

namespace SingleThreadCounter

/-- Member initialiser `size_t count = 1;`. -/
def init : Nat := 1

/-- Body of `AddRef`: `count++`. -/
def AddRef (w count : Nat) : Nat := (count + 1) % 2 ^ w

/-- Body of `Release`: `return --count == 0;`. The first component is the stored counter
after the call, the second one the returned flag. -/
def Release (w count : Nat) : Nat × Bool :=
  let count1 := (count + (2 ^ w - 1)) % 2 ^ w
  (count1, count1 == 0)

end SingleThreadCounter

namespace MultiThreadCounter

/-- Constructor: `count.store(1, std::memory_order_relaxed)`. -/
def init : Nat := 1

/-- Body of `AddRef`: `count.fetch_add(1, std::memory_order_relaxed)`. -/
def AddRef (w count : Nat) : Nat := (count + 1) % 2 ^ w

/-- Body of `Release`: `auto result = count.fetch_sub(1, ...); return result == 1;`.
`fetch_sub` stores the decremented value and yields the previous one. -/
def Release (w count : Nat) : Nat × Bool :=
  let result := count
  ((count + (2 ^ w - 1)) % 2 ^ w, result == 1)

end MultiThreadCounter

/-- The template argument `ReferenceOps` of `IntrusivePtrEnabled`. -/
inductive ReferenceOps where
  | SingleThreadCounter
  | MultiThreadCounter
  deriving DecidableEq, Repr

namespace ReferenceOps

/-- Initial counter value of a freshly constructed `ReferenceOps` member. -/
def init : ReferenceOps → Nat
  | .SingleThreadCounter => Util.SingleThreadCounter.init
  | .MultiThreadCounter => Util.MultiThreadCounter.init

/-- Dispatch of `reference_count.AddRef()` on the policy. -/
def AddRef (w : Nat) : ReferenceOps → Nat → Nat
  | .SingleThreadCounter, c => Util.SingleThreadCounter.AddRef w c
  | .MultiThreadCounter, c => Util.MultiThreadCounter.AddRef w c

/-- Dispatch of `reference_count.Release()` on the policy. -/
def Release (w : Nat) : ReferenceOps → Nat → Nat × Bool
  | .SingleThreadCounter, c => Util.SingleThreadCounter.Release w c
  | .MultiThreadCounter, c => Util.MultiThreadCounter.Release w c

/-- Counter value after `n` successive `AddRef` calls. -/
def addRefs (w : Nat) (ops : ReferenceOps) : Nat → Nat → Nat
  | 0, c => c
  | n + 1, c => addRefs w ops n (AddRef w ops c)

/-- Results of `n` successive `Release` calls, oldest first, with the final counter. -/
def releases (w : Nat) (ops : ReferenceOps) : Nat → Nat → List Bool × Nat
  | 0, c => ([], c)
  | n + 1, c =>
    let r := Release w ops c
    let rest := releases w ops n r.1
    (r.2 :: rest.1, rest.2)

end ReferenceOps

/-! ## Objects and machine state -/

/-- An object of a class deriving from `IntrusivePtrEnabled<T, Deleter, ReferenceOps>`:
the policy it was instantiated with, the `size_t` stored in its member `reference_count`,
and the number of times `Deleter()(this)` has been run on it. -/
structure IntrusivePtrEnabled where
  ops : ReferenceOps
  reference_count : Nat
  deleted : Nat
  deriving DecidableEq, Repr

/-- An `IntrusivePtr<T>` object: its only member `T* data` (`none` is `nullptr`). -/
structure IntrusivePtr where
  data : Option Nat
  deriving DecidableEq, Repr

/-- Calls observed on payload `p`: a counter call together with the counter value it found,
or a run of the deleter. -/
inductive Event where
  | AddRef (p : Nat) (count : Nat)
  | Release (p : Nat) (count : Nat)
  | Deleter (p : Nat)
  deriving DecidableEq, Repr

/-- Machine state: the payload objects by address, the handle objects by address (`none`
once the handle has been destructed), and the calls made so far, newest first. -/
structure State where
  payloads : List IntrusivePtrEnabled
  handles : List (Option IntrusivePtr)
  trace : List Event
  deriving DecidableEq, Repr

namespace State

/-- No object has been created yet. -/
def empty : State := { payloads := [], handles := [], trace := [] }

/-- Handle `h` is within its lifetime. -/
def live (s : State) (h : Nat) : Bool :=
  match s.handles[h]? with
  | some (some _) => true
  | _ => false

/-- Member `data` of handle `h`. -/
def data (s : State) (h : Nat) : Option Nat :=
  match s.handles[h]? with
  | some (some x) => x.data
  | _ => none

/-- Assignment `data = d` inside handle `h`. -/
def setData (s : State) (h : Nat) (d : Option Nat) : State :=
  { s with handles := s.handles.set h (some { data := d }) }

/-- The end of the lifetime of handle `h`: its storage no longer holds a handle. -/
def endLifetime (s : State) (h : Nat) : State :=
  { s with handles := s.handles.set h none }

/-- Number of live handles whose `data` is payload `p`. -/
def refs (s : State) (p : Nat) : Nat :=
  s.handles.count (some { data := some p })

/-- Number of handle objects within their lifetime. -/
def liveHandles (s : State) : Nat :=
  s.handles.countP Option.isSome

/-- Value of `reference_count` of payload `p` (`0` when `p` is not an object). -/
def count (s : State) (p : Nat) : Nat :=
  match s.payloads[p]? with
  | some o => o.reference_count
  | none => 0

/-- Number of deleter runs on payload `p`. -/
def deleted (s : State) (p : Nat) : Nat :=
  match s.payloads[p]? with
  | some o => o.deleted
  | none => 0

/-- Body of `new T(...)`: a fresh object whose counter member is initialised by the policy. -/
def new (s : State) (ops : ReferenceOps) : State × Nat :=
  ({ s with payloads := s.payloads ++ [{ ops := ops, reference_count := ops.init, deleted := 0 }] },
    s.payloads.length)

end State

namespace IntrusivePtrEnabled

/-- Body of `IntrusivePtrEnabled::AddRef` on the object at `p`:
`reference_count.AddRef();`. -/
def AddRef (w : Nat) (s : State) (p : Nat) : State :=
  match s.payloads[p]? with
  | none => s
  | some o =>
    { s with
      payloads := s.payloads.set p { o with reference_count := o.ops.AddRef w o.reference_count }
      trace := Event.AddRef p o.reference_count :: s.trace }

/-- Body of `IntrusivePtrEnabled::ReleaseReference` on the object at `p`:
`if (reference_count.Release()) Deleter()(static_cast<T*>(this));`. -/
def ReleaseReference (w : Nat) (s : State) (p : Nat) : State :=
  match s.payloads[p]? with
  | none => s
  | some o =>
    let r := o.ops.Release w o.reference_count
    if r.2 then
      { s with
        payloads := s.payloads.set p { o with reference_count := r.1, deleted := o.deleted + 1 }
        trace := Event.Deleter p :: Event.Release p o.reference_count :: s.trace }
    else
      { s with
        payloads := s.payloads.set p { o with reference_count := r.1 }
        trace := Event.Release p o.reference_count :: s.trace }

end IntrusivePtrEnabled

namespace IntrusivePtr

/-- Default constructor `IntrusivePtr() = default;` with `T* data = nullptr;`.
Returns the new handle. -/
def construct (s : State) : State × Nat :=
  ({ s with handles := s.handles ++ [some { data := none }] }, s.handles.length)

/-- Constructor `explicit IntrusivePtr(T* handle) : data(handle)`. -/
def constructRaw (s : State) (handle : Option Nat) : State × Nat :=
  ({ s with handles := s.handles ++ [some { data := handle }] }, s.handles.length)

/-- Body of `Get`: `return data;`. -/
def Get (s : State) (this : Nat) : Option Nat := s.data this

/-- Body of `operator bool`: `return data != nullptr;`. -/
def toBool (s : State) (this : Nat) : Bool := s.data this != none

/-- Body of `operator==`: `return data == other.data;`. -/
def eq (s : State) (this other : Nat) : Bool := s.data this == s.data other

/-- Body of `operator!=`: `return data != other.data;`. -/
def ne (s : State) (this other : Nat) : Bool := s.data this != s.data other

/-- Body of `Reset`: `if (data) data->ReleaseReference(); data = nullptr;`. -/
def Reset (w : Nat) (s : State) (this : Nat) : State :=
  let s1 :=
    match s.data this with
    | some p => IntrusivePtrEnabled.ReleaseReference w s p
    | none => s
  s1.setData this none

/-- Body of the template `operator=(const IntrusivePtr<U>& other)`:
`Reset(); data = other.data; if (data) data->AddRef();`. -/
def assignCopyU (w : Nat) (s : State) (this other : Nat) : State :=
  let s1 := Reset w s this
  let s2 := s1.setData this (s1.data other)
  match s2.data this with
  | some p => IntrusivePtrEnabled.AddRef w s2 p
  | none => s2

/-- Body of `operator=(const IntrusivePtr& other)`: the same steps, guarded by
`if (this != &other)`. -/
def assignCopy (w : Nat) (s : State) (this other : Nat) : State :=
  if this ≠ other then
    let s1 := Reset w s this
    let s2 := s1.setData this (s1.data other)
    match s2.data this with
    | some p => IntrusivePtrEnabled.AddRef w s2 p
    | none => s2
  else s

/-- Template copy constructor `IntrusivePtr(const IntrusivePtr<U>& other)`:
`*this = other;` on a handle whose `data` starts as `nullptr`. -/
def constructCopyU (w : Nat) (s : State) (other : Nat) : State × Nat :=
  let r := construct s
  (assignCopyU w r.1 r.2 other, r.2)

/-- Copy constructor `IntrusivePtr(const IntrusivePtr& other)`: `*this = other;`. -/
def constructCopy (w : Nat) (s : State) (other : Nat) : State × Nat :=
  let r := construct s
  (assignCopy w r.1 r.2 other, r.2)

/-- Destructor `~IntrusivePtr()`: `Reset();`, after which the handle is gone. -/
def destruct (w : Nat) (s : State) (this : Nat) : State :=
  (Reset w s this).endLifetime this

/-- Body of the template `operator=(IntrusivePtr<U>&& other)`:
`Reset(); data = other.data; other.data = nullptr;`. -/
def assignMoveU (w : Nat) (s : State) (this other : Nat) : State :=
  let s1 := Reset w s this
  let s2 := s1.setData this (s1.data other)
  s2.setData other none

/-- Body of `operator=(IntrusivePtr&& other)`: the same steps, guarded by
`if (this != &other)`. -/
def assignMove (w : Nat) (s : State) (this other : Nat) : State :=
  if this ≠ other then
    let s1 := Reset w s this
    let s2 := s1.setData this (s1.data other)
    s2.setData other none
  else s

/-- Constructor `IntrusivePtr(IntrusivePtr<U>&& other)` with `U` a different type:
`*this = std::move(other);` selects the template move assignment. -/
def constructMoveU (w : Nat) (s : State) (other : Nat) : State × Nat :=
  let r := construct s
  (assignMoveU w r.1 r.2 other, r.2)

/-- Move construction from a handle of the same type: `*this = std::move(other);` selects
`operator=(IntrusivePtr&&)`. -/
def constructMove (w : Nat) (s : State) (other : Nat) : State × Nat :=
  let r := construct s
  (assignMove w r.1 r.2 other, r.2)

end IntrusivePtr

/-- Body of `IntrusivePtrEnabled::ReferenceFromThis` on the object at `p`:
`AddRef(); return IntrusivePtr<T>(static_cast<T*>(this));`. -/
def IntrusivePtrEnabled.ReferenceFromThis (w : Nat) (s : State) (p : Nat) : State × Nat :=
  IntrusivePtr.constructRaw (IntrusivePtrEnabled.AddRef w s p) (some p)

/-- Body of `MakeHandle<T>(p...)`: `return IntrusivePtr<T>(new T(p...));`. -/
def MakeHandle (s : State) (ops : ReferenceOps) : State × Nat :=
  let r := s.new ops
  IntrusivePtr.constructRaw r.1 (some r.2)

/-- Body of `MakeDerivedHandle<Base, Derived>(p...)`:
`return typename Base::IntrusivePtrType(new Derived(p...));`. -/
def MakeDerivedHandle (s : State) (ops : ReferenceOps) : State × Nat :=
  let r := s.new ops
  IntrusivePtr.constructRaw r.1 (some r.2)

/-! ## Programs over handles -/

/-- The operations a program can apply to handles. The `U` variants are the template
overloads, chosen when the two handles have different static types. -/
inductive Op where
  | MakeHandle (ops : ReferenceOps)
  | MakeDerivedHandle (ops : ReferenceOps)
  | construct
  | constructCopy (other : Nat)
  | constructCopyU (other : Nat)
  | assignCopy (this other : Nat)
  | assignCopyU (this other : Nat)
  | constructMove (other : Nat)
  | constructMoveU (other : Nat)
  | assignMove (this other : Nat)
  | assignMoveU (this other : Nat)
  | Reset (this : Nat)
  | destruct (this : Nat)
  | ReferenceFromThis (p : Nat)
  deriving DecidableEq, Repr

/-- One operation of a well-formed program: every handle an operation names is within its
lifetime, the two handles of a template overload are different objects (they have different
types), and `ReferenceFromThis` is a member call on an object that some live handle refers
to. -/
def step (w : Nat) (s : State) : Op → Option State
  | .MakeHandle ops => some (MakeHandle s ops).1
  | .MakeDerivedHandle ops => some (MakeDerivedHandle s ops).1
  | .construct => some (IntrusivePtr.construct s).1
  | .constructCopy other =>
    if s.live other then some (IntrusivePtr.constructCopy w s other).1 else none
  | .constructCopyU other =>
    if s.live other then some (IntrusivePtr.constructCopyU w s other).1 else none
  | .assignCopy this other =>
    if s.live this ∧ s.live other then some (IntrusivePtr.assignCopy w s this other) else none
  | .assignCopyU this other =>
    if s.live this ∧ s.live other ∧ this ≠ other then
      some (IntrusivePtr.assignCopyU w s this other) else none
  | .constructMove other =>
    if s.live other then some (IntrusivePtr.constructMove w s other).1 else none
  | .constructMoveU other =>
    if s.live other then some (IntrusivePtr.constructMoveU w s other).1 else none
  | .assignMove this other =>
    if s.live this ∧ s.live other then some (IntrusivePtr.assignMove w s this other) else none
  | .assignMoveU this other =>
    if s.live this ∧ s.live other ∧ this ≠ other then
      some (IntrusivePtr.assignMoveU w s this other) else none
  | .Reset this => if s.live this then some (IntrusivePtr.Reset w s this) else none
  | .destruct this => if s.live this then some (IntrusivePtr.destruct w s this) else none
  | .ReferenceFromThis p =>
    if 0 < s.refs p then some (IntrusivePtrEnabled.ReferenceFromThis w s p).1 else none

/-- The handle objects of the state fit into an address space of `2 ^ w` bytes: every live
handle occupies at least one byte of its own. -/
def State.fits (w : Nat) (s : State) : Prop := s.liveHandles < 2 ^ w

instance (w : Nat) (s : State) : Decidable (s.fits w) :=
  inferInstanceAs (Decidable (s.liveHandles < 2 ^ w))

/-- Runs a program; `none` when an operation is ill-formed or the handles no longer fit
into the address space. -/
def run (w : Nat) (s : State) : List Op → Option State
  | [] => some s
  | op :: rest =>
    match step w s op with
    | some s1 => if s1.fits w then run w s1 rest else none
    | none => none

/-- States a well-formed program can be in on a machine with `w`-bit addresses. -/
inductive Reachable (w : Nat) : State → Prop where
  | empty : Reachable w State.empty
  | step {s s1 : State} (op : Op) :
      Reachable w s → step w s op = some s1 → s1.fits w → Reachable w s1

/-! ## Fragments of the assignment operators -/

/-- The statements of copy assignment that follow `Reset()`:
`data = other.data; if (data) data->AddRef();`. -/
def IntrusivePtr.copyFrom (w : Nat) (s : State) (this other : Nat) : State :=
  let s2 := s.setData this (s.data other)
  match s2.data this with
  | some p => IntrusivePtrEnabled.AddRef w s2 p
  | none => s2

/-- The statements of move assignment that follow `Reset()`:
`data = other.data; other.data = nullptr;`. -/
def IntrusivePtr.moveFrom (s : State) (this other : Nat) : State :=
  (s.setData this (s.data other)).setData other none

/-- What `ReleaseReference` does to an object whose counter is positive and in range. -/
def IntrusivePtrEnabled.released (o : IntrusivePtrEnabled) : IntrusivePtrEnabled :=
  { o with
    reference_count := o.reference_count - 1
    deleted := o.deleted + (if o.reference_count = 1 then 1 else 0) }

/-- What `AddRef` does to an object whose counter does not overflow. -/
def IntrusivePtrEnabled.acquired (o : IntrusivePtrEnabled) : IntrusivePtrEnabled :=
  { o with reference_count := o.reference_count + 1 }

/-! ## Copying a handle and dropping the copies -/

/-- One further copy of a handle to a payload, made from the copy number `src` (number 0 is
the handle the factory returned): by copy construction, or by default construction followed by
copy assignment, each with the same-type or the template overload. -/
inductive Copy where
  | construct (src : Nat)
  | constructU (src : Nat)
  | assign (src : Nat)
  | assignU (src : Nat)
  deriving DecidableEq, Repr

/-- The copy a new copy is made from. -/
def Copy.src : Copy → Nat
  | .construct src => src
  | .constructU src => src
  | .assign src => src
  | .assignU src => src

/-- The operations that make the copy; `base` is the handle the factory returned and `next`
the handle that comes into being. -/
def Copy.ops (base next : Nat) : Copy → List Op
  | .construct src => [Op.constructCopy (base + src)]
  | .constructU src => [Op.constructCopyU (base + src)]
  | .assign src => [Op.construct, Op.assignCopy next (base + src)]
  | .assignU src => [Op.construct, Op.assignCopyU next (base + src)]

/-- The program that makes the copies one after the other, `j` handles to the payload
existing already. -/
def copyProgram (base : Nat) : Nat → List Copy → List Op
  | _, [] => []
  | j, c :: cs => c.ops base (base + j) ++ copyProgram base (j + 1) cs

/-- Every copy is made from a handle that exists when it is made. -/
def copiesValid : Nat → List Copy → Bool
  | _, [] => true
  | j, c :: cs => decide (c.src < j) && copiesValid (j + 1) cs

/-- Dropping copy number `i`: by `Reset` or by the destructor. -/
inductive Drop where
  | Reset (i : Nat)
  | destruct (i : Nat)
  deriving DecidableEq, Repr

/-- The copy a drop releases. -/
def Drop.handle : Drop → Nat
  | .Reset i => i
  | .destruct i => i

/-- The operation that performs the drop. -/
def Drop.op (base : Nat) : Drop → Op
  | .Reset i => Op.Reset (base + i)
  | .destruct i => Op.destruct (base + i)

/-! ## Sequences of counter calls -/

/-- A call made on a counter. -/
inductive Call where
  | AddRef
  | Release
  deriving DecidableEq, Repr

/-- One call on a counter that holds `c`: the counter afterwards and, for `Release`, the
returned flag. -/
def ReferenceOps.call (w : Nat) (ops : ReferenceOps) (c : Nat) : Call → Nat × Option Bool
  | .AddRef => (ReferenceOps.AddRef w ops c, none)
  | .Release => ((ReferenceOps.Release w ops c).1, some (ReferenceOps.Release w ops c).2)

/-- The counter value and the result after every call of a sequence, oldest first. -/
def ReferenceOps.calls (w : Nat) (ops : ReferenceOps) : Nat → List Call → List (Nat × Option Bool)
  | _, [] => []
  | c, x :: xs =>
    (ReferenceOps.call w ops c x) :: ReferenceOps.calls w ops (ReferenceOps.call w ops c x).1 xs

/-! ## Aligned allocation (`quantum/utils/aligned_alloc.cpp`)

Addresses and `size_t` values are natural numbers below `2 ^ (8 * S)`, where `S` is
`sizeof(uintptr_t)`; `size_t` and `uintptr_t` are taken to have the same width. The null
pointer is address 0. -/

/-- Byte-addressed memory: the byte stored at every address. -/
def Memory : Type := Nat → Nat

/-- Number of values of `uintptr_t` and `size_t`. -/
def addressSpace (S : Nat) : Nat := 2 ^ (8 * S)

/-- The build configuration the preprocessor selects, in the order the conditions are
tested: `QM_PLATFORM_WINDOWS`, `_ISOC11_SOURCE`, `_POSIX_C_SOURCE >= 200112L` or
`_XOPEN_SOURCE >= 600`, none of them. -/
inductive Branch where
  | windows
  | isoc11
  | posix
  | fallback
  deriving DecidableEq, Repr

/-- The allocation primitives of the C library, which the file calls and does not define.
`posix_memalign` gets the value its first argument points at and yields its return code
together with the value it leaves there. -/
structure Libc where
  aligned_malloc : (size alignment : Nat) → Nat
  aligned_alloc : (alignment size : Nat) → Nat
  posix_memalign : (memptr alignment size : Nat) → Int × Nat
  malloc : (size : Nat) → Nat

/-- A store of a pointer value into the `S` bytes at `a`, lowest byte first. -/
def storePtr : Nat → Memory → Nat → Nat → Memory
  | 0, mem, _, _ => mem
  | S + 1, mem, a, v => storePtr S (fun x => if x = a then v % 256 else mem x) (a + 1) (v / 256)

/-- A load of a pointer value from the `S` bytes at `a`, lowest byte first. -/
def loadPtr : Nat → Memory → Nat → Nat
  | 0, _, _ => 0
  | S + 1, mem, a => mem a + 256 * loadPtr S mem (a + 1)

/-- The library call `memset(dst, value, n)`: the `n` bytes starting at `dst` get the value,
every other byte stays. A range that does not end inside the address space does not exist;
the call on it is undefined and the real one faults, so the result is `none`. Which ranges
are allocated is not recorded here: the statements about callers carry it as a hypothesis
on the allocation primitive. -/
def memset (S : Nat) (mem : Memory) (dst value n : Nat) : Option Memory :=
  if dst + n ≤ addressSpace S then
    some (fun x => if dst ≤ x ∧ x < dst + n then value % 256 else mem x)
  else none

/-- Body of `memalign_alloc(boundary, size)` in each build configuration: the returned
pointer and the memory afterwards. In the last configuration
`ptr = malloc(boundary + size + sizeof(uintptr_t))`, then, unless `ptr` is null,
`addr = ((uintptr_t)ptr + sizeof(uintptr_t) + boundary) & ~(boundary - 1)` and
`place[-1] = ptr`. -/
def memalign_alloc (S : Nat) (libc : Libc) (mem : Memory) : Branch → Nat → Nat → Nat × Memory
  | .windows, boundary, size => (libc.aligned_malloc size boundary, mem)
  | .isoc11, boundary, size => (libc.aligned_alloc boundary size, mem)
  | .posix, boundary, size =>
    let r := libc.posix_memalign 0 boundary size
    if r.1 < 0 then (0, mem) else (r.2, mem)
  | .fallback, boundary, size =>
    let ptr := libc.malloc ((boundary + size + S) % addressSpace S)
    if ptr = 0 then (0, mem)
    else
      let addr := ((ptr + S + boundary) % addressSpace S) &&&
        (addressSpace S - 1 - (boundary + (addressSpace S - 1)) % addressSpace S)
      (addr, storePtr S mem ((addr + (addressSpace S - S)) % addressSpace S) ptr)

/-- Body of `memalign_calloc(boundary, size)`:
`ret = memalign_alloc(boundary, size); if (ret) memset(ret, 0, size); return ret;`.
The result is `none` when the `memset` call is undefined. -/
def memalign_calloc (S : Nat) (libc : Libc) (mem : Memory) (branch : Branch)
    (boundary size : Nat) : Option (Nat × Memory) :=
  let ret := memalign_alloc S libc mem branch boundary size
  if ret.1 ≠ 0 then
    match memset S ret.2 ret.1 0 size with
    | some m => some (ret.1, m)
    | none => none
  else some ret

/-- A call of a deallocation primitive. -/
inductive FreeCall where
  | aligned_free (p : Nat)
  | free (p : Nat)
  deriving DecidableEq, Repr

/-- Body of `memalign_free(ptr)` in each build configuration: the deallocation call it
makes, if any. In the last configuration `if (ptr != nullptr) free(((void**)ptr)[-1]);`. -/
def memalign_free (S : Nat) (mem : Memory) : Branch → Nat → Option FreeCall
  | .windows, ptr => some (FreeCall.aligned_free ptr)
  | .isoc11, ptr => some (FreeCall.free ptr)
  | .posix, ptr => some (FreeCall.free ptr)
  | .fallback, ptr =>
    if ptr ≠ 0 then
      some (FreeCall.free (loadPtr S mem ((ptr + (addressSpace S - S)) % addressSpace S)))
    else none

/-! ## Example programs -/

/-- A program that copies, moves, drops and mints handles of one payload. -/
def Example.program : List Op :=
  [.MakeHandle .MultiThreadCounter, .constructCopy 0, .construct, .assignCopyU 2 1,
    .constructMove 2, .destruct 3, .assignMoveU 2 1, .ReferenceFromThis 0]

/-- The state `Example.program` ends in. -/
def Example.final : State :=
  { payloads := [{ ops := .MultiThreadCounter, reference_count := 3, deleted := 0 }]
    handles := [some { data := some 0 }, some { data := none }, some { data := some 0 },
      none, some { data := some 0 }]
    trace := [Event.AddRef 0 2, Event.Release 0 3, Event.AddRef 0 2, Event.AddRef 0 1] }

/-- Two payloads, the second one shared by two handles. -/
def Example.twoProgram : List Op :=
  [.MakeHandle .SingleThreadCounter, .MakeHandle .MultiThreadCounter, .constructCopy 1]

/-- The state `Example.twoProgram` ends in. -/
def Example.two : State :=
  { payloads := [{ ops := .SingleThreadCounter, reference_count := 1, deleted := 0 },
      { ops := .MultiThreadCounter, reference_count := 2, deleted := 0 }]
    handles := [some { data := some 0 }, some { data := some 1 }, some { data := some 1 }]
    trace := [Event.AddRef 1 1] }

/-- One payload shared by two handles: `MakeHandle` followed by a copy construction. -/
def Example.shared : State :=
  { payloads := [{ ops := .SingleThreadCounter, reference_count := 2, deleted := 0 }]
    handles := [some { data := some 0 }, some { data := some 0 }]
    trace := [Event.AddRef 0 1] }

/-- A C library whose `malloc` always returns address 1000 and whose other primitives
fail; `posix_memalign` fails with `ENOMEM` (12) and leaves the pointer as it found it. -/
def Example.libc : Libc :=
  { aligned_malloc := fun _ _ => 0
    aligned_alloc := fun _ _ => 0
    posix_memalign := fun memptr _ _ => (12, memptr)
    malloc := fun _ => 1000 }

/-- A C library whose `posix_memalign` fails with `ENOMEM` (12) and leaves the value 4096
in the pointer, which POSIX.1-2001 permits: it leaves the pointer unspecified after a
failure. -/
def Example.enomem : Libc :=
  { aligned_malloc := fun _ _ => 0
    aligned_alloc := fun _ _ => 0
    posix_memalign := fun _ _ _ => (12, 4096)
    malloc := fun _ => 0 }

/-- A C library whose aligned primitives succeed and return address 4096;
`posix_memalign` returns 0 and leaves 4096 in the pointer. -/
def Example.native : Libc :=
  { aligned_malloc := fun _ _ => 4096
    aligned_alloc := fun _ _ => 4096
    posix_memalign := fun _ _ _ => (0, 4096)
    malloc := fun _ => 0 }

/-- A memory that holds 7 in every byte. -/
def Example.sevens : Memory := fun _ => 7


/-! ## Invariants -/

/-- Every counter call in the trace found a non-zero counter, and no run of the deleter on the
same payload precedes it. -/
def TraceOK : List Event → Prop
  | [] => True
  | Event.AddRef p c :: older => (c ≠ 0 ∧ Event.Deleter p ∉ older) ∧ TraceOK older
  | Event.Release p c :: older => (c ≠ 0 ∧ Event.Deleter p ∉ older) ∧ TraceOK older
  | Event.Deleter _ :: older => TraceOK older

/-- The ownership discipline: counters agree with the handles, no handle dangles, nothing is
deleted twice. -/
structure Inv (w : Nat) (s : State) : Prop where
  fits : s.fits w
  nodangling : ∀ h p, s.data h = some p → ∃ o, s.payloads[p]? = some o ∧ o.deleted = 0
  counted : ∀ (p : Nat) (o : IntrusivePtrEnabled), s.payloads[p]? = some o → o.deleted = 0 →
    o.reference_count = s.refs p ∧ 0 < s.refs p
  once : ∀ (p : Nat) (o : IntrusivePtrEnabled), s.payloads[p]? = some o → o.deleted ≤ 1
  traceOK : TraceOK s.trace
  logged : ∀ p, Event.Deleter p ∈ s.trace → 0 < s.deleted p

/-! ## Counter arithmetic -/

namespace ReferenceOps

theorem one_lt_two_pow {w : Nat} (hw : 0 < w) : 1 < 2 ^ w :=
  Nat.one_lt_two_pow (Nat.pos_iff_ne_zero.mp hw)

theorem init_eq (ops : ReferenceOps) : ops.init = 1 := by
  cases ops <;> rfl

theorem AddRef_eq (w : Nat) (ops : ReferenceOps) (c : Nat) :
    AddRef w ops c = (c + 1) % 2 ^ w := by
  cases ops <;> rfl

theorem AddRef_of_lt (w : Nat) (ops : ReferenceOps) (c : Nat) (hc : c + 1 < 2 ^ w) :
    AddRef w ops c = c + 1 := by
  rw [AddRef_eq, Nat.mod_eq_of_lt hc]

theorem Release_fst (w : Nat) (ops : ReferenceOps) (c : Nat) :
    (Release w ops c).1 = (c + (2 ^ w - 1)) % 2 ^ w := by
  cases ops <;> rfl

theorem pred_mod (w c : Nat) (h0 : 0 < c) (hc : c < 2 ^ w) :
    (c + (2 ^ w - 1)) % 2 ^ w = c - 1 := by
  have h : c + (2 ^ w - 1) = (c - 1) + 2 ^ w := by omega
  rw [h, Nat.add_mod_right]
  exact Nat.mod_eq_of_lt (by omega)

theorem Release_fst_of_pos (w : Nat) (ops : ReferenceOps) (c : Nat) (h0 : 0 < c)
    (hc : c < 2 ^ w) : (Release w ops c).1 = c - 1 := by
  rw [Release_fst, pred_mod w c h0 hc]

theorem Release_snd (w : Nat) (hw : 0 < w) (ops : ReferenceOps) (c : Nat) (hc : c < 2 ^ w) :
    (Release w ops c).2 = decide (c = 1) := by
  have hpos : 1 < 2 ^ w := one_lt_two_pow hw
  cases ops
  · simp only [Release, SingleThreadCounter.Release]
    rcases Nat.eq_zero_or_pos c with h0 | h0
    · subst h0
      have : (0 + (2 ^ w - 1)) % 2 ^ w = 2 ^ w - 1 := by
        rw [Nat.zero_add]; exact Nat.mod_eq_of_lt (by omega)
      rw [this]
      have h2 : ¬ (2 ^ w - 1 = 0) := by omega
      simp [h2]
    · rw [pred_mod w c h0 hc]
      by_cases h1 : c = 1
      · simp [h1]
      · have : ¬ (c - 1 = 0) := by omega
        simp [h1, this]
  · simp only [Release, MultiThreadCounter.Release]
    by_cases h1 : c = 1 <;> simp [h1]

theorem addRefs_mod (w : Nat) (ops : ReferenceOps) (n c : Nat) :
    addRefs w ops n c % 2 ^ w = (c + n) % 2 ^ w := by
  induction n generalizing c with
  | zero => rfl
  | succ n ih =>
    rw [addRefs, ih, AddRef_eq, Nat.mod_add_mod]
    congr 1; omega

theorem addRefs_lt (w : Nat) (ops : ReferenceOps) (n c : Nat) (hc : c < 2 ^ w) :
    addRefs w ops n c < 2 ^ w := by
  induction n generalizing c with
  | zero => exact hc
  | succ n ih =>
    rw [addRefs]
    apply ih
    rw [AddRef_eq]
    exact Nat.mod_lt _ (by positivity)

theorem addRefs_eq (w : Nat) (ops : ReferenceOps) (n c : Nat) (hc : c < 2 ^ w) :
    addRefs w ops n c = (c + n) % 2 ^ w := by
  rw [← addRefs_mod, Nat.mod_eq_of_lt (addRefs_lt w ops n c hc)]

/-- Releasing a counter that holds `n + 1` yields `n` times `false` and then `true`. -/
theorem releases_countdown (w : Nat) (hw : 0 < w) (ops : ReferenceOps) (n : Nat)
    (hn : n + 1 < 2 ^ w) :
    releases w ops (n + 1) (n + 1) = (List.replicate n false ++ [true], 0) := by
  induction n with
  | zero =>
    simp only [releases, Release_fst]
    rw [Release_snd w hw ops _ hn, pred_mod w _ (by omega) hn]
    simp
  | succ n ih =>
    rw [releases]
    rw [Release_fst, Release_snd w hw ops _ hn, pred_mod w _ (by omega) hn]
    have : n + 1 + 1 - 1 = n + 1 := by omega
    rw [this, ih (by omega)]
    simp [List.replicate_succ]

/-- Releasing a counter that holds `0` behaves like releasing one that holds `2 ^ w`. -/
theorem releases_wrapped (w : Nat) (hw : 0 < w) (ops : ReferenceOps) :
    releases w ops (2 ^ w) 0 = (List.replicate (2 ^ w - 1) false ++ [true], 0) := by
  have hpos : 1 < 2 ^ w := one_lt_two_pow hw
  obtain ⟨m, hm⟩ : ∃ m, 2 ^ w = m + 2 := ⟨2 ^ w - 2, by omega⟩
  rw [hm, releases]
  have h0 : (0 : Nat) < 2 ^ w := by omega
  have e1 : (Release w ops 0).1 = m + 1 := by
    rw [Release_fst, Nat.zero_add]
    rw [Nat.mod_eq_of_lt (by omega)]; omega
  have e2 : (Release w ops 0).2 = false := by
    rw [Release_snd w hw ops 0 h0]; simp
  rw [e1, e2, releases_countdown w hw ops m (by omega)]
  simp [List.replicate_succ]

theorem releases_head (w : Nat) (ops : ReferenceOps) (n c : Nat) :
    (releases w ops (n + 1) c).1.head? = some (Release w ops c).2 := rfl

end ReferenceOps

/-! ## Lists of handles -/

theorem count_set_add {α : Type} [DecidableEq α] [BEq α] [LawfulBEq α] (l : List α) (i : Nat) (x a b : α)
    (hx : l[i]? = some x) :
    (l.set i a).count b + (if x = b then 1 else 0) = l.count b + (if a = b then 1 else 0) := by
  induction l generalizing i with
  | nil => simp at hx
  | cons y l ih =>
    cases i with
    | zero =>
      simp only [List.getElem?_cons_zero, Option.some.injEq] at hx
      subst hx
      simp only [List.set_cons_zero, List.count_cons, beq_iff_eq]
      omega
    | succ i =>
      simp only [List.getElem?_cons_succ] at hx
      have := ih i hx
      simp only [List.set_cons_succ, List.count_cons, beq_iff_eq]
      omega

theorem countP_set_add {α : Type} (f : α → Bool) (l : List α) (i : Nat) (x a : α)
    (hx : l[i]? = some x) :
    (l.set i a).countP f + (if f x then 1 else 0) = l.countP f + (if f a then 1 else 0) := by
  induction l generalizing i with
  | nil => simp at hx
  | cons y l ih =>
    cases i with
    | zero =>
      simp only [List.getElem?_cons_zero, Option.some.injEq] at hx
      subst hx
      simp only [List.set_cons_zero, List.countP_cons]
      omega
    | succ i =>
      simp only [List.getElem?_cons_succ] at hx
      have := ih i hx
      simp only [List.set_cons_succ, List.countP_cons]
      omega

theorem getElem?_set_of_some {α : Type} (l : List α) (i k : Nat) (x a : α)
    (hx : l[i]? = some x) : (l.set i a)[k]? = if i = k then some a else l[k]? := by
  obtain ⟨hi, _⟩ := List.getElem?_eq_some.mp hx
  rw [List.getElem?_set, if_pos hi]

theorem set_same {α : Type} (l : List α) (i : Nat) (x : α) (hx : l[i]? = some x) :
    l.set i x = l := by
  induction l generalizing i with
  | nil => rfl
  | cons y l ih =>
    cases i with
    | zero =>
      simp only [List.getElem?_cons_zero, Option.some.injEq] at hx
      subst hx; rfl
    | succ i =>
      simp only [List.getElem?_cons_succ] at hx
      simp only [List.set_cons_succ, ih i hx]

theorem getElem?_snoc {α : Type} (l : List α) (a : α) (k : Nat) :
    (l ++ [a])[k]? = if k = l.length then some a else l[k]? := by
  rcases Nat.lt_trichotomy k l.length with h | h | h
  · rw [List.getElem?_append_left h, if_neg (by omega)]
  · subst h; simp
  · rw [if_neg (by omega), List.getElem?_eq_none (by simp; omega),
      List.getElem?_eq_none (by omega)]

theorem count_le_countP_isSome {α : Type} [DecidableEq α] [BEq α] [LawfulBEq α]
    (l : List (Option α)) (a : α) :
    l.count (some a) ≤ l.countP Option.isSome := by
  induction l with
  | nil => simp
  | cons y l ih =>
    simp only [List.count_cons, List.countP_cons, beq_iff_eq]
    by_cases h : y = some a
    · subst h; simp; omega
    · simp only [h, if_false]; omega

theorem count_pos_of_getElem? {α : Type} [BEq α] [LawfulBEq α] (l : List α) (i : Nat) (a : α)
    (h : l[i]? = some a) : 0 < l.count a := by
  rw [List.count_pos_iff]
  obtain ⟨hi, he⟩ := List.getElem?_eq_some.mp h
  exact he ▸ List.getElem_mem hi

theorem two_le_count {α : Type} [DecidableEq α] [BEq α] [LawfulBEq α] (l : List α) (i j : Nat) (a : α)
    (hij : i ≠ j) (hi : l[i]? = some a) (hj : l[j]? = some a) : 2 ≤ l.count a := by
  induction l generalizing i j with
  | nil => simp at hi
  | cons y l ih =>
    simp only [List.count_cons, beq_iff_eq]
    cases i with
    | zero =>
      cases j with
      | zero => exact absurd rfl hij
      | succ j =>
        simp only [List.getElem?_cons_zero, Option.some.injEq] at hi
        simp only [List.getElem?_cons_succ] at hj
        have := count_pos_of_getElem? l j a hj
        simp only [hi, if_true]; omega
    | succ i =>
      simp only [List.getElem?_cons_succ] at hi
      cases j with
      | zero =>
        simp only [List.getElem?_cons_zero, Option.some.injEq] at hj
        have := count_pos_of_getElem? l i a hi
        simp only [hj, if_true]; omega
      | succ j =>
        simp only [List.getElem?_cons_succ] at hj
        have := ih i j (by omega) hi hj
        omega

/-! ## Reading and writing handles -/

namespace State

theorem data_eq_some (s : State) (h p : Nat) :
    s.data h = some p ↔ s.handles[h]? = some (some { data := some p }) := by
  unfold data
  split
  · next x hx =>
    rw [hx]
    constructor
    · intro e; cases x; simp only at e; rw [e]
    · intro e; simp only [Option.some.injEq] at e; rw [e]
  · next hx =>
    constructor
    · intro e; cases e
    · intro e; exact absurd e (hx _)

theorem handles_of_live (s : State) (h : Nat) (hl : s.live h = true) :
    s.handles[h]? = some (some { data := s.data h }) := by
  unfold live at hl
  unfold data
  split at hl
  · next x hx => rw [hx]
  · cases hl

theorem live_of_handles (s : State) (h : Nat) (x : IntrusivePtr)
    (hx : s.handles[h]? = some (some x)) : s.live h = true := by
  unfold live; rw [hx]

theorem live_of_data (s : State) (h p : Nat) (hd : s.data h = some p) : s.live h = true :=
  live_of_handles s h _ ((data_eq_some s h p).mp hd)

theorem refs_le_liveHandles (s : State) (p : Nat) : s.refs p ≤ s.liveHandles :=
  count_le_countP_isSome s.handles _

theorem refs_pos_of_data (s : State) (h p : Nat) (hd : s.data h = some p) : 0 < s.refs p :=
  count_pos_of_getElem? s.handles h _ ((data_eq_some s h p).mp hd)

theorem two_le_refs (s : State) (h k p : Nat) (hk : h ≠ k) (hd : s.data h = some p)
    (hd2 : s.data k = some p) : 2 ≤ s.refs p :=
  two_le_count s.handles h k _ hk ((data_eq_some s h p).mp hd) ((data_eq_some s k p).mp hd2)

theorem liveHandles_pos_of_live (s : State) (h : Nat) (hl : s.live h = true) :
    0 < s.liveHandles := by
  unfold liveHandles
  rw [List.countP_pos_iff]
  have := handles_of_live s h hl
  obtain ⟨hi, he⟩ := List.getElem?_eq_some.mp this
  exact ⟨_, List.getElem_mem hi, by rw [he]; rfl⟩

theorem count_of_payload (s : State) (p : Nat) (o : IntrusivePtrEnabled)
    (ho : s.payloads[p]? = some o) : s.count p = o.reference_count := by
  unfold count; rw [ho]

theorem deleted_of_payload (s : State) (p : Nat) (o : IntrusivePtrEnabled)
    (ho : s.payloads[p]? = some o) : s.deleted p = o.deleted := by
  unfold deleted; rw [ho]

@[simp] theorem payloads_setData (s : State) (h : Nat) (d : Option Nat) :
    (s.setData h d).payloads = s.payloads := rfl

@[simp] theorem trace_setData (s : State) (h : Nat) (d : Option Nat) :
    (s.setData h d).trace = s.trace := rfl

@[simp] theorem count_setData (s : State) (h : Nat) (d : Option Nat) (p : Nat) :
    (s.setData h d).count p = s.count p := rfl

@[simp] theorem deleted_setData (s : State) (h : Nat) (d : Option Nat) (p : Nat) :
    (s.setData h d).deleted p = s.deleted p := rfl

theorem handles_setData (s : State) (h : Nat) (d : Option Nat) (hl : s.live h = true)
    (k : Nat) :
    (s.setData h d).handles[k]? = if h = k then some (some { data := d }) else s.handles[k]? :=
  getElem?_set_of_some s.handles h k _ _ (handles_of_live s h hl)

theorem data_setData (s : State) (h : Nat) (d : Option Nat) (hl : s.live h = true) (k : Nat) :
    (s.setData h d).data k = if h = k then d else s.data k := by
  unfold data
  rw [handles_setData s h d hl k]
  by_cases e : h = k <;> simp [e]

theorem live_setData (s : State) (h : Nat) (d : Option Nat) (hl : s.live h = true) (k : Nat) :
    (s.setData h d).live k = s.live k := by
  unfold live
  rw [handles_setData s h d hl k]
  by_cases e : h = k
  · subst e
    have := handles_of_live s h hl
    simp [this]
  · simp [e]

theorem refs_setData (s : State) (h : Nat) (d : Option Nat) (hl : s.live h = true) (p : Nat) :
    (s.setData h d).refs p + (if s.data h = some p then 1 else 0)
      = s.refs p + (if d = some p then 1 else 0) := by
  have := count_set_add s.handles h _ (some { data := d }) (some { data := some p })
    (handles_of_live s h hl)
  simpa [refs, setData] using this

theorem liveHandles_setData (s : State) (h : Nat) (d : Option Nat) (hl : s.live h = true) :
    (s.setData h d).liveHandles = s.liveHandles := by
  have := countP_set_add Option.isSome s.handles h _ (some { data := d })
    (handles_of_live s h hl)
  simpa [liveHandles, setData] using this

theorem setData_self (s : State) (h : Nat) (hl : s.live h = true) :
    s.setData h (s.data h) = s := by
  unfold setData
  rw [set_same s.handles h _ (handles_of_live s h hl)]

end State

/-! ## Counter calls on payload objects -/

namespace State

theorem data_congr {s t : State} (e : t.handles = s.handles) (k : Nat) : t.data k = s.data k := by
  unfold data; rw [e]

theorem live_congr {s t : State} (e : t.handles = s.handles) (k : Nat) : t.live k = s.live k := by
  unfold live; rw [e]

theorem refs_congr {s t : State} (e : t.handles = s.handles) (p : Nat) : t.refs p = s.refs p := by
  unfold refs; rw [e]

theorem liveHandles_congr {s t : State} (e : t.handles = s.handles) :
    t.liveHandles = s.liveHandles := by
  unfold liveHandles; rw [e]

end State

namespace IntrusivePtrEnabled

@[simp] theorem handles_AddRef (w : Nat) (s : State) (p : Nat) :
    (AddRef w s p).handles = s.handles := by
  unfold AddRef; split <;> rfl

@[simp] theorem handles_ReleaseReference (w : Nat) (s : State) (p : Nat) :
    (ReleaseReference w s p).handles = s.handles := by
  unfold ReleaseReference
  split
  · rfl
  · dsimp only
    split <;> rfl

theorem AddRef_of (w : Nat) (s : State) (p : Nat) (o : IntrusivePtrEnabled)
    (ho : s.payloads[p]? = some o) (hc : o.reference_count + 1 < 2 ^ w) :
    AddRef w s p =
      { payloads := s.payloads.set p o.acquired
        handles := s.handles
        trace := Event.AddRef p o.reference_count :: s.trace } := by
  unfold AddRef
  rw [ho]
  simp only [ReferenceOps.AddRef_of_lt w o.ops _ hc, acquired]

theorem ReleaseReference_of (w : Nat) (hw : 0 < w) (s : State) (p : Nat)
    (o : IntrusivePtrEnabled) (ho : s.payloads[p]? = some o) (h0 : 0 < o.reference_count)
    (hc : o.reference_count < 2 ^ w) :
    ReleaseReference w s p =
      { payloads := s.payloads.set p o.released
        handles := s.handles
        trace := if o.reference_count = 1
          then Event.Deleter p :: Event.Release p o.reference_count :: s.trace
          else Event.Release p o.reference_count :: s.trace } := by
  unfold ReleaseReference
  rw [ho]
  simp only [ReferenceOps.Release_snd w hw o.ops _ hc,
    ReferenceOps.Release_fst_of_pos w o.ops _ h0 hc, released]
  by_cases h1 : o.reference_count = 1
  · simp [h1]
  · simp [h1]

end IntrusivePtrEnabled

/-! ## Consequences of the invariant -/

theorem TraceOK_append (newer older : List Event) (h : TraceOK (newer ++ older)) :
    TraceOK older := by
  induction newer with
  | nil => exact h
  | cons e newer ih =>
    cases e with
    | AddRef p c => exact ih h.2
    | Release p c => exact ih h.2
    | Deleter p => exact ih h

namespace Inv

theorem width_pos {w : Nat} {s : State} (hI : Inv w s) (h : Nat) (hl : s.live h = true) :
    0 < w := by
  have h1 := State.liveHandles_pos_of_live s h hl
  have h2 : s.liveHandles < 2 ^ w := hI.fits
  rcases Nat.eq_zero_or_pos w with e | e
  · subst e; simp at h2; omega
  · exact e

theorem count_bounds {w : Nat} {s : State} (hI : Inv w s) (p : Nat) (o : IntrusivePtrEnabled)
    (ho : s.payloads[p]? = some o) (hdel : o.deleted = 0) :
    0 < o.reference_count ∧ o.reference_count = s.refs p ∧ o.reference_count < 2 ^ w := by
  obtain ⟨h1, h2⟩ := hI.counted p o ho hdel
  have h3 := State.refs_le_liveHandles s p
  have h4 : s.liveHandles < 2 ^ w := hI.fits
  omega

theorem not_logged {w : Nat} {s : State} (hI : Inv w s) (p : Nat) (hdel : s.deleted p = 0) :
    Event.Deleter p ∉ s.trace := by
  intro hmem
  have := hI.logged p hmem
  omega

end Inv

/-! ## `Reset` -/

namespace IntrusivePtr

theorem Reset_null (w : Nat) (s : State) (h : Nat) (hl : s.live h = true)
    (hd : s.data h = none) : Reset w s h = s := by
  unfold Reset
  rw [hd]
  simp only
  rw [← hd]
  exact State.setData_self s h hl

theorem Reset_some {w : Nat} {s : State} (hI : Inv w s) (h p : Nat) (hd : s.data h = some p) :
    ∃ o, s.payloads[p]? = some o ∧ o.deleted = 0 ∧ 0 < o.reference_count ∧
      o.reference_count = s.refs p ∧
      Reset w s h =
        { payloads := s.payloads.set p o.released
          handles := s.handles.set h (some { data := none })
          trace := if o.reference_count = 1
            then Event.Deleter p :: Event.Release p o.reference_count :: s.trace
            else Event.Release p o.reference_count :: s.trace } := by
  obtain ⟨o, ho, hdel⟩ := hI.nodangling h p hd
  obtain ⟨h0, hr, hc⟩ := hI.count_bounds p o ho hdel
  have hw := hI.width_pos h (State.live_of_data s h p hd)
  refine ⟨o, ho, hdel, h0, hr, ?_⟩
  unfold Reset
  rw [hd]
  simp only
  rw [IntrusivePtrEnabled.ReleaseReference_of w hw s p o ho h0 hc]
  rfl

theorem Reset_handles (w : Nat) (s : State) (h : Nat) :
    (Reset w s h).handles = (s.setData h none).handles := by
  unfold Reset
  cases s.data h <;> simp [State.setData]

theorem Reset_data (w : Nat) (s : State) (h : Nat) (hl : s.live h = true) (k : Nat) :
    (Reset w s h).data k = if h = k then none else s.data k := by
  rw [State.data_congr (Reset_handles w s h) k, State.data_setData s h none hl k]

theorem Reset_live (w : Nat) (s : State) (h : Nat) (hl : s.live h = true) (k : Nat) :
    (Reset w s h).live k = s.live k := by
  rw [State.live_congr (Reset_handles w s h) k, State.live_setData s h none hl k]

theorem Reset_liveHandles (w : Nat) (s : State) (h : Nat) (hl : s.live h = true) :
    (Reset w s h).liveHandles = s.liveHandles := by
  rw [State.liveHandles_congr (Reset_handles w s h), State.liveHandles_setData s h none hl]

theorem Reset_refs (w : Nat) (s : State) (h : Nat) (hl : s.live h = true) (p : Nat) :
    (Reset w s h).refs p + (if s.data h = some p then 1 else 0) = s.refs p := by
  rw [State.refs_congr (Reset_handles w s h) p]
  have := State.refs_setData s h none hl p
  simpa using this

theorem Reset_payloads_of_ne (w : Nat) (s : State) (h q : Nat) (hq : s.data h ≠ some q) :
    (Reset w s h).payloads[q]? = s.payloads[q]? := by
  unfold Reset
  cases hd : s.data h with
  | none => rfl
  | some p =>
    have hpq : p ≠ q := by
      intro e; apply hq; rw [hd, e]
    simp only [State.payloads_setData]
    unfold IntrusivePtrEnabled.ReleaseReference
    split
    · rfl
    · dsimp only
      split <;> simp [List.getElem?_set_ne hpq]

theorem Reset_inv {w : Nat} {s : State} (hI : Inv w s) (h : Nat) (hl : s.live h = true) :
    Inv w (Reset w s h) := by
  cases hd : s.data h with
  | none => rw [Reset_null w s h hl hd]; exact hI
  | some p =>
    obtain ⟨o, ho, hdel, h0, hr, hE⟩ := Reset_some (w := w) hI h p hd
    have hdata := Reset_data w s h hl
    have hrefs := Reset_refs w s h hl
    have hpay : ∀ q, (Reset w s h).payloads[q]? =
        if p = q then some o.released else s.payloads[q]? := by
      intro q
      rw [hE]
      exact getElem?_set_of_some s.payloads p q o _ ho
    have hlogged : Event.Deleter p ∉ s.trace :=
      hI.not_logged p (by rw [State.deleted_of_payload s p o ho]; exact hdel)
    refine ⟨?_, ?_, ?_, ?_, ?_, ?_⟩
    · show (Reset w s h).liveHandles < 2 ^ w
      rw [Reset_liveHandles w s h hl]; exact hI.fits
    · intro k q hk
      rw [hdata k] at hk
      by_cases e : h = k
      · rw [if_pos e] at hk; cases hk
      · rw [if_neg e] at hk
        obtain ⟨o2, ho2, hdel2⟩ := hI.nodangling k q hk
        rw [hpay q]
        by_cases e2 : p = q
        · subst e2
          rw [if_pos rfl]
          refine ⟨_, rfl, ?_⟩
          have := State.two_le_refs s h k p e hd hk
          have hne : ¬ (o.reference_count = 1) := by omega
          simp [IntrusivePtrEnabled.released, hne, hdel]
        · rw [if_neg e2]; exact ⟨o2, ho2, hdel2⟩
    · intro q o2 ho2 hdel2
      rw [hpay q] at ho2
      have hrq := hrefs q
      by_cases e2 : p = q
      · subst e2
        rw [if_pos rfl] at ho2
        simp only [Option.some.injEq] at ho2
        subst ho2
        rw [hd, if_pos rfl] at hrq
        have hne : ¬ (o.reference_count = 1) := by
          intro e1
          simp [IntrusivePtrEnabled.released, e1] at hdel2
        simp only [IntrusivePtrEnabled.released]
        omega
      · rw [if_neg e2] at ho2
        have : s.data h ≠ some q := by
          rw [hd]; intro e; apply e2; injection e
        rw [if_neg this] at hrq
        have := hI.counted q o2 ho2 hdel2
        omega
    · intro q o2 ho2
      rw [hpay q] at ho2
      by_cases e2 : p = q
      · subst e2
        rw [if_pos rfl] at ho2
        simp only [Option.some.injEq] at ho2
        subst ho2
        simp only [IntrusivePtrEnabled.released]
        split <;> omega
      · rw [if_neg e2] at ho2
        exact hI.once q o2 ho2
    · rw [hE]
      simp only
      have hne : o.reference_count ≠ 0 := by omega
      split
      · exact ⟨⟨hne, hlogged⟩, hI.traceOK⟩
      · exact ⟨⟨hne, hlogged⟩, hI.traceOK⟩
    · intro q hq
      have hdq : (Reset w s h).deleted q =
          if p = q then o.released.deleted else s.deleted q := by
        unfold State.deleted
        rw [hpay q]
        by_cases e2 : p = q <;> simp [e2]
      rw [hdq]
      rw [hE] at hq
      simp only at hq
      by_cases e2 : p = q
      · subst e2
        rw [if_pos rfl]
        by_cases e1 : o.reference_count = 1
        · simp [IntrusivePtrEnabled.released, e1]
        · rw [if_neg e1] at hq
          simp only [List.mem_cons, reduceCtorEq, false_or] at hq
          exact absurd hq hlogged
      · rw [if_neg e2]
        apply hI.logged q
        split at hq
        · simp only [List.mem_cons, Event.Deleter.injEq, reduceCtorEq, false_or] at hq
          rcases hq with hq | hq
          · exact absurd hq.symm e2
          · exact hq
        · simp only [List.mem_cons, reduceCtorEq, false_or] at hq
          exact hq

end IntrusivePtr

/-! ## Handle creation and the end of a handle's lifetime -/

namespace IntrusivePtr

theorem construct_eq (s : State) : construct s = constructRaw s none := rfl

@[simp] theorem constructRaw_snd (s : State) (d : Option Nat) :
    (constructRaw s d).2 = s.handles.length := rfl

@[simp] theorem constructRaw_payloads (s : State) (d : Option Nat) :
    (constructRaw s d).1.payloads = s.payloads := rfl

@[simp] theorem constructRaw_trace (s : State) (d : Option Nat) :
    (constructRaw s d).1.trace = s.trace := rfl

theorem constructRaw_handles (s : State) (d : Option Nat) (k : Nat) :
    (constructRaw s d).1.handles[k]? =
      if k = s.handles.length then some (some { data := d }) else s.handles[k]? :=
  getElem?_snoc s.handles _ k

theorem constructRaw_data (s : State) (d : Option Nat) (k : Nat) :
    (constructRaw s d).1.data k = if k = s.handles.length then d else s.data k := by
  unfold State.data
  rw [constructRaw_handles]
  by_cases e : k = s.handles.length <;> simp [e]

theorem dead_of_length_le (s : State) (k : Nat) (hk : s.handles.length ≤ k) :
    s.live k = false ∧ s.data k = none := by
  unfold State.live State.data
  rw [List.getElem?_eq_none hk]
  exact ⟨rfl, rfl⟩

theorem constructRaw_live (s : State) (d : Option Nat) (k : Nat) :
    (constructRaw s d).1.live k = if k = s.handles.length then true else s.live k := by
  unfold State.live
  rw [constructRaw_handles]
  by_cases e : k = s.handles.length <;> simp [e]

theorem constructRaw_refs (s : State) (d : Option Nat) (p : Nat) :
    (constructRaw s d).1.refs p = s.refs p + (if d = some p then 1 else 0) := by
  simp only [State.refs, constructRaw, List.count_append, List.count_singleton, beq_iff_eq,
    Option.some.injEq, IntrusivePtr.mk.injEq]

theorem constructRaw_liveHandles (s : State) (d : Option Nat) :
    (constructRaw s d).1.liveHandles = s.liveHandles + 1 := by
  simp [State.liveHandles, constructRaw, List.countP_append]

end IntrusivePtr

namespace State

theorem endLifetime_handles (s : State) (h : Nat) (hl : s.live h = true) (k : Nat) :
    (s.endLifetime h).handles[k]? = if h = k then some none else s.handles[k]? :=
  getElem?_set_of_some s.handles h k _ _ (handles_of_live s h hl)

theorem endLifetime_data (s : State) (h : Nat) (hl : s.live h = true) (k : Nat) :
    (s.endLifetime h).data k = if h = k then none else s.data k := by
  unfold data
  rw [endLifetime_handles s h hl k]
  by_cases e : h = k <;> simp [e]

theorem endLifetime_live (s : State) (h : Nat) (hl : s.live h = true) (k : Nat) :
    (s.endLifetime h).live k = if h = k then false else s.live k := by
  unfold live
  rw [endLifetime_handles s h hl k]
  by_cases e : h = k <;> simp [e]

theorem endLifetime_refs (s : State) (h : Nat) (hl : s.live h = true) (p : Nat) :
    (s.endLifetime h).refs p + (if s.data h = some p then 1 else 0) = s.refs p := by
  have := count_set_add s.handles h _ none (some { data := some p }) (handles_of_live s h hl)
  simpa [refs, endLifetime] using this

theorem endLifetime_liveHandles (s : State) (h : Nat) (hl : s.live h = true) :
    (s.endLifetime h).liveHandles + 1 = s.liveHandles := by
  have := countP_set_add Option.isSome s.handles h _ none (handles_of_live s h hl)
  simpa [liveHandles, endLifetime] using this

end State

/-- States that agree on payloads, trace and reference numbers, and whose handles point only
where handles pointed before, share the invariant. -/
theorem Inv.frame {w : Nat} {s t : State} (hI : Inv w s) (hp : t.payloads = s.payloads)
    (ht : t.trace = s.trace) (hr : ∀ p, t.refs p = s.refs p)
    (hd : ∀ k p, t.data k = some p → ∃ k2, s.data k2 = some p) (hf : t.fits w) : Inv w t := by
  refine ⟨hf, ?_, ?_, ?_, ?_, ?_⟩
  · intro k p hk
    obtain ⟨k2, hk2⟩ := hd k p hk
    rw [hp]; exact hI.nodangling k2 p hk2
  · intro p o ho hdel
    rw [hp] at ho; rw [hr p]; exact hI.counted p o ho hdel
  · intro p o ho
    rw [hp] at ho; exact hI.once p o ho
  · rw [ht]; exact hI.traceOK
  · intro p hmem
    rw [ht] at hmem
    have : t.deleted p = s.deleted p := by unfold State.deleted; rw [hp]
    rw [this]; exact hI.logged p hmem

/-! ## The tails of copy and move assignment -/

namespace IntrusivePtr

theorem copyFrom_null (w : Nat) (s : State) (this other : Nat) (hl : s.live this = true)
    (hd : s.data this = none) (hq : s.data other = none) : copyFrom w s this other = s := by
  unfold copyFrom
  rw [hq]
  have e : s.setData this none = s := by
    have := State.setData_self s this hl
    rw [hd] at this; exact this
  simp only [e, hd]

theorem copyFrom_some {w : Nat} {s : State} (hI : Inv w s) (this other q : Nat)
    (hl : s.live this = true) (hd : s.data this = none) (hq : s.data other = some q) :
    ∃ o, s.payloads[q]? = some o ∧ o.deleted = 0 ∧ 0 < o.reference_count ∧
      o.reference_count = s.refs q ∧
      copyFrom w s this other =
        { payloads := s.payloads.set q o.acquired
          handles := s.handles.set this (some { data := some q })
          trace := Event.AddRef q o.reference_count :: s.trace } := by
  obtain ⟨o, ho, hdel⟩ := hI.nodangling other q hq
  obtain ⟨h0, hr, _⟩ := hI.count_bounds q o ho hdel
  refine ⟨o, ho, hdel, h0, hr, ?_⟩
  have hrefs := State.refs_setData s this (some q) hl q
  rw [hd] at hrefs
  simp only [reduceCtorEq, if_false, if_true, Nat.add_zero] at hrefs
  have hle := State.refs_le_liveHandles (s.setData this (some q)) q
  rw [State.liveHandles_setData s this (some q) hl] at hle
  have hfit : s.liveHandles < 2 ^ w := hI.fits
  have hc : o.reference_count + 1 < 2 ^ w := by omega
  unfold copyFrom
  rw [hq]
  simp only [State.data_setData s this (some q) hl this, if_true]
  rw [IntrusivePtrEnabled.AddRef_of w (s.setData this (some q)) q o ho hc]
  rfl

theorem copyFrom_handles (w : Nat) (s : State) (this other : Nat) :
    (copyFrom w s this other).handles = (s.setData this (s.data other)).handles := by
  unfold copyFrom
  simp only
  split <;> simp

theorem copyFrom_inv {w : Nat} {s : State} (hI : Inv w s) (this other : Nat)
    (hl : s.live this = true) (hd : s.data this = none) : Inv w (copyFrom w s this other) := by
  cases hq : s.data other with
  | none => rw [copyFrom_null w s this other hl hd hq]; exact hI
  | some q =>
    obtain ⟨o, ho, hdel, h0, hr, hE⟩ := copyFrom_some (w := w) hI this other q hl hd hq
    have hH := copyFrom_handles w s this other
    rw [hq] at hH
    have hdata : ∀ k, (copyFrom w s this other).data k =
        if this = k then some q else s.data k := by
      intro k
      rw [State.data_congr hH k, State.data_setData s this (some q) hl k]
    have hrefs : ∀ r, (copyFrom w s this other).refs r =
        s.refs r + (if q = r then 1 else 0) := by
      intro r
      rw [State.refs_congr hH r]
      have := State.refs_setData s this (some q) hl r
      rw [hd] at this
      simpa using this
    have hpay : ∀ r, (copyFrom w s this other).payloads[r]? =
        if q = r then some o.acquired else s.payloads[r]? := by
      intro r
      rw [hE]
      exact getElem?_set_of_some s.payloads q r o _ ho
    have hlogged : Event.Deleter q ∉ s.trace :=
      hI.not_logged q (by rw [State.deleted_of_payload s q o ho]; exact hdel)
    refine ⟨?_, ?_, ?_, ?_, ?_, ?_⟩
    · show (copyFrom w s this other).liveHandles < 2 ^ w
      rw [State.liveHandles_congr hH, State.liveHandles_setData s this (some q) hl]
      exact hI.fits
    · intro k r hk
      rw [hpay r]
      by_cases e2 : q = r
      · subst e2
        rw [if_pos rfl]
        exact ⟨_, rfl, hdel⟩
      · rw [if_neg e2]
        rw [hdata k] at hk
        by_cases e : this = k
        · rw [if_pos e] at hk
          injection hk with hk
          exact absurd hk e2
        · rw [if_neg e] at hk
          exact hI.nodangling k r hk
    · intro r o2 ho2 hdel2
      rw [hpay r] at ho2
      rw [hrefs r]
      by_cases e2 : q = r
      · subst e2
        rw [if_pos rfl] at ho2
        simp only [Option.some.injEq] at ho2
        subst ho2
        simp only [IntrusivePtrEnabled.acquired, if_true]
        omega
      · rw [if_neg e2] at ho2
        rw [if_neg e2]
        exact hI.counted r o2 ho2 hdel2
    · intro r o2 ho2
      rw [hpay r] at ho2
      by_cases e2 : q = r
      · subst e2
        rw [if_pos rfl] at ho2
        simp only [Option.some.injEq] at ho2
        subst ho2
        simp only [IntrusivePtrEnabled.acquired]
        omega
      · rw [if_neg e2] at ho2
        exact hI.once r o2 ho2
    · rw [hE]
      exact ⟨⟨by omega, hlogged⟩, hI.traceOK⟩
    · intro r hmem
      have hdq : (copyFrom w s this other).deleted r = s.deleted r := by
        unfold State.deleted
        rw [hpay r]
        by_cases e2 : q = r
        · subst e2; simp [ho, IntrusivePtrEnabled.acquired]
        · simp [e2]
      rw [hdq]
      apply hI.logged r
      rw [hE] at hmem
      simpa using hmem

theorem moveFrom_data (s : State) (this other : Nat) (hl : s.live this = true)
    (hl2 : s.live other = true) (k : Nat) :
    (moveFrom s this other).data k =
      if other = k then none else if this = k then s.data other else s.data k := by
  unfold moveFrom
  rw [State.data_setData _ other none (by rw [State.live_setData s this _ hl]; exact hl2) k,
    State.data_setData s this _ hl k]

theorem moveFrom_live (s : State) (this other : Nat) (hl : s.live this = true)
    (hl2 : s.live other = true) (k : Nat) : (moveFrom s this other).live k = s.live k := by
  unfold moveFrom
  rw [State.live_setData _ other none (by rw [State.live_setData s this _ hl]; exact hl2) k,
    State.live_setData s this _ hl k]

theorem moveFrom_liveHandles (s : State) (this other : Nat) (hl : s.live this = true)
    (hl2 : s.live other = true) : (moveFrom s this other).liveHandles = s.liveHandles := by
  unfold moveFrom
  rw [State.liveHandles_setData _ other none
      (by rw [State.live_setData s this _ hl]; exact hl2),
    State.liveHandles_setData s this _ hl]

theorem moveFrom_refs (s : State) (this other : Nat) (hl : s.live this = true)
    (hl2 : s.live other = true) (hne : this ≠ other) (hd : s.data this = none) (p : Nat) :
    (moveFrom s this other).refs p = s.refs p := by
  unfold moveFrom
  have h1 := State.refs_setData s this (s.data other) hl p
  have h2 := State.refs_setData (s.setData this (s.data other)) other none
    (by rw [State.live_setData s this _ hl]; exact hl2) p
  rw [State.data_setData s this _ hl other, if_neg hne] at h2
  rw [hd] at h1
  simp only [reduceCtorEq, if_false, Nat.add_zero] at h1 h2
  omega

theorem moveFrom_inv {w : Nat} {s : State} (hI : Inv w s) (this other : Nat)
    (hl : s.live this = true) (hl2 : s.live other = true) (hne : this ≠ other)
    (hd : s.data this = none) : Inv w (moveFrom s this other) := by
  refine Inv.frame (t := moveFrom s this other) hI rfl rfl
    (moveFrom_refs s this other hl hl2 hne hd) ?_ ?_
  · intro k p hk
    rw [moveFrom_data s this other hl hl2 k] at hk
    by_cases e : other = k
    · rw [if_pos e] at hk; cases hk
    · rw [if_neg e] at hk
      by_cases e2 : this = k
      · rw [if_pos e2] at hk; exact ⟨other, hk⟩
      · rw [if_neg e2] at hk; exact ⟨k, hk⟩
  · show (moveFrom s this other).liveHandles < 2 ^ w
    rw [moveFrom_liveHandles s this other hl hl2]; exact hI.fits

end IntrusivePtr

/-! ## Every operation keeps the invariant -/

theorem State.exists_data_of_refs_pos (s : State) (p : Nat) (h : 0 < s.refs p) :
    ∃ k, s.data k = some p := by
  unfold State.refs at h
  rw [List.count_pos_iff] at h
  obtain ⟨k, hk⟩ := List.mem_iff_getElem?.mp h
  exact ⟨k, (State.data_eq_some s k p).mpr hk⟩

theorem State.refs_eq_zero (s : State) (p : Nat) (h : ∀ k, s.data k ≠ some p) :
    s.refs p = 0 := by
  rcases Nat.eq_zero_or_pos (s.refs p) with e | e
  · exact e
  · obtain ⟨k, hk⟩ := s.exists_data_of_refs_pos p e
    exact absurd hk (h k)

namespace IntrusivePtr

theorem assignCopyU_eq (w : Nat) (s : State) (this other : Nat) :
    assignCopyU w s this other = copyFrom w (Reset w s this) this other := rfl

theorem assignCopy_eq (w : Nat) (s : State) (this other : Nat) (hne : this ≠ other) :
    assignCopy w s this other = copyFrom w (Reset w s this) this other := by
  unfold assignCopy
  rw [if_pos hne]
  rfl

theorem assignCopy_self (w : Nat) (s : State) (this : Nat) : assignCopy w s this this = s := by
  unfold assignCopy
  simp

theorem assignMoveU_eq (w : Nat) (s : State) (this other : Nat) :
    assignMoveU w s this other = moveFrom (Reset w s this) this other := rfl

theorem assignMove_eq (w : Nat) (s : State) (this other : Nat) (hne : this ≠ other) :
    assignMove w s this other = moveFrom (Reset w s this) this other := by
  unfold assignMove
  rw [if_pos hne]
  rfl

theorem assignMove_self (w : Nat) (s : State) (this : Nat) : assignMove w s this this = s := by
  unfold assignMove
  simp

theorem destruct_eq (w : Nat) (s : State) (this : Nat) :
    destruct w s this = (Reset w s this).endLifetime this := rfl

theorem Reset_data_self (w : Nat) (s : State) (h : Nat) (hl : s.live h = true) :
    (Reset w s h).data h = none := by
  rw [Reset_data w s h hl h, if_pos rfl]

theorem assignCopyU_inv {w : Nat} {s : State} (hI : Inv w s) (this other : Nat)
    (hl : s.live this = true) : Inv w (assignCopyU w s this other) := by
  rw [assignCopyU_eq]
  exact copyFrom_inv (Reset_inv hI this hl) this other
    (by rw [Reset_live w s this hl]; exact hl) (Reset_data_self w s this hl)

theorem assignCopy_inv {w : Nat} {s : State} (hI : Inv w s) (this other : Nat)
    (hl : s.live this = true) : Inv w (assignCopy w s this other) := by
  by_cases hne : this = other
  · subst hne; rw [assignCopy_self]; exact hI
  · rw [assignCopy_eq w s this other hne, ← assignCopyU_eq]
    exact assignCopyU_inv hI this other hl

theorem assignMoveU_inv {w : Nat} {s : State} (hI : Inv w s) (this other : Nat)
    (hl : s.live this = true) (hl2 : s.live other = true) (hne : this ≠ other) :
    Inv w (assignMoveU w s this other) := by
  rw [assignMoveU_eq]
  exact moveFrom_inv (Reset_inv hI this hl) this other
    (by rw [Reset_live w s this hl]; exact hl) (by rw [Reset_live w s this hl]; exact hl2) hne
    (Reset_data_self w s this hl)

theorem assignMove_inv {w : Nat} {s : State} (hI : Inv w s) (this other : Nat)
    (hl : s.live this = true) (hl2 : s.live other = true) :
    Inv w (assignMove w s this other) := by
  by_cases hne : this = other
  · subst hne; rw [assignMove_self]; exact hI
  · rw [assignMove_eq w s this other hne, ← assignMoveU_eq]
    exact assignMoveU_inv hI this other hl hl2 hne

theorem destruct_inv {w : Nat} {s : State} (hI : Inv w s) (this : Nat)
    (hl : s.live this = true) : Inv w (destruct w s this) := by
  rw [destruct_eq]
  have hI1 := Reset_inv hI this hl
  have hl1 : (Reset w s this).live this = true := by rw [Reset_live w s this hl]; exact hl
  have hd1 := Reset_data_self w s this hl
  refine Inv.frame (t := (Reset w s this).endLifetime this) hI1 rfl rfl ?_ ?_ ?_
  · intro p
    have := State.endLifetime_refs (Reset w s this) this hl1 p
    rw [hd1] at this
    simpa using this
  · intro k p hk
    rw [State.endLifetime_data _ this hl1 k] at hk
    by_cases e : this = k
    · rw [if_pos e] at hk; cases hk
    · rw [if_neg e] at hk; exact ⟨k, hk⟩
  · show ((Reset w s this).endLifetime this).liveHandles < 2 ^ w
    have h1 := State.endLifetime_liveHandles (Reset w s this) this hl1
    have h2 : (Reset w s this).liveHandles < 2 ^ w := hI1.fits
    omega

theorem constructRaw_null_inv {w : Nat} {s : State} (hI : Inv w s)
    (hf : (constructRaw s none).1.fits w) : Inv w (constructRaw s none).1 := by
  refine Inv.frame (t := (constructRaw s none).1) hI rfl rfl ?_ ?_ hf
  · intro p
    rw [constructRaw_refs]
    simp
  · intro k p hk
    rw [constructRaw_data] at hk
    by_cases e : k = s.handles.length
    · rw [if_pos e] at hk; cases hk
    · rw [if_neg e] at hk; exact ⟨k, hk⟩

theorem construct_inv {w : Nat} {s : State} (hI : Inv w s) (hf : (construct s).1.fits w) :
    Inv w (construct s).1 :=
  constructRaw_null_inv hI hf

theorem construct_live (s : State) : (construct s).1.live (construct s).2 = true := by
  rw [construct_eq, constructRaw_live]
  simp

theorem construct_data (s : State) : (construct s).1.data (construct s).2 = none := by
  rw [construct_eq, constructRaw_data]
  simp

theorem assignCopyU_liveHandles (w : Nat) (s : State) (this other : Nat)
    (hl : s.live this = true) : (assignCopyU w s this other).liveHandles = s.liveHandles := by
  rw [assignCopyU_eq, State.liveHandles_congr (copyFrom_handles w _ this other),
    State.liveHandles_setData _ this _ (by rw [Reset_live w s this hl]; exact hl),
    Reset_liveHandles w s this hl]

theorem assignCopy_liveHandles (w : Nat) (s : State) (this other : Nat)
    (hl : s.live this = true) : (assignCopy w s this other).liveHandles = s.liveHandles := by
  by_cases hne : this = other
  · subst hne; rw [assignCopy_self]
  · rw [assignCopy_eq w s this other hne, ← assignCopyU_eq]
    exact assignCopyU_liveHandles w s this other hl

theorem assignMoveU_liveHandles (w : Nat) (s : State) (this other : Nat)
    (hl : s.live this = true) (hl2 : s.live other = true) :
    (assignMoveU w s this other).liveHandles = s.liveHandles := by
  rw [assignMoveU_eq, moveFrom_liveHandles _ this other
    (by rw [Reset_live w s this hl]; exact hl) (by rw [Reset_live w s this hl]; exact hl2),
    Reset_liveHandles w s this hl]

theorem assignMove_liveHandles (w : Nat) (s : State) (this other : Nat)
    (hl : s.live this = true) (hl2 : s.live other = true) :
    (assignMove w s this other).liveHandles = s.liveHandles := by
  by_cases hne : this = other
  · subst hne; rw [assignMove_self]
  · rw [assignMove_eq w s this other hne, ← assignMoveU_eq]
    exact assignMoveU_liveHandles w s this other hl hl2

theorem constructCopyU_inv {w : Nat} {s : State} (hI : Inv w s) (other : Nat)
    (hf : (constructCopyU w s other).1.fits w) : Inv w (constructCopyU w s other).1 := by
  have hf1 : (construct s).1.fits w := by
    have := assignCopyU_liveHandles w (construct s).1 (construct s).2 other (construct_live s)
    unfold State.fits at hf ⊢
    rw [← this]; exact hf
  exact assignCopyU_inv (construct_inv hI hf1) _ other (construct_live s)

theorem constructCopy_inv {w : Nat} {s : State} (hI : Inv w s) (other : Nat)
    (hf : (constructCopy w s other).1.fits w) : Inv w (constructCopy w s other).1 := by
  have hf1 : (construct s).1.fits w := by
    have := assignCopy_liveHandles w (construct s).1 (construct s).2 other (construct_live s)
    unfold State.fits at hf ⊢
    rw [← this]; exact hf
  exact assignCopy_inv (construct_inv hI hf1) _ other (construct_live s)

theorem live_construct_of_live (s : State) (k : Nat) (hl : s.live k = true) :
    (construct s).1.live k = true := by
  rw [construct_eq, constructRaw_live]
  by_cases e : k = s.handles.length
  · rw [if_pos e]
  · rw [if_neg e]; exact hl

theorem ne_length_of_live (s : State) (k : Nat) (hl : s.live k = true) :
    s.handles.length ≠ k := by
  intro e
  have := (dead_of_length_le s k (by omega)).1
  rw [hl] at this; cases this

theorem constructMoveU_inv {w : Nat} {s : State} (hI : Inv w s) (other : Nat)
    (hl : s.live other = true) (hf : (constructMoveU w s other).1.fits w) :
    Inv w (constructMoveU w s other).1 := by
  have hl2 := live_construct_of_live s other hl
  have hf1 : (construct s).1.fits w := by
    have := assignMoveU_liveHandles w (construct s).1 (construct s).2 other
      (construct_live s) hl2
    unfold State.fits at hf ⊢
    rw [← this]; exact hf
  exact assignMoveU_inv (construct_inv hI hf1) _ other (construct_live s) hl2
    (ne_length_of_live s other hl)

theorem constructMove_inv {w : Nat} {s : State} (hI : Inv w s) (other : Nat)
    (hl : s.live other = true) (hf : (constructMove w s other).1.fits w) :
    Inv w (constructMove w s other).1 := by
  have hl2 := live_construct_of_live s other hl
  have hf1 : (construct s).1.fits w := by
    have := assignMove_liveHandles w (construct s).1 (construct s).2 other
      (construct_live s) hl2
    unfold State.fits at hf ⊢
    rw [← this]; exact hf
  exact assignMove_inv (construct_inv hI hf1) _ other (construct_live s) hl2

end IntrusivePtr

/-! ## Factories and `ReferenceFromThis` -/

theorem set_snoc {α : Type} (l : List α) (a b : α) : (l ++ [a]).set l.length b = l ++ [b] := by
  induction l with
  | nil => rfl
  | cons y l ih => simp only [List.cons_append, List.length_cons, List.set_cons_succ, ih]

theorem MakeHandle_fst (s : State) (ops : ReferenceOps) :
    (MakeHandle s ops).1 =
      { payloads := s.payloads ++ [{ ops := ops, reference_count := ops.init, deleted := 0 }]
        handles := s.handles ++ [some { data := some s.payloads.length }]
        trace := s.trace } := rfl

theorem MakeHandle_snd (s : State) (ops : ReferenceOps) :
    (MakeHandle s ops).2 = s.handles.length := rfl

theorem MakeDerivedHandle_eq (s : State) (ops : ReferenceOps) :
    MakeDerivedHandle s ops = MakeHandle s ops := rfl

theorem MakeHandle_payloads (s : State) (ops : ReferenceOps) (r : Nat) :
    (MakeHandle s ops).1.payloads[r]? =
      if r = s.payloads.length
      then some { ops := ops, reference_count := ops.init, deleted := 0 }
      else s.payloads[r]? :=
  getElem?_snoc s.payloads _ r

theorem MakeHandle_data (s : State) (ops : ReferenceOps) (k : Nat) :
    (MakeHandle s ops).1.data k =
      if k = s.handles.length then some s.payloads.length else s.data k :=
  IntrusivePtr.constructRaw_data (s.new ops).1 (some s.payloads.length) k

theorem MakeHandle_refs (s : State) (ops : ReferenceOps) (p : Nat) :
    (MakeHandle s ops).1.refs p = s.refs p + (if s.payloads.length = p then 1 else 0) := by
  have := IntrusivePtr.constructRaw_refs (s.new ops).1 (some s.payloads.length) p
  simpa using this

theorem MakeHandle_inv {w : Nat} {s : State} (hI : Inv w s) (ops : ReferenceOps)
    (hf : (MakeHandle s ops).1.fits w) : Inv w (MakeHandle s ops).1 := by
  have hfresh : ∀ k, s.data k ≠ some s.payloads.length := by
    intro k hk
    obtain ⟨o, ho, _⟩ := hI.nodangling k _ hk
    rw [List.getElem?_eq_none (Nat.le_refl _)] at ho
    cases ho
  have hzero := s.refs_eq_zero _ hfresh
  refine ⟨hf, ?_, ?_, ?_, ?_, ?_⟩
  · intro k r hk
    rw [MakeHandle_payloads]
    by_cases e : r = s.payloads.length
    · rw [if_pos e]; exact ⟨_, rfl, rfl⟩
    · rw [if_neg e]
      rw [MakeHandle_data] at hk
      by_cases e2 : k = s.handles.length
      · rw [if_pos e2] at hk
        injection hk with hk
        exact absurd hk.symm e
      · rw [if_neg e2] at hk
        exact hI.nodangling k r hk
  · intro r o2 ho2 hdel2
    rw [MakeHandle_payloads] at ho2
    rw [MakeHandle_refs]
    by_cases e : r = s.payloads.length
    · rw [if_pos e] at ho2
      simp only [Option.some.injEq] at ho2
      subst ho2
      subst e
      simp [hzero, ReferenceOps.init_eq]
    · rw [if_neg e] at ho2
      rw [if_neg (fun h => e h.symm)]
      exact hI.counted r o2 ho2 hdel2
  · intro r o2 ho2
    rw [MakeHandle_payloads] at ho2
    by_cases e : r = s.payloads.length
    · rw [if_pos e] at ho2
      simp only [Option.some.injEq] at ho2
      subst ho2
      exact Nat.zero_le _
    · rw [if_neg e] at ho2
      exact hI.once r o2 ho2
  · exact hI.traceOK
  · intro r hmem
    have hpos := hI.logged r hmem
    have hlt : r < s.payloads.length := by
      rcases Nat.lt_or_ge r s.payloads.length with h | h
      · exact h
      · unfold State.deleted at hpos
        rw [List.getElem?_eq_none h] at hpos
        simp at hpos
    unfold State.deleted
    rw [MakeHandle_payloads, if_neg (by omega)]
    exact hpos

theorem ReferenceFromThis_eq_constructCopy {w : Nat} {s : State} (hI : Inv w s) (p k : Nat)
    (hk : s.data k = some p) (hf : (IntrusivePtrEnabled.ReferenceFromThis w s p).1.fits w) :
    IntrusivePtrEnabled.ReferenceFromThis w s p = IntrusivePtr.constructCopy w s k := by
  obtain ⟨o, ho, hdel⟩ := hI.nodangling k p hk
  obtain ⟨h0, hr, _⟩ := hI.count_bounds p o ho hdel
  have hlive := State.live_of_data s k p hk
  have hne := IntrusivePtr.ne_length_of_live s k hlive
  have hfit1 : s.liveHandles + 1 < 2 ^ w := by
    have h1 : (IntrusivePtrEnabled.ReferenceFromThis w s p).1.liveHandles < 2 ^ w := hf
    unfold IntrusivePtrEnabled.ReferenceFromThis at h1
    rw [IntrusivePtr.constructRaw_liveHandles,
      State.liveHandles_congr (IntrusivePtrEnabled.handles_AddRef w s p)] at h1
    exact h1
  have hc : o.reference_count + 1 < 2 ^ w := by
    have := State.refs_le_liveHandles s p
    omega
  have hI1 : Inv w (IntrusivePtr.construct s).1 := by
    apply IntrusivePtr.construct_inv hI
    show (IntrusivePtr.construct s).1.liveHandles < 2 ^ w
    rw [IntrusivePtr.construct_eq, IntrusivePtr.constructRaw_liveHandles]
    exact hfit1
  have hk1 : (IntrusivePtr.construct s).1.data k = some p := by
    rw [IntrusivePtr.construct_eq, IntrusivePtr.constructRaw_data, if_neg (fun e => hne e.symm)]
    exact hk
  obtain ⟨o2, ho2, _, _, _, hE⟩ := IntrusivePtr.copyFrom_some (w := w) hI1
    (IntrusivePtr.construct s).2 k p (IntrusivePtr.construct_live s)
    (IntrusivePtr.construct_data s) hk1
  have ho2' : s.payloads[p]? = some o2 := ho2
  rw [ho] at ho2'
  injection ho2' with ho2'
  subst ho2'
  unfold IntrusivePtrEnabled.ReferenceFromThis IntrusivePtr.constructCopy
  simp only
  rw [IntrusivePtr.assignCopy_eq w (IntrusivePtr.construct s).1 (IntrusivePtr.construct s).2 k hne,
    IntrusivePtr.Reset_null w _ _ (IntrusivePtr.construct_live s) (IntrusivePtr.construct_data s),
    hE, IntrusivePtrEnabled.AddRef_of w s p o ho hc]
  simp only [IntrusivePtr.constructRaw, IntrusivePtr.construct, set_snoc]

theorem ReferenceFromThis_inv {w : Nat} {s : State} (hI : Inv w s) (p : Nat)
    (o : IntrusivePtrEnabled) (ho : s.payloads[p]? = some o) (hdel : o.deleted = 0)
    (hf : (IntrusivePtrEnabled.ReferenceFromThis w s p).1.fits w) :
    Inv w (IntrusivePtrEnabled.ReferenceFromThis w s p).1 := by
  obtain ⟨_, hpos⟩ := hI.counted p o ho hdel
  obtain ⟨k, hk⟩ := s.exists_data_of_refs_pos p hpos
  have e := ReferenceFromThis_eq_constructCopy hI p k hk hf
  rw [e] at hf ⊢
  exact IntrusivePtr.constructCopy_inv hI k hf

/-! ## Reachable states -/

theorem Inv_empty (w : Nat) : Inv w State.empty := by
  refine ⟨?_, ?_, ?_, ?_, ?_, ?_⟩
  · show State.empty.liveHandles < 2 ^ w
    exact Nat.pos_of_ne_zero (by positivity)
  · intro h p hd; simp [State.data, State.empty] at hd
  · intro p o ho; simp [State.empty] at ho
  · intro p o ho; simp [State.empty] at ho
  · exact True.intro
  · intro p hmem; simp [State.empty] at hmem

theorem step_inv {w : Nat} {s t : State} (hI : Inv w s) (op : Op) (hs : step w s op = some t)
    (hf : t.fits w) : Inv w t := by
  cases op with
  | MakeHandle ops =>
    simp only [step, Option.some.injEq] at hs
    subst hs; exact MakeHandle_inv hI ops hf
  | MakeDerivedHandle ops =>
    simp only [step, Option.some.injEq] at hs
    subst hs; exact MakeHandle_inv hI ops hf
  | construct =>
    simp only [step, Option.some.injEq] at hs
    subst hs; exact IntrusivePtr.construct_inv hI hf
  | constructCopy other =>
    simp only [step] at hs
    split at hs
    · injection hs with hs; subst hs; exact IntrusivePtr.constructCopy_inv hI other hf
    · cases hs
  | constructCopyU other =>
    simp only [step] at hs
    split at hs
    · injection hs with hs; subst hs; exact IntrusivePtr.constructCopyU_inv hI other hf
    · cases hs
  | assignCopy this other =>
    simp only [step] at hs
    split at hs
    · next h => injection hs with hs; subst hs; exact IntrusivePtr.assignCopy_inv hI this other h.1
    · cases hs
  | assignCopyU this other =>
    simp only [step] at hs
    split at hs
    · next h => injection hs with hs; subst hs; exact IntrusivePtr.assignCopyU_inv hI this other h.1
    · cases hs
  | constructMove other =>
    simp only [step] at hs
    split at hs
    · next h => injection hs with hs; subst hs; exact IntrusivePtr.constructMove_inv hI other h hf
    · cases hs
  | constructMoveU other =>
    simp only [step] at hs
    split at hs
    · next h => injection hs with hs; subst hs; exact IntrusivePtr.constructMoveU_inv hI other h hf
    · cases hs
  | assignMove this other =>
    simp only [step] at hs
    split at hs
    · next h =>
      injection hs with hs; subst hs; exact IntrusivePtr.assignMove_inv hI this other h.1 h.2
    · cases hs
  | assignMoveU this other =>
    simp only [step] at hs
    split at hs
    · next h =>
      injection hs with hs; subst hs
      exact IntrusivePtr.assignMoveU_inv hI this other h.1 h.2.1 h.2.2
    · cases hs
  | Reset this =>
    simp only [step] at hs
    split at hs
    · next h => injection hs with hs; subst hs; exact IntrusivePtr.Reset_inv hI this h
    · cases hs
  | destruct this =>
    simp only [step] at hs
    split at hs
    · next h => injection hs with hs; subst hs; exact IntrusivePtr.destruct_inv hI this h
    · cases hs
  | ReferenceFromThis p =>
    simp only [step] at hs
    split at hs
    · next hpos =>
      injection hs with hs; subst hs
      obtain ⟨k, hk⟩ := s.exists_data_of_refs_pos p hpos
      obtain ⟨o, ho, hdel⟩ := hI.nodangling k p hk
      exact ReferenceFromThis_inv hI p o ho hdel hf
    · cases hs

theorem Reachable.inv {w : Nat} {s : State} (h : Reachable w s) : Inv w s := by
  induction h with
  | empty => exact Inv_empty w
  | step op _ hs hf ih => exact step_inv ih op hs hf

theorem Reachable.run {w : Nat} {s t : State} (h : Reachable w s) (ops : List Op)
    (hr : run w s ops = some t) : Reachable w t := by
  induction ops generalizing s with
  | nil =>
    simp only [Util.run, Option.some.injEq] at hr
    subst hr; exact h
  | cons op rest ih =>
    simp only [Util.run] at hr
    split at hr
    · next s1 hs =>
      split at hr
      · next hf => exact ih (Reachable.step op h hs hf) hr
      · cases hr
    · cases hr

theorem TraceOK_counter_ne_zero (l : List Event) (h : TraceOK l) (q c : Nat)
    (hm : Event.AddRef q c ∈ l ∨ Event.Release q c ∈ l) : c ≠ 0 := by
  induction l with
  | nil => simp at hm
  | cons e l ih =>
    cases e with
    | AddRef p c2 =>
      simp only [List.mem_cons, Event.AddRef.injEq, reduceCtorEq, false_or] at hm
      rcases hm with (⟨_, rfl⟩ | hm) | hm
      · exact h.1.1
      · exact ih h.2 (Or.inl hm)
      · exact ih h.2 (Or.inr hm)
    | Release p c2 =>
      simp only [List.mem_cons, Event.Release.injEq, reduceCtorEq, false_or] at hm
      rcases hm with hm | ⟨_, rfl⟩ | hm
      · exact ih h.2 (Or.inl hm)
      · exact h.1.1
      · exact ih h.2 (Or.inr hm)
    | Deleter p =>
      simp only [List.mem_cons, reduceCtorEq, false_or] at hm
      exact ih h hm

/-! ## What the assignments do to payload objects -/

theorem ReferenceOps.Release_one (w : Nat) (ops : ReferenceOps) :
    ReferenceOps.Release w ops 1 = (0, true) := by
  have h : 1 + (2 ^ w - 1) = 2 ^ w := by
    have : 0 < 2 ^ w := Nat.pos_of_ne_zero (by positivity)
    omega
  cases ops
  · simp only [ReferenceOps.Release, SingleThreadCounter.Release, h, Nat.mod_self]
    rfl
  · simp only [ReferenceOps.Release, MultiThreadCounter.Release, h, Nat.mod_self]
    rfl

namespace IntrusivePtr

theorem Reset_payloads {w : Nat} {s : State} (hI : Inv w s) (h : Nat) (hl : s.live h = true)
    (r : Nat) :
    (Reset w s h).payloads[r]? =
      if s.data h = some r then (s.payloads[r]?).map IntrusivePtrEnabled.released
      else s.payloads[r]? := by
  cases hd : s.data h with
  | none => rw [Reset_null w s h hl hd, if_neg (by simp)]
  | some p =>
    obtain ⟨o, ho, _, _, _, hE⟩ := Reset_some (w := w) hI h p hd
    rw [hE]
    show (s.payloads.set p o.released)[r]? = _
    rw [getElem?_set_of_some s.payloads p r o _ ho]
    by_cases e : p = r
    · subst e; simp [ho]
    · have : ¬ (some p = some r) := by intro e2; apply e; injection e2
      rw [if_neg e, if_neg this]

theorem Reset_trace {w : Nat} {s : State} (hI : Inv w s) (h p : Nat)
    (hd : s.data h = some p) :
    (Reset w s h).trace =
      if s.count p = 1 then Event.Deleter p :: Event.Release p (s.count p) :: s.trace
      else Event.Release p (s.count p) :: s.trace := by
  obtain ⟨o, ho, _, _, _, hE⟩ := Reset_some (w := w) hI h p hd
  rw [hE, State.count_of_payload s p o ho]

theorem copyFrom_payloads {w : Nat} {s : State} (hI : Inv w s) (this other : Nat)
    (hl : s.live this = true) (hd : s.data this = none) (r : Nat) :
    (copyFrom w s this other).payloads[r]? =
      if s.data other = some r then (s.payloads[r]?).map IntrusivePtrEnabled.acquired
      else s.payloads[r]? := by
  cases hq : s.data other with
  | none => rw [copyFrom_null w s this other hl hd hq, if_neg (by simp)]
  | some q =>
    obtain ⟨o, ho, _, _, _, hE⟩ := copyFrom_some (w := w) hI this other q hl hd hq
    rw [hE]
    show (s.payloads.set q o.acquired)[r]? = _
    rw [getElem?_set_of_some s.payloads q r o _ ho]
    by_cases e : q = r
    · subst e; simp [ho]
    · have : ¬ (some q = some r) := by intro e2; apply e; injection e2
      rw [if_neg e, if_neg this]

theorem copyFrom_trace {w : Nat} {s : State} (hI : Inv w s) (this other : Nat)
    (hl : s.live this = true) (hd : s.data this = none) :
    (copyFrom w s this other).trace =
      match s.data other with
      | some q => Event.AddRef q (s.count q) :: s.trace
      | none => s.trace := by
  cases hq : s.data other with
  | none => rw [copyFrom_null w s this other hl hd hq]
  | some q =>
    obtain ⟨o, ho, _, _, _, hE⟩ := copyFrom_some (w := w) hI this other q hl hd hq
    simp only [hE, State.count_of_payload s q o ho]

theorem copyFrom_data (w : Nat) (s : State) (this other : Nat) (hl : s.live this = true)
    (k : Nat) :
    (copyFrom w s this other).data k = if this = k then s.data other else s.data k := by
  rw [State.data_congr (copyFrom_handles w s this other) k, State.data_setData s this _ hl k]

theorem copyFrom_live (w : Nat) (s : State) (this other : Nat) (hl : s.live this = true)
    (k : Nat) : (copyFrom w s this other).live k = s.live k := by
  rw [State.live_congr (copyFrom_handles w s this other) k, State.live_setData s this _ hl k]

theorem assignCopyU_data (w : Nat) (s : State) (this other : Nat) (hl : s.live this = true)
    (hne : this ≠ other) (k : Nat) :
    (assignCopyU w s this other).data k = if this = k then s.data other else s.data k := by
  rw [assignCopyU_eq, copyFrom_data w _ this other (by rw [Reset_live w s this hl]; exact hl) k,
    Reset_data w s this hl other, if_neg hne, Reset_data w s this hl k]
  by_cases e : this = k <;> simp [e]

theorem assignCopyU_live (w : Nat) (s : State) (this other : Nat) (hl : s.live this = true)
    (k : Nat) : (assignCopyU w s this other).live k = s.live k := by
  rw [assignCopyU_eq, copyFrom_live w _ this other (by rw [Reset_live w s this hl]; exact hl) k,
    Reset_live w s this hl k]

theorem assignCopyU_payloads {w : Nat} {s : State} (hI : Inv w s) (this other : Nat)
    (hl : s.live this = true) (hne : this ≠ other) (r : Nat) :
    (assignCopyU w s this other).payloads[r]? =
      if s.data other = some r then
        ((if s.data this = some r then (s.payloads[r]?).map IntrusivePtrEnabled.released
          else s.payloads[r]?)).map IntrusivePtrEnabled.acquired
      else if s.data this = some r then (s.payloads[r]?).map IntrusivePtrEnabled.released
      else s.payloads[r]? := by
  rw [assignCopyU_eq, copyFrom_payloads (Reset_inv hI this hl) this other
    (by rw [Reset_live w s this hl]; exact hl) (Reset_data_self w s this hl) r,
    Reset_data w s this hl other, if_neg hne, Reset_payloads hI this hl r]

theorem assignMoveU_data (w : Nat) (s : State) (this other : Nat) (hl : s.live this = true)
    (hl2 : s.live other = true) (hne : this ≠ other) (k : Nat) :
    (assignMoveU w s this other).data k =
      if other = k then none else if this = k then s.data other else s.data k := by
  rw [assignMoveU_eq, moveFrom_data _ this other (by rw [Reset_live w s this hl]; exact hl)
    (by rw [Reset_live w s this hl]; exact hl2) k,
    Reset_data w s this hl other, if_neg hne, Reset_data w s this hl k]
  by_cases e : other = k
  · rw [if_pos e, if_pos e]
  · rw [if_neg e, if_neg e]
    by_cases e2 : this = k
    · rw [if_pos e2, if_pos e2]
    · rw [if_neg e2, if_neg e2, if_neg e2]

theorem assignMoveU_payloads (w : Nat) (s : State) (this other : Nat) :
    (assignMoveU w s this other).payloads = (Reset w s this).payloads := rfl

theorem assignMoveU_trace (w : Nat) (s : State) (this other : Nat) :
    (assignMoveU w s this other).trace = (Reset w s this).trace := rfl

end IntrusivePtr

namespace State

theorem count_released (s t : State) (p : Nat) (hdel : 0 < s.count p)
    (h : t.payloads[p]? = (s.payloads[p]?).map IntrusivePtrEnabled.released) :
    t.count p + 1 = s.count p ∧
    t.deleted p = s.deleted p + (if s.count p = 1 then 1 else 0) := by
  unfold count deleted at *
  rw [h]
  cases hp : s.payloads[p]? with
  | none => rw [hp] at hdel; simp at hdel
  | some o =>
    rw [hp] at hdel
    simp only [Option.map_some', IntrusivePtrEnabled.released] at hdel ⊢
    exact ⟨by omega, trivial⟩

theorem count_acquired (s t : State) (p : Nat) (hdel : 0 < s.count p)
    (h : t.payloads[p]? = (s.payloads[p]?).map IntrusivePtrEnabled.acquired) :
    t.count p = s.count p + 1 ∧ t.deleted p = s.deleted p := by
  unfold count deleted at *
  rw [h]
  cases hp : s.payloads[p]? with
  | none => rw [hp] at hdel; simp at hdel
  | some o =>
    simp only [Option.map_some', IntrusivePtrEnabled.acquired]
    exact ⟨trivial, trivial⟩

theorem count_pos_of_data {w : Nat} {s : State} (hI : Inv w s) (h p : Nat)
    (hd : s.data h = some p) : 0 < s.count p ∧ s.deleted p = 0 ∧ s.count p = s.refs p := by
  obtain ⟨o, ho, hdel⟩ := hI.nodangling h p hd
  obtain ⟨h0, hr, _⟩ := hI.count_bounds p o ho hdel
  rw [count_of_payload s p o ho, deleted_of_payload s p o ho]
  exact ⟨h0, hdel, hr⟩

end State

/-! ## Running programs -/

theorem run_cons_of (w : Nat) (s s1 : State) (op : Op) (rest : List Op)
    (hstep : step w s op = some s1) (hf : s1.fits w) :
    run w s (op :: rest) = run w s1 rest := by
  simp only [run, hstep, hf, if_true]

theorem run_append_of (w : Nat) (s s1 : State) (a b : List Op) (h : run w s a = some s1) :
    run w s (a ++ b) = run w s1 b := by
  induction a generalizing s with
  | nil =>
    simp only [run, Option.some.injEq] at h
    subst h; rfl
  | cons op rest ih =>
    simp only [run, List.cons_append] at h ⊢
    split at h
    · next s2 hs2 =>
      split at h
      · next hf =>
        simp only [hf, if_true]
        exact ih s2 h
      · cases h
    · cases h

namespace IntrusivePtr

theorem destruct_data (w : Nat) (s : State) (h : Nat) (hl : s.live h = true) (k : Nat) :
    (destruct w s h).data k = if h = k then none else s.data k := by
  rw [destruct_eq, State.endLifetime_data _ h (by rw [Reset_live w s h hl]; exact hl) k,
    Reset_data w s h hl k]
  by_cases e : h = k <;> simp [e]

theorem destruct_payloads (w : Nat) (s : State) (h : Nat) :
    (destruct w s h).payloads = (Reset w s h).payloads := rfl

theorem constructCopy_handles (w : Nat) (s : State) (b : Nat) (hl : s.live b = true) :
    (constructCopy w s b).1.handles = (constructRaw s (s.data b)).1.handles := by
  have hlen := ne_length_of_live s b hl
  have e : (constructCopy w s b).1 = copyFrom w (construct s).1 (construct s).2 b := by
    show assignCopy w (construct s).1 (construct s).2 b = _
    rw [assignCopy_eq w (construct s).1 (construct s).2 b hlen,
      Reset_null w _ _ (construct_live s) (construct_data s)]
  rw [e, copyFrom_handles]
  have hd : (construct s).1.data b = s.data b := by
    rw [construct_eq, constructRaw_data, if_neg (fun e => hlen e.symm)]
  rw [hd]
  exact set_snoc s.handles _ _

theorem constructCopyU_eq_constructCopy (w : Nat) (s : State) (b : Nat)
    (hl : s.live b = true) : constructCopyU w s b = constructCopy w s b := by
  show (assignCopyU w _ _ b, _) = (assignCopy w _ _ b, _)
  rw [assignCopy_eq w (construct s).1 (construct s).2 b (ne_length_of_live s b hl),
    assignCopyU_eq]

theorem constructCopy_fits (w : Nat) (s : State) (b : Nat) (hl : s.live b = true)
    (hf : s.liveHandles + 1 < 2 ^ w) : (constructCopy w s b).1.fits w := by
  show (constructCopy w s b).1.liveHandles < 2 ^ w
  rw [State.liveHandles_congr (t := (constructCopy w s b).1) (constructCopy_handles w s b hl),
    constructRaw_liveHandles]
  exact hf

end IntrusivePtr

/-! ## Dropping all handles of a payload -/

/-- Effect of one drop of a handle that refers to `p`, whichever way it is performed. -/
theorem drop_step {w : Nat} {s : State} (hI : Inv w s) (base p : Nat) (d : Drop)
    (hd : s.data (base + d.handle) = some p) :
    ∃ s1, step w s (d.op base) = some s1 ∧ Inv w s1 ∧
      (∀ k, s1.data k = if base + d.handle = k then none else s.data k) ∧
      s1.payloads[p]? = (s.payloads[p]?).map IntrusivePtrEnabled.released ∧
      s1.refs p + 1 = s.refs p := by
  have hl := State.live_of_data s _ p hd
  have hpay := IntrusivePtr.Reset_payloads hI (base + d.handle) hl p
  rw [if_pos hd] at hpay
  have hrefs := IntrusivePtr.Reset_refs w s (base + d.handle) hl p
  rw [if_pos hd] at hrefs
  cases d with
  | Reset i =>
    simp only [Drop.handle] at hd hl hpay hrefs ⊢
    refine ⟨IntrusivePtr.Reset w s (base + i), ?_, IntrusivePtr.Reset_inv hI _ hl,
      IntrusivePtr.Reset_data w s _ hl, hpay, hrefs⟩
    simp only [Drop.op, step]
    rw [if_pos hl]
  | destruct i =>
    simp only [Drop.handle] at hd hl hpay hrefs ⊢
    have hl1 : (IntrusivePtr.Reset w s (base + i)).live (base + i) = true := by
      rw [IntrusivePtr.Reset_live w s _ hl]; exact hl
    refine ⟨IntrusivePtr.destruct w s (base + i), ?_, IntrusivePtr.destruct_inv hI _ hl,
      IntrusivePtr.destruct_data w s _ hl, hpay, ?_⟩
    · simp only [Drop.op, step]
      rw [if_pos hl]
    · have h1 := State.endLifetime_refs (IntrusivePtr.Reset w s (base + i)) (base + i) hl1 p
      rw [IntrusivePtr.Reset_data_self w s _ hl] at h1
      simp only [reduceCtorEq, if_false, Nat.add_zero] at h1
      rw [IntrusivePtr.destruct_eq, h1]
      exact hrefs

theorem drops_lemma (w : Nat) (base p : Nat) (drops : List Drop) :
    ∀ s : State, Inv w s → s.deleted p = 0 → 0 < s.count p →
    (drops.map Drop.handle).Nodup →
    (∀ k, s.data k = some p ↔ ∃ i, i ∈ drops.map Drop.handle ∧ k = base + i) →
    ∀ j, j ≤ drops.length →
      ∃ s2, run w s ((drops.take j).map (Drop.op base)) = some s2 ∧
        s2.deleted p = (if j = drops.length then 1 else 0) ∧
        s2.count p + j = s.count p := by
  induction drops with
  | nil =>
    intro s hI hdel hpos _ hall j _
    exfalso
    have hex : ∃ o, s.payloads[p]? = some o := by
      unfold State.count at hpos
      cases hp : s.payloads[p]? with
      | none => rw [hp] at hpos; simp at hpos
      | some o => exact ⟨o, rfl⟩
    obtain ⟨o, ho⟩ := hex
    rw [State.deleted_of_payload s p o ho] at hdel
    obtain ⟨_, hr⟩ := hI.counted p o ho hdel
    obtain ⟨k, hk⟩ := s.exists_data_of_refs_pos p hr
    obtain ⟨i, hi, _⟩ := (hall k).mp hk
    simp at hi
  | cons d ds ih =>
    intro s hI hdel hpos hnd hall j hj
    cases j with
    | zero =>
      refine ⟨s, rfl, ?_, rfl⟩
      rw [hdel, if_neg (by simp)]
    | succ j =>
      have hj2 : j ≤ ds.length := by simpa using hj
      have hd : s.data (base + d.handle) = some p :=
        (hall _).mpr ⟨d.handle, by simp, rfl⟩
      obtain ⟨s1, hstep, hI1, hdata, hpay, hrefs⟩ := drop_step hI base p d hd
      obtain ⟨hc1, hd1⟩ := State.count_released s s1 p hpos hpay
      rw [hdel, Nat.zero_add] at hd1
      obtain ⟨_, _, hcr⟩ := State.count_pos_of_data hI _ p hd
      simp only [List.map_cons, List.nodup_cons] at hnd
      have hall1 : ∀ k, s1.data k = some p ↔ ∃ i, i ∈ ds.map Drop.handle ∧ k = base + i := by
        intro k
        rw [hdata k]
        constructor
        · intro hk
          by_cases e : base + d.handle = k
          · rw [if_pos e] at hk; cases hk
          · rw [if_neg e] at hk
            obtain ⟨i, hi, hki⟩ := (hall k).mp hk
            simp only [List.map_cons, List.mem_cons] at hi
            rcases hi with hi | hi
            · subst hi; exact absurd hki.symm e
            · exact ⟨i, hi, hki⟩
        · rintro ⟨i, hi, hki⟩
          have hne : ¬ (base + d.handle = k) := by
            intro e
            have : d.handle = i := by omega
            rw [this] at hnd
            exact hnd.1 hi
          rw [if_neg hne]
          exact (hall k).mpr ⟨i, by simp [hi], hki⟩
      have hrun : run w s (((d :: ds).take (j + 1)).map (Drop.op base))
          = run w s1 ((ds.take j).map (Drop.op base)) := by
        simp only [List.take_succ_cons, List.map_cons]
        exact run_cons_of w s s1 _ _ hstep hI1.fits
      rw [hrun]
      cases ds with
      | nil =>
        have hj0 : j = 0 := by simpa using hj2
        subst hj0
        have hz : s1.refs p = 0 := by
          apply s1.refs_eq_zero
          intro k hk
          obtain ⟨i, hi, _⟩ := (hall1 k).mp hk
          simp at hi
        have hone : s.count p = 1 := by omega
        refine ⟨s1, rfl, ?_, ?_⟩
        · rw [hd1, if_pos hone]; simp
        · omega
      | cons d2 ds2 =>
        have hd2 : s1.data (base + d2.handle) = some p :=
          (hall1 _).mpr ⟨d2.handle, by simp, rfl⟩
        have hr1 := s1.refs_pos_of_data _ p hd2
        have hne1 : ¬ (s.count p = 1) := by omega
        rw [if_neg hne1] at hd1
        obtain ⟨s2, hr2, hdel2, hcnt2⟩ := ih s1 hI1 hd1 (by omega) hnd.2 hall1 j hj2
        refine ⟨s2, hr2, ?_, by omega⟩
        rw [hdel2]
        by_cases e : j = (d2 :: ds2).length
        · rw [if_pos e, if_pos (by simp only [List.length_cons] at e ⊢; omega)]
        · rw [if_neg e, if_neg (by simp only [List.length_cons] at e ⊢; omega)]

/-! ## Making copies of a handle -/

theorem copy_step (w : Nat) (t : State) (base j : Nat) (c : Copy)
    (hlen : t.handles.length = base + j) (hl : t.live (base + c.src) = true)
    (hf : t.liveHandles + 1 < 2 ^ w) :
    run w t (c.ops base (base + j)) = some (IntrusivePtr.constructCopy w t (base + c.src)).1 := by
  have hfit := IntrusivePtr.constructCopy_fits w t (base + c.src) hl hf
  cases c with
  | construct src =>
    simp only [Copy.src] at hl hfit ⊢
    have hstep : step w t (Op.constructCopy (base + src))
        = some (IntrusivePtr.constructCopy w t (base + src)).1 := by
      simp only [step]
      rw [if_pos hl]
    simp only [Copy.ops]
    rw [run_cons_of w t _ _ _ hstep hfit]
    rfl
  | constructU src =>
    simp only [Copy.src] at hl hfit ⊢
    have hstep : step w t (Op.constructCopyU (base + src))
        = some (IntrusivePtr.constructCopy w t (base + src)).1 := by
      simp only [step]
      rw [if_pos hl, IntrusivePtr.constructCopyU_eq_constructCopy w t _ hl]
    simp only [Copy.ops]
    rw [run_cons_of w t _ _ _ hstep hfit]
    rfl
  | assignU src =>
    simp only [Copy.src] at hl hfit ⊢
    have hstep1 : step w t Op.construct = some (IntrusivePtr.construct t).1 := rfl
    have hfit1 : (IntrusivePtr.construct t).1.fits w := by
      show (IntrusivePtr.construct t).1.liveHandles < 2 ^ w
      rw [IntrusivePtr.construct_eq, IntrusivePtr.constructRaw_liveHandles]
      exact hf
    have hl1 : (IntrusivePtr.construct t).1.live (base + j) = true := by
      rw [← hlen]; exact IntrusivePtr.construct_live t
    have hl2 := IntrusivePtr.live_construct_of_live t (base + src) hl
    have hne : base + j ≠ base + src := by
      rw [← hlen]; exact IntrusivePtr.ne_length_of_live t _ hl
    have hstep2 : step w (IntrusivePtr.construct t).1 (Op.assignCopyU (base + j) (base + src))
        = some (IntrusivePtr.constructCopy w t (base + src)).1 := by
      simp only [step]
      rw [if_pos ⟨hl1, hl2, hne⟩, ← IntrusivePtr.constructCopyU_eq_constructCopy w t _ hl,
        ← hlen]
      rfl
    simp only [Copy.ops]
    rw [run_cons_of w t _ _ _ hstep1 hfit1, run_cons_of w _ _ _ _ hstep2 hfit]
    rfl
  | assign src =>
    simp only [Copy.src] at hl hfit ⊢
    have hstep1 : step w t Op.construct = some (IntrusivePtr.construct t).1 := rfl
    have hfit1 : (IntrusivePtr.construct t).1.fits w := by
      show (IntrusivePtr.construct t).1.liveHandles < 2 ^ w
      rw [IntrusivePtr.construct_eq, IntrusivePtr.constructRaw_liveHandles]
      exact hf
    have hl1 : (IntrusivePtr.construct t).1.live (base + j) = true := by
      rw [← hlen]; exact IntrusivePtr.construct_live t
    have hl2 := IntrusivePtr.live_construct_of_live t (base + src) hl
    have hstep2 : step w (IntrusivePtr.construct t).1 (Op.assignCopy (base + j) (base + src))
        = some (IntrusivePtr.constructCopy w t (base + src)).1 := by
      simp only [step]
      rw [if_pos ⟨hl1, hl2⟩, ← hlen]
      rfl
    simp only [Copy.ops]
    rw [run_cons_of w t _ _ _ hstep1 hfit1, run_cons_of w _ _ _ _ hstep2 hfit]
    rfl

theorem copies_lemma (w : Nat) (base p : Nat) (copies : List Copy) :
    ∀ (j : Nat) (t : State), Reachable w t → 0 < j → t.handles.length = base + j →
    (∀ k, t.data k = some p ↔ base ≤ k ∧ k < base + j) →
    t.liveHandles + copies.length < 2 ^ w → copiesValid j copies = true → t.refs p = j →
    ∃ s1, run w t (copyProgram base j copies) = some s1 ∧ Reachable w s1 ∧
      (∀ k, s1.data k = some p ↔ base ≤ k ∧ k < base + j + copies.length) ∧
      s1.refs p = j + copies.length := by
  induction copies with
  | nil =>
    intro j t ht _ _ hall _ _ hr
    exact ⟨t, rfl, ht, by simpa using hall, by simpa using hr⟩
  | cons c cs ih =>
    intro j t ht hj hlen hall hf hv hr
    simp only [List.length_cons] at hf
    simp only [copiesValid, Bool.and_eq_true, decide_eq_true_eq] at hv
    obtain ⟨hsrc, hv2⟩ := hv
    have hd : t.data (base + c.src) = some p := (hall _).mpr ⟨by omega, by omega⟩
    have hl := State.live_of_data t _ p hd
    have hrun := copy_step w t base j c hlen hl (by omega)
    have hH := IntrusivePtr.constructCopy_handles w t (base + c.src) hl
    have ht1 : Reachable w (IntrusivePtr.constructCopy w t (base + c.src)).1 :=
      Reachable.run ht _ hrun
    have hdata : ∀ k, (IntrusivePtr.constructCopy w t (base + c.src)).1.data k =
        if k = t.handles.length then some p else t.data k := by
      intro k
      rw [State.data_congr hH k, IntrusivePtr.constructRaw_data, hd]
    obtain ⟨s1, hr1, hs1, hall1, hrefs1⟩ := ih (j + 1)
      (IntrusivePtr.constructCopy w t (base + c.src)).1 ht1 (by omega)
      (by rw [hH]; simp [IntrusivePtr.constructRaw, hlen]; omega)
      (by
        intro k
        rw [hdata k, hlen]
        by_cases e : k = base + j
        · rw [if_pos e]; simp; omega
        · rw [if_neg e, hall k]; omega)
      (by
        rw [State.liveHandles_congr hH, IntrusivePtr.constructRaw_liveHandles]; omega)
      hv2
      (by
        rw [State.refs_congr hH p, IntrusivePtr.constructRaw_refs, hd, if_pos rfl, hr])
    refine ⟨s1, ?_, hs1, ?_, ?_⟩
    · simp only [copyProgram]
      rw [run_append_of w t _ _ _ hrun]
      exact hr1
    · intro k
      rw [hall1 k]
      simp only [List.length_cons]; omega
    · rw [hrefs1]
      simp only [List.length_cons]; omega

/-! ## The claims -/

/-- C1, count invariant: in every state reachable from the empty state by `MakeHandle`,
`MakeDerivedHandle`, default, copy and move construction, copy and move assignment (same-type
and template), `Reset`, destruction and `ReferenceFromThis`, the live handles fitting into
the address space, a payload that has not been deleted holds a counter equal to the number of
live handles whose `data` refers to it. -/
theorem count_invariant (w : Nat) (s : State) (hs : Reachable w s) (p : Nat)
    (o : IntrusivePtrEnabled) (ho : s.payloads[p]? = some o) (hlive : o.deleted = 0) :
    o.reference_count = s.refs p :=
  (hs.inv.counted p o ho hlive).1

/-- The count invariant in the state `Example.program` ends in: three live handles refer to
the payload and its counter is 3. -/
theorem count_invariant_witness :
    (3 : Nat) = Example.final.refs 0 :=
  count_invariant 64 Example.final
    (Reachable.run (w := 64) Reachable.empty Example.program (by decide))
    0 { ops := .MultiThreadCounter, reference_count := 3, deleted := 0 } rfl rfl

/-- C2, single destruction: from any reachable state, let `MakeHandle` create a payload and
let `n` further copies of its handle be made, each by copy construction or by copy assignment
to a fresh handle (same-type or template overload), all handles fitting into the address
space. The counter is then `n + 1`.
When the `n + 1` handles are dropped in any order, each by `Reset` or by the destructor, the
program runs through, after every proper prefix of the drops the deleter has not run on the
payload, after the last drop it has run exactly once, and each drop lowers the counter by
one. -/
theorem single_destruction (w : Nat) (s0 : State) (hs0 : Reachable w s0) (ops : ReferenceOps)
    (copies : List Copy) (drops : List Drop)
    (hfit : s0.liveHandles + copies.length + 1 < 2 ^ w)
    (hsrc : copiesValid 1 copies = true)
    (hperm : (drops.map Drop.handle).Perm (List.range (copies.length + 1))) :
    ∃ s1, run w s0 (Op.MakeHandle ops :: copyProgram s0.handles.length 1 copies) = some s1 ∧
      s1.refs s0.payloads.length = copies.length + 1 ∧
      s1.count s0.payloads.length = copies.length + 1 ∧
      s1.deleted s0.payloads.length = 0 ∧
      ∀ j, j ≤ drops.length →
        ∃ s2, run w s1 ((drops.take j).map (Drop.op s0.handles.length)) = some s2 ∧
          s2.deleted s0.payloads.length = (if j = drops.length then 1 else 0) ∧
          s2.count s0.payloads.length + j = copies.length + 1 := by
  have hI0 := hs0.inv
  have hstep : step w s0 (Op.MakeHandle ops) = some (MakeHandle s0 ops).1 := rfl
  have hfitM : (MakeHandle s0 ops).1.fits w := by
    show (MakeHandle s0 ops).1.liveHandles < 2 ^ w
    have : (MakeHandle s0 ops).1.liveHandles = s0.liveHandles + 1 :=
      IntrusivePtr.constructRaw_liveHandles (s0.new ops).1 _
    omega
  have hM : Reachable w (MakeHandle s0 ops).1 := Reachable.step _ hs0 hstep hfitM
  have hfresh : ∀ k, s0.data k ≠ some s0.payloads.length := by
    intro k hk
    obtain ⟨o, ho, _⟩ := hI0.nodangling k _ hk
    rw [List.getElem?_eq_none (Nat.le_refl _)] at ho
    cases ho
  have hallM : ∀ k, (MakeHandle s0 ops).1.data k = some s0.payloads.length ↔
      s0.handles.length ≤ k ∧ k < s0.handles.length + 1 := by
    intro k
    rw [MakeHandle_data]
    by_cases e : k = s0.handles.length
    · rw [if_pos e]; simp; omega
    · rw [if_neg e]
      constructor
      · intro hk; exact absurd hk (hfresh k)
      · intro hk; omega
  have hrefsM : (MakeHandle s0 ops).1.refs s0.payloads.length = 1 := by
    rw [MakeHandle_refs, s0.refs_eq_zero _ hfresh, if_pos rfl]
  have hlenM : (MakeHandle s0 ops).1.handles.length = s0.handles.length + 1 := by
    simp [MakeHandle_fst]
  have hliveM : (MakeHandle s0 ops).1.liveHandles + copies.length < 2 ^ w := by
    have : (MakeHandle s0 ops).1.liveHandles = s0.liveHandles + 1 :=
      IntrusivePtr.constructRaw_liveHandles (s0.new ops).1 _
    omega
  obtain ⟨s1, hrun1, hs1, hall1, hrefs1⟩ := copies_lemma w s0.handles.length
    s0.payloads.length copies 1 (MakeHandle s0 ops).1 hM (by omega) hlenM hallM hliveM hsrc hrefsM
  have hI1 := hs1.inv
  have hbase : s1.data s0.handles.length = some s0.payloads.length :=
    (hall1 _).mpr ⟨Nat.le_refl _, by omega⟩
  obtain ⟨hpos, hdel, hcr⟩ := State.count_pos_of_data hI1 _ _ hbase
  have hcount : s1.count s0.payloads.length = copies.length + 1 := by omega
  refine ⟨s1, ?_, by omega, hcount, hdel, ?_⟩
  · rw [run_cons_of w s0 _ _ _ hstep hfitM]
    exact hrun1
  · have hnd : (drops.map Drop.handle).Nodup := hperm.nodup_iff.mpr (List.nodup_range _)
    have hallD : ∀ k, s1.data k = some s0.payloads.length ↔
        ∃ i, i ∈ drops.map Drop.handle ∧ k = s0.handles.length + i := by
      intro k
      rw [hall1 k]
      constructor
      · intro hk
        refine ⟨k - s0.handles.length, ?_, by omega⟩
        rw [hperm.mem_iff, List.mem_range]
        omega
      · rintro ⟨i, hi, hk⟩
        rw [hperm.mem_iff, List.mem_range] at hi
        omega
    intro j hj
    obtain ⟨s2, hr2, hd2, hc2⟩ := drops_lemma w s0.handles.length s0.payloads.length drops s1
      hI1 hdel hpos hnd hallD j hj
    exact ⟨s2, hr2, hd2, by omega⟩

/-- Single destruction for two copies, one made by copy construction and one by copy
assignment, the three handles being dropped in the order 1, 2, 0. -/
theorem single_destruction_witness :
    ∃ s1, run 64 State.empty (Op.MakeHandle .SingleThreadCounter ::
        copyProgram State.empty.handles.length 1 [Copy.construct 0, Copy.assignU 1]) = some s1 ∧
      s1.refs State.empty.payloads.length = [Copy.construct 0, Copy.assignU 1].length + 1 ∧
      s1.count State.empty.payloads.length = [Copy.construct 0, Copy.assignU 1].length + 1 ∧
      s1.deleted State.empty.payloads.length = 0 ∧
      ∀ j, j ≤ [Drop.destruct 1, Drop.Reset 2, Drop.destruct 0].length →
        ∃ s2, run 64 s1 (([Drop.destruct 1, Drop.Reset 2, Drop.destruct 0].take j).map
            (Drop.op State.empty.handles.length)) = some s2 ∧
          s2.deleted State.empty.payloads.length =
            (if j = [Drop.destruct 1, Drop.Reset 2, Drop.destruct 0].length then 1 else 0) ∧
          s2.count State.empty.payloads.length + j
            = [Copy.construct 0, Copy.assignU 1].length + 1 :=
  single_destruction 64 State.empty Reachable.empty .SingleThreadCounter
    [Copy.construct 0, Copy.assignU 1] [Drop.destruct 1, Drop.Reset 2, Drop.destruct 0]
    (by decide) rfl (by decide)

/-- C3, move neutrality, amended: in a reachable state, for every live source handle, move
construction (same-type or template) gives the new handle the source's payload, nulls the
source and changes no payload object, so every counter keeps its value and no call is
recorded; the same-type move assignment of the handle to itself changes nothing, so the handle
keeps its target; and for a move assignment (same-type or template) into any other live
handle the destination refers afterwards to what the source referred to and the source is
null, the counter of the source's payload being unchanged when the destination did not
already refer to that payload, and one lower when it did. -/
theorem move_neutrality (w : Nat) (s : State) (hs : Reachable w s) (other : Nat)
    (hl2 : s.live other = true) :
    (IntrusivePtr.constructMove w s other = IntrusivePtr.constructMoveU w s other ∧
      IntrusivePtr.Get (IntrusivePtr.constructMoveU w s other).1
        (IntrusivePtr.constructMoveU w s other).2 = s.data other ∧
      IntrusivePtr.Get (IntrusivePtr.constructMoveU w s other).1 other = none ∧
      (IntrusivePtr.constructMoveU w s other).1.payloads = s.payloads ∧
      (∀ q, (IntrusivePtr.constructMoveU w s other).1.count q = s.count q) ∧
      (IntrusivePtr.constructMoveU w s other).1.trace = s.trace) ∧
    (IntrusivePtr.assignMove w s other other = s ∧
      IntrusivePtr.Get (IntrusivePtr.assignMove w s other other) other = s.data other) ∧
    (∀ this, s.live this = true → this ≠ other →
      IntrusivePtr.assignMove w s this other = IntrusivePtr.assignMoveU w s this other ∧
      IntrusivePtr.Get (IntrusivePtr.assignMoveU w s this other) this = s.data other ∧
      IntrusivePtr.Get (IntrusivePtr.assignMoveU w s this other) other = none ∧
      (∀ q, s.data other = some q → s.data this ≠ some q →
        (IntrusivePtr.assignMoveU w s this other).count q = s.count q) ∧
      (∀ q, s.data other = some q → s.data this = some q →
        (IntrusivePtr.assignMoveU w s this other).count q + 1 = s.count q)) := by
  have hI := hs.inv
  have hlen := IntrusivePtr.ne_length_of_live s other hl2
  have hc1 := IntrusivePtr.construct_live s
  have hc2 := IntrusivePtr.construct_data s
  have hc3 := IntrusivePtr.live_construct_of_live s other hl2
  have hcm : (IntrusivePtr.constructMoveU w s other).1
      = IntrusivePtr.moveFrom (IntrusivePtr.construct s).1 (IntrusivePtr.construct s).2 other := by
    show IntrusivePtr.assignMoveU w _ _ other = _
    rw [IntrusivePtr.assignMoveU_eq, IntrusivePtr.Reset_null w _ _ hc1 hc2]
  have hcd : ∀ k, (IntrusivePtr.constructMoveU w s other).1.data k =
      if other = k then none else if s.handles.length = k then s.data other else s.data k := by
    intro k
    rw [hcm, IntrusivePtr.moveFrom_data _ _ other hc1 hc3 k]
    simp only [IntrusivePtr.construct_eq, IntrusivePtr.constructRaw_data,
      IntrusivePtr.constructRaw_snd]
    have h1 : ¬ (other = s.handles.length) := fun e => hlen e.symm
    simp only [h1, if_false]
    by_cases e2 : s.handles.length = k
    · simp only [e2, if_true]
    · have e3 : ¬ (k = s.handles.length) := fun e3 => e2 e3.symm
      simp only [e2, e3, if_false]
  have hpay : (IntrusivePtr.constructMoveU w s other).1.payloads = s.payloads := by
    rw [hcm]; rfl
  refine ⟨⟨?_, ?_, ?_, hpay, ?_, ?_⟩, ⟨IntrusivePtr.assignMove_self w s other, ?_⟩, ?_⟩
  · show (IntrusivePtr.assignMove w _ _ other, _) = (IntrusivePtr.assignMoveU w _ _ other, _)
    rw [IntrusivePtr.assignMove_eq w (IntrusivePtr.construct s).1 (IntrusivePtr.construct s).2
      other hlen, IntrusivePtr.assignMoveU_eq]
  · show (IntrusivePtr.constructMoveU w s other).1.data s.handles.length = _
    rw [hcd, if_neg (fun e => hlen e.symm), if_pos rfl]
  · show (IntrusivePtr.constructMoveU w s other).1.data other = _
    rw [hcd, if_pos rfl]
  · intro q
    unfold State.count
    rw [hpay]
  · rw [hcm]; rfl
  · rw [IntrusivePtr.assignMove_self w s other]; rfl
  · intro this hl hne
    refine ⟨?_, ?_, ?_, ?_, ?_⟩
    · rw [IntrusivePtr.assignMove_eq w s this other hne, IntrusivePtr.assignMoveU_eq]
    · show (IntrusivePtr.assignMoveU w s this other).data this = _
      rw [IntrusivePtr.assignMoveU_data w s this other hl hl2 hne this,
        if_neg (fun e => hne e.symm), if_pos rfl]
    · show (IntrusivePtr.assignMoveU w s this other).data other = _
      rw [IntrusivePtr.assignMoveU_data w s this other hl hl2 hne other, if_pos rfl]
    · intro q _ hq
      unfold State.count
      rw [IntrusivePtr.assignMoveU_payloads, IntrusivePtr.Reset_payloads_of_ne w s this q hq]
    · intro q _ hq
      obtain ⟨hpos, _, _⟩ := State.count_pos_of_data hI this q hq
      have hp := IntrusivePtr.Reset_payloads hI this hl q
      rw [if_pos hq] at hp
      exact (State.count_released s (IntrusivePtr.assignMoveU w s this other) q hpos hp).1

/-- Right after `MakeHandle` the only handle, 0, is moved from by construction and assigned
to itself: the new handle gets payload 0, handle 0 becomes null and the counter stays at 1;
the self-move changes nothing. Moving handle 1 into handle 0, which refers to another payload,
leaves the counter of the moved payload alone; moving handle 2 into handle 0 of the same
payload lowers it by one. -/
theorem move_neutrality_witness :
    (IntrusivePtr.constructMove 64 (MakeHandle State.empty .SingleThreadCounter).1 0
      = IntrusivePtr.constructMoveU 64 (MakeHandle State.empty .SingleThreadCounter).1 0 ∧
    IntrusivePtr.Get
      (IntrusivePtr.constructMoveU 64 (MakeHandle State.empty .SingleThreadCounter).1 0).1
      (IntrusivePtr.constructMoveU 64 (MakeHandle State.empty .SingleThreadCounter).1 0).2
      = some 0 ∧
    IntrusivePtr.Get
      (IntrusivePtr.constructMoveU 64 (MakeHandle State.empty .SingleThreadCounter).1 0).1 0
      = none ∧
    (IntrusivePtr.constructMoveU 64 (MakeHandle State.empty .SingleThreadCounter).1 0).1.count 0
      = 1 ∧
    IntrusivePtr.assignMove 64 (MakeHandle State.empty .SingleThreadCounter).1 0 0
      = (MakeHandle State.empty .SingleThreadCounter).1) ∧
    (IntrusivePtr.assignMove 64 Example.two 0 1 = IntrusivePtr.assignMoveU 64 Example.two 0 1 ∧
    IntrusivePtr.Get (IntrusivePtr.assignMoveU 64 Example.two 0 1) 0 = some 1 ∧
    IntrusivePtr.Get (IntrusivePtr.assignMoveU 64 Example.two 0 1) 1 = none ∧
    (IntrusivePtr.assignMoveU 64 Example.two 0 1).count 1 = Example.two.count 1) ∧
    (IntrusivePtr.assignMoveU 64 Example.final 0 2).count 0 + 1 = Example.final.count 0 :=
  have f := move_neutrality 64 (MakeHandle State.empty .SingleThreadCounter).1
    (Reachable.run (w := 64) Reachable.empty [.MakeHandle .SingleThreadCounter] (by decide))
    0 rfl
  have h := (move_neutrality 64 Example.two
    (Reachable.run (w := 64) Reachable.empty Example.twoProgram (by decide)) 1 rfl).2.2
    0 rfl (by decide)
  have g := (move_neutrality 64 Example.final
    (Reachable.run (w := 64) Reachable.empty Example.program (by decide)) 2 rfl).2.2
    0 rfl (by decide)
  ⟨⟨f.1.1, f.1.2.1, f.1.2.2.1, f.1.2.2.2.2.1 0, f.2.1.1⟩,
    ⟨h.1, h.2.1, h.2.2.1, h.2.2.2.1 1 rfl (by decide)⟩, g.2.2.2.2 0 rfl rfl⟩

/-- C3 as stated fails in two ways. `Example.shared` is reached by `MakeHandle` and one copy
construction, so handles 0 and 1 share payload 0 with counter 2. Moving handle 1 into handle
0, which already refers to the same payload, leaves the counter at 1, not 2, with either
operator; and the same-type move assignment of handle 0 to itself leaves the moved-from
handle non-null. -/
theorem move_neutrality_fails :
    run 64 State.empty [.MakeHandle .SingleThreadCounter, .constructCopy 0]
      = some Example.shared ∧
    Example.shared.data 0 = some 0 ∧ Example.shared.data 1 = some 0 ∧
    Example.shared.count 0 = 2 ∧
    (IntrusivePtr.assignMove 64 Example.shared 0 1).count 0 = 1 ∧
    (IntrusivePtr.assignMoveU 64 Example.shared 0 1).count 0 = 1 ∧
    IntrusivePtr.Get (IntrusivePtr.assignMove 64 Example.shared 0 0) 0 = some 0 := by
  decide

/-- C4, self-assignment safety: for a non-null handle `h`, also one whose payload has count
1, the copy assignment `h = h` leaves the whole state as it was, so the counter of the
payload and the target of `h` are unchanged and no deleter call is recorded. -/
theorem self_assignment (w : Nat) (s : State) (h p : Nat) (hd : s.data h = some p) :
    IntrusivePtr.assignCopy w s h h = s ∧
    (IntrusivePtr.assignCopy w s h h).count p = s.count p ∧
    IntrusivePtr.Get (IntrusivePtr.assignCopy w s h h) h = some p ∧
    (IntrusivePtr.assignCopy w s h h).deleted p = s.deleted p ∧
    (IntrusivePtr.assignCopy w s h h).trace = s.trace := by
  rw [IntrusivePtr.assignCopy_self]
  exact ⟨rfl, rfl, hd, rfl, rfl⟩

/-- Self-assignment of the only handle of a payload, whose counter is 1. -/
theorem self_assignment_witness :
    (MakeHandle State.empty .SingleThreadCounter).1.count 0 = 1 ∧
    IntrusivePtr.assignCopy 64 (MakeHandle State.empty .SingleThreadCounter).1 0 0
      = (MakeHandle State.empty .SingleThreadCounter).1 :=
  ⟨rfl, (self_assignment 64 (MakeHandle State.empty .SingleThreadCounter).1 0 0 rfl).1⟩

/-- C5, copy assignment postcondition: in a reachable state let `a` refer to `P` or be null
and `b` refer to a different payload `Q` or be null. After `a = b`, with the same-type
operator or, for two different handle objects, the template one, both handles refer to what
`b` referred to; the counter of `Q` is one higher and its deleter has not run; the counter of
`P` is one lower and the deleter has run on `P` exactly when that counter was 1 before; no
other payload object and no other handle has changed. Copy construction from `b`, the new
handle fitting into the address space, yields a handle referring to what `b` refers to,
raises the counter of `Q` by one and changes no other payload object. -/
theorem copy_assignment (w : Nat) (s : State) (hs : Reachable w s) (a b : Nat)
    (hla : s.live a = true) (hlb : s.live b = true)
    (hdiff : ∀ p, s.data a = some p → s.data b ≠ some p) :
    (a ≠ b → IntrusivePtr.assignCopyU w s a b = IntrusivePtr.assignCopy w s a b) ∧
    IntrusivePtr.Get (IntrusivePtr.assignCopy w s a b) a = s.data b ∧
    IntrusivePtr.Get (IntrusivePtr.assignCopy w s a b) b = s.data b ∧
    (∀ q, s.data b = some q →
      (IntrusivePtr.assignCopy w s a b).count q = s.count q + 1 ∧
      (IntrusivePtr.assignCopy w s a b).deleted q = 0) ∧
    (∀ p, s.data a = some p →
      (IntrusivePtr.assignCopy w s a b).count p + 1 = s.count p ∧
      (IntrusivePtr.assignCopy w s a b).deleted p = (if s.count p = 1 then 1 else 0) ∧
      (Event.Deleter p ∈ (IntrusivePtr.assignCopy w s a b).trace ↔ s.count p = 1)) ∧
    (∀ r, s.data a ≠ some r → s.data b ≠ some r →
      (IntrusivePtr.assignCopy w s a b).payloads[r]? = s.payloads[r]?) ∧
    (∀ k, k ≠ a → (IntrusivePtr.assignCopy w s a b).data k = s.data k) ∧
    ((IntrusivePtr.constructCopy w s b).1.fits w →
      IntrusivePtr.constructCopyU w s b = IntrusivePtr.constructCopy w s b ∧
      IntrusivePtr.Get (IntrusivePtr.constructCopy w s b).1 (IntrusivePtr.constructCopy w s b).2
        = s.data b ∧
      IntrusivePtr.Get (IntrusivePtr.constructCopy w s b).1 b = s.data b ∧
      (∀ q, s.data b = some q →
        (IntrusivePtr.constructCopy w s b).1.count q = s.count q + 1 ∧
        (IntrusivePtr.constructCopy w s b).1.deleted q = 0) ∧
      (∀ r, s.data b ≠ some r →
        (IntrusivePtr.constructCopy w s b).1.payloads[r]? = s.payloads[r]?)) := by
  have hI := hs.inv
  -- the statements about `a = b` between two different handle objects
  have main : ∀ (t : State), Inv w t → ∀ x : Nat, t.live x = true → x ≠ b →
      (∀ p, t.data x = some p → t.data b ≠ some p) →
      IntrusivePtr.Get (IntrusivePtr.assignCopyU w t x b) x = t.data b ∧
      IntrusivePtr.Get (IntrusivePtr.assignCopyU w t x b) b = t.data b ∧
      (∀ q, t.data b = some q →
        (IntrusivePtr.assignCopyU w t x b).count q = t.count q + 1 ∧
        (IntrusivePtr.assignCopyU w t x b).deleted q = 0) ∧
      (∀ p, t.data x = some p →
        (IntrusivePtr.assignCopyU w t x b).count p + 1 = t.count p ∧
        (IntrusivePtr.assignCopyU w t x b).deleted p = (if t.count p = 1 then 1 else 0) ∧
        (Event.Deleter p ∈ (IntrusivePtr.assignCopyU w t x b).trace ↔ t.count p = 1)) ∧
      (∀ r, t.data x ≠ some r → t.data b ≠ some r →
        (IntrusivePtr.assignCopyU w t x b).payloads[r]? = t.payloads[r]?) ∧
      (∀ k, k ≠ x → (IntrusivePtr.assignCopyU w t x b).data k = t.data k) := by
    intro t hT x hx hxb hd
    have hdata := IntrusivePtr.assignCopyU_data w t x b hx hxb
    have hpay := IntrusivePtr.assignCopyU_payloads hT x b hx hxb
    refine ⟨?_, ?_, ?_, ?_, ?_, ?_⟩
    · show (IntrusivePtr.assignCopyU w t x b).data x = _
      rw [hdata x, if_pos rfl]
    · show (IntrusivePtr.assignCopyU w t x b).data b = _
      rw [hdata b, if_neg hxb]
    · intro q hq
      obtain ⟨hpos, hdel, _⟩ := State.count_pos_of_data hT b q hq
      have hxq : t.data x ≠ some q := fun e => hd q e hq
      have hp := hpay q
      rw [if_pos hq, if_neg hxq] at hp
      obtain ⟨h1, h2⟩ := State.count_acquired t _ q hpos hp
      exact ⟨h1, by rw [h2, hdel]⟩
    · intro p hp0
      obtain ⟨hpos, hdel, _⟩ := State.count_pos_of_data hT x p hp0
      have hbp : t.data b ≠ some p := hd p hp0
      have hp := hpay p
      rw [if_neg hbp, if_pos hp0] at hp
      obtain ⟨h1, h2⟩ := State.count_released t _ p hpos hp
      refine ⟨h1, by rw [h2, hdel, Nat.zero_add], ?_⟩
      have hnl : Event.Deleter p ∉ t.trace := hT.not_logged p hdel
      have htr : (IntrusivePtr.assignCopyU w t x b).trace =
          match t.data b with
          | some q => Event.AddRef q ((IntrusivePtr.Reset w t x).count q)
              :: (IntrusivePtr.Reset w t x).trace
          | none => (IntrusivePtr.Reset w t x).trace := by
        rw [IntrusivePtr.assignCopyU_eq, IntrusivePtr.copyFrom_trace
          (IntrusivePtr.Reset_inv hT x hx) x b
          (by rw [IntrusivePtr.Reset_live w t x hx]; exact hx)
          (IntrusivePtr.Reset_data_self w t x hx),
          IntrusivePtr.Reset_data w t x hx b, if_neg hxb]
      have hrt := IntrusivePtr.Reset_trace hT x p hp0
      have hmem : Event.Deleter p ∈ (IntrusivePtr.assignCopyU w t x b).trace ↔
          Event.Deleter p ∈ (IntrusivePtr.Reset w t x).trace := by
        rw [htr]
        cases t.data b <;> simp
      rw [hmem, hrt]
      by_cases e1 : t.count p = 1
      · simp [e1]
      · simp [e1, hnl]
    · intro r hr1 hr2
      have hp := hpay r
      rw [if_neg hr2, if_neg hr1] at hp
      exact hp
    · intro k hk
      rw [hdata k, if_neg (fun e => hk e.symm)]
  have hself : a = b → s.data b = none ∧ s.data a = none := by
    intro e
    subst e
    cases hd : s.data a with
    | none => exact ⟨rfl, rfl⟩
    | some p => exact absurd hd (hdiff p hd)
  have hsame : ∀ h : a ≠ b, IntrusivePtr.assignCopyU w s a b = IntrusivePtr.assignCopy w s a b :=
    fun h => by rw [IntrusivePtr.assignCopy_eq w s a b h, IntrusivePtr.assignCopyU_eq]
  refine ⟨hsame, ?_⟩
  have hassign :
      IntrusivePtr.Get (IntrusivePtr.assignCopy w s a b) a = s.data b ∧
      IntrusivePtr.Get (IntrusivePtr.assignCopy w s a b) b = s.data b ∧
      (∀ q, s.data b = some q →
        (IntrusivePtr.assignCopy w s a b).count q = s.count q + 1 ∧
        (IntrusivePtr.assignCopy w s a b).deleted q = 0) ∧
      (∀ p, s.data a = some p →
        (IntrusivePtr.assignCopy w s a b).count p + 1 = s.count p ∧
        (IntrusivePtr.assignCopy w s a b).deleted p = (if s.count p = 1 then 1 else 0) ∧
        (Event.Deleter p ∈ (IntrusivePtr.assignCopy w s a b).trace ↔ s.count p = 1)) ∧
      (∀ r, s.data a ≠ some r → s.data b ≠ some r →
        (IntrusivePtr.assignCopy w s a b).payloads[r]? = s.payloads[r]?) ∧
      (∀ k, k ≠ a → (IntrusivePtr.assignCopy w s a b).data k = s.data k) := by
    by_cases hab : a = b
    · obtain ⟨hb0, ha0⟩ := hself hab
      subst hab
      rw [IntrusivePtr.assignCopy_self]
      refine ⟨rfl, rfl, ?_, ?_, fun _ _ _ => rfl, fun _ _ => rfl⟩
      · intro q hq; rw [hb0] at hq; cases hq
      · intro p hp; rw [ha0] at hp; cases hp
    · rw [← hsame hab]
      exact main s hI a hla hab hdiff
  obtain ⟨g1, g2, g3, g4, g5, g6⟩ := hassign
  refine ⟨g1, g2, g3, g4, g5, g6, ?_⟩
  intro hf
  have hlen := IntrusivePtr.ne_length_of_live s b hlb
  have hc1 := IntrusivePtr.construct_live s
  have hc2 := IntrusivePtr.construct_data s
  have hcU : IntrusivePtr.constructCopyU w s b = IntrusivePtr.constructCopy w s b := by
    show (IntrusivePtr.assignCopyU w _ _ b, _) = (IntrusivePtr.assignCopy w _ _ b, _)
    rw [IntrusivePtr.assignCopy_eq w (IntrusivePtr.construct s).1 (IntrusivePtr.construct s).2
      b hlen, IntrusivePtr.assignCopyU_eq]
  have hf1 : (IntrusivePtr.construct s).1.fits w := by
    have := IntrusivePtr.assignCopy_liveHandles w (IntrusivePtr.construct s).1
      (IntrusivePtr.construct s).2 b hc1
    unfold State.fits at hf ⊢
    rw [← this]; exact hf
  have hI1 := IntrusivePtr.construct_inv hI hf1
  have hdb : (IntrusivePtr.construct s).1.data b = s.data b := by
    rw [IntrusivePtr.construct_eq, IntrusivePtr.constructRaw_data,
      if_neg (fun e => hlen e.symm)]
  obtain ⟨m1, m2, m3, _, m5, _⟩ := main (IntrusivePtr.construct s).1 hI1
    (IntrusivePtr.construct s).2 hc1 hlen (by intro p hp; rw [hc2] at hp; cases hp)
  rw [hdb] at m1 m2 m3 m5
  rw [hc2] at m5
  have e1 : (IntrusivePtr.constructCopy w s b).1
      = IntrusivePtr.assignCopyU w (IntrusivePtr.construct s).1 (IntrusivePtr.construct s).2 b := by
    rw [← hcU]; rfl
  refine ⟨hcU, ?_, ?_, ?_, ?_⟩
  · rw [e1]; exact m1
  · rw [e1]; exact m2
  · intro q hq
    rw [e1]; exact m3 q hq
  · intro r hr
    rw [e1]; exact m5 r (by simp) hr

/-- Assigning handle 1 to handle 0 in `Example.two`: the payload of handle 1 gains a
reference, the payload of handle 0 loses its only one and is deleted. -/
theorem copy_assignment_witness :
    IntrusivePtr.Get (IntrusivePtr.assignCopy 64 Example.two 0 1) 0 = some 1 ∧
    IntrusivePtr.Get (IntrusivePtr.assignCopy 64 Example.two 0 1) 1 = some 1 ∧
    (IntrusivePtr.assignCopy 64 Example.two 0 1).count 1 = Example.two.count 1 + 1 ∧
    (IntrusivePtr.assignCopy 64 Example.two 0 1).count 0 + 1 = Example.two.count 0 ∧
    (IntrusivePtr.assignCopy 64 Example.two 0 1).deleted 0 = 1 ∧
    (IntrusivePtr.assignCopy 64 Example.two 2 0).deleted 1 = 0 :=
  have h := copy_assignment 64 Example.two
    (Reachable.run (w := 64) Reachable.empty Example.twoProgram (by decide)) 0 1 rfl rfl
    (by decide)
  have g := copy_assignment 64 Example.two
    (Reachable.run (w := 64) Reachable.empty Example.twoProgram (by decide)) 2 0 rfl rfl
    (by decide)
  ⟨h.2.1, h.2.2.1, (h.2.2.2.1 1 rfl).1, (h.2.2.2.2.1 0 rfl).1, (h.2.2.2.2.1 0 rfl).2.1,
    (g.2.2.2.2.1 1 rfl).2.1⟩

/-- C6, factory and adopt path: `MakeHandle` and `MakeDerivedHandle` return a non-null handle
to a payload that did not exist before and whose counter is exactly 1; no counter call is
made (the raw-pointer constructor does not increment) and no existing payload object
changes; dropping that handle right away, by `Reset` or by the destructor, runs the deleter
on the payload exactly once. -/
theorem factory_contract (w : Nat) (s : State) (ops : ReferenceOps) :
    MakeDerivedHandle s ops = MakeHandle s ops ∧
    IntrusivePtr.Get (MakeHandle s ops).1 (MakeHandle s ops).2 = some s.payloads.length ∧
    IntrusivePtr.toBool (MakeHandle s ops).1 (MakeHandle s ops).2 = true ∧
    s.payloads[s.payloads.length]? = none ∧
    (MakeHandle s ops).1.payloads[s.payloads.length]?
      = some { ops := ops, reference_count := 1, deleted := 0 } ∧
    (MakeHandle s ops).1.trace = s.trace ∧
    (∀ (q : Nat) (o : IntrusivePtrEnabled), s.payloads[q]? = some o →
      (MakeHandle s ops).1.payloads[q]? = some o) ∧
    (∀ k, k ≠ (MakeHandle s ops).2 → (MakeHandle s ops).1.data k = s.data k) ∧
    (IntrusivePtr.Reset w (MakeHandle s ops).1 (MakeHandle s ops).2).deleted s.payloads.length
      = 1 ∧
    (IntrusivePtr.Reset w (MakeHandle s ops).1 (MakeHandle s ops).2).trace
      = Event.Deleter s.payloads.length :: Event.Release s.payloads.length 1 :: s.trace ∧
    (IntrusivePtr.destruct w (MakeHandle s ops).1 (MakeHandle s ops).2).deleted
      s.payloads.length = 1 ∧
    (IntrusivePtr.destruct w (MakeHandle s ops).1 (MakeHandle s ops).2).trace
      = Event.Deleter s.payloads.length :: Event.Release s.payloads.length 1 :: s.trace := by
  have hdata : (MakeHandle s ops).1.data (MakeHandle s ops).2 = some s.payloads.length := by
    rw [MakeHandle_data, MakeHandle_snd, if_pos rfl]
  have hpay : (MakeHandle s ops).1.payloads[s.payloads.length]?
      = some { ops := ops, reference_count := 1, deleted := 0 } := by
    rw [MakeHandle_payloads, if_pos rfl, ReferenceOps.init_eq]
  have hrel : IntrusivePtrEnabled.ReleaseReference w (MakeHandle s ops).1 s.payloads.length =
      { payloads := (MakeHandle s ops).1.payloads.set s.payloads.length
          { ops := ops, reference_count := 0, deleted := 1 }
        handles := (MakeHandle s ops).1.handles
        trace := Event.Deleter s.payloads.length :: Event.Release s.payloads.length 1
          :: s.trace } := by
    unfold IntrusivePtrEnabled.ReleaseReference
    rw [hpay]
    simp only [ReferenceOps.Release_one, if_true]
    rfl
  have hreset : IntrusivePtr.Reset w (MakeHandle s ops).1 (MakeHandle s ops).2 =
      { payloads := (MakeHandle s ops).1.payloads.set s.payloads.length
          { ops := ops, reference_count := 0, deleted := 1 }
        handles := (MakeHandle s ops).1.handles.set (MakeHandle s ops).2 (some { data := none })
        trace := Event.Deleter s.payloads.length :: Event.Release s.payloads.length 1
          :: s.trace } := by
    unfold IntrusivePtr.Reset
    rw [hdata]
    simp only [hrel]
    rfl
  have hdel : (IntrusivePtr.Reset w (MakeHandle s ops).1 (MakeHandle s ops).2).deleted
      s.payloads.length = 1 := by
    rw [hreset]
    unfold State.deleted
    simp only
    rw [getElem?_set_of_some _ _ _ _ _ hpay, if_pos rfl]
  refine ⟨rfl, hdata, ?_, ?_, hpay, rfl, ?_, ?_, hdel, ?_, ?_, ?_⟩
  · unfold IntrusivePtr.toBool; rw [hdata]; rfl
  · exact List.getElem?_eq_none (Nat.le_refl _)
  · intro q o ho
    rw [MakeHandle_payloads]
    have hlt : q < s.payloads.length := (List.getElem?_eq_some.mp ho).1
    rw [if_neg (by omega)]; exact ho
  · intro k hk
    have hk2 : ¬ (k = s.handles.length) := hk
    rw [MakeHandle_data, if_neg hk2]
  · rw [hreset]
  · rw [IntrusivePtr.destruct_eq]; exact hdel
  · rw [IntrusivePtr.destruct_eq, hreset]; rfl

/-- C7, no resurrection and no dangling handle: in every reachable state no live handle
refers to a payload on which the deleter has run, and every `AddRef` call in the trace found
a non-zero counter on a payload whose deleter had not run, all earlier counter calls having
found non-zero counters too. -/
theorem no_resurrection (w : Nat) (s : State) (hs : Reachable w s) :
    (∀ h p, s.data h = some p →
      ∃ o, s.payloads[p]? = some o ∧ o.deleted = 0 ∧ Event.Deleter p ∉ s.trace) ∧
    (∀ newer older p c, s.trace = newer ++ Event.AddRef p c :: older →
      c ≠ 0 ∧ Event.Deleter p ∉ older ∧
      ∀ q c2, Event.AddRef q c2 ∈ older ∨ Event.Release q c2 ∈ older → c2 ≠ 0) := by
  have hI := hs.inv
  constructor
  · intro h p hd
    obtain ⟨o, ho, hdel⟩ := hI.nodangling h p hd
    exact ⟨o, ho, hdel,
      hI.not_logged p (by rw [State.deleted_of_payload s p o ho]; exact hdel)⟩
  · intro newer older p c he
    have hT := hI.traceOK
    rw [he] at hT
    have h1 : TraceOK (Event.AddRef p c :: older) := TraceOK_append newer _ hT
    exact ⟨h1.1.1, h1.1.2, fun q c2 hm => TraceOK_counter_ne_zero older h1.2 q c2 hm⟩

/-- No dangling handle and no revived counter after `MakeHandle` and one copy. -/
theorem no_resurrection_witness :
    (∀ h p, Example.shared.data h = some p →
      ∃ o, Example.shared.payloads[p]? = some o ∧ o.deleted = 0 ∧
        Event.Deleter p ∉ Example.shared.trace) ∧
    (∀ newer older p c, Example.shared.trace = newer ++ Event.AddRef p c :: older →
      c ≠ 0 ∧ Event.Deleter p ∉ older ∧
      ∀ q c2, Event.AddRef q c2 ∈ older ∨ Event.Release q c2 ∈ older → c2 ≠ 0) :=
  no_resurrection 64 Example.shared
    (Reachable.run (w := 64) Reachable.empty
      [.MakeHandle .SingleThreadCounter, .constructCopy 0] (by decide))

/-- C8, `Reset`: in a reachable state, after `h.Reset()` the handle is null (`Get` yields
`nullptr`, conversion to `bool` yields `false`); if `h` referred to a payload, that
payload's counter went down by exactly one through one recorded `Release` call and no other
payload object changed; a second `Reset` changes nothing at all, and neither does `Reset` on
a default-constructed handle, which is null. -/
theorem reset_contract (w : Nat) (s : State) (hs : Reachable w s) (h : Nat)
    (hl : s.live h = true) :
    IntrusivePtr.Get (IntrusivePtr.Reset w s h) h = none ∧
    IntrusivePtr.toBool (IntrusivePtr.Reset w s h) h = false ∧
    (∀ p, s.data h = some p →
      (IntrusivePtr.Reset w s h).count p + 1 = s.count p ∧
      (IntrusivePtr.Reset w s h).trace =
        (if s.count p = 1 then [Event.Deleter p] else []) ++
          Event.Release p (s.count p) :: s.trace) ∧
    (∀ q, s.data h ≠ some q → (IntrusivePtr.Reset w s h).payloads[q]? = s.payloads[q]?) ∧
    (∀ k, k ≠ h → (IntrusivePtr.Reset w s h).data k = s.data k) ∧
    IntrusivePtr.Reset w (IntrusivePtr.Reset w s h) h = IntrusivePtr.Reset w s h ∧
    IntrusivePtr.Get (IntrusivePtr.construct s).1 (IntrusivePtr.construct s).2 = none ∧
    IntrusivePtr.Reset w (IntrusivePtr.construct s).1 (IntrusivePtr.construct s).2
      = (IntrusivePtr.construct s).1 := by
  have hI := hs.inv
  have hnull := IntrusivePtr.Reset_data_self w s h hl
  refine ⟨hnull, ?_, ?_, ?_, ?_, ?_, IntrusivePtr.construct_data s, ?_⟩
  · unfold IntrusivePtr.toBool; rw [hnull]; rfl
  · intro p hd
    obtain ⟨hpos, _, _⟩ := State.count_pos_of_data hI h p hd
    have hp := IntrusivePtr.Reset_payloads hI h hl p
    rw [if_pos hd] at hp
    refine ⟨(State.count_released s _ p hpos hp).1, ?_⟩
    rw [IntrusivePtr.Reset_trace hI h p hd]
    split <;> rfl
  · intro q hq
    exact IntrusivePtr.Reset_payloads_of_ne w s h q hq
  · intro k hk
    rw [IntrusivePtr.Reset_data w s h hl k, if_neg (fun e => hk e.symm)]
  · exact IntrusivePtr.Reset_null w _ h (by rw [IntrusivePtr.Reset_live w s h hl]; exact hl) hnull
  · exact IntrusivePtr.Reset_null w _ _ (IntrusivePtr.construct_live s)
      (IntrusivePtr.construct_data s)

/-- Resetting one of two handles that share a payload. -/
theorem reset_contract_witness :
    IntrusivePtr.Get (IntrusivePtr.Reset 64 Example.shared 1) 1 = none ∧
    (IntrusivePtr.Reset 64 Example.shared 1).count 0 + 1 = Example.shared.count 0 ∧
    IntrusivePtr.Reset 64 (IntrusivePtr.Reset 64 Example.shared 1) 1
      = IntrusivePtr.Reset 64 Example.shared 1 :=
  have h := reset_contract 64 Example.shared
    (Reachable.run (w := 64) Reachable.empty
      [.MakeHandle .SingleThreadCounter, .constructCopy 0] (by decide)) 1 rfl
  ⟨h.1, (h.2.2.1 0 rfl).1, h.2.2.2.2.2.1⟩

/-- C9, counter contract, amended: both policies start at 1, and for every `n` below `2 ^ w`
(`w` the width of `size_t`), after `n` calls of `AddRef` the next `n` calls of `Release`
return `false` and the call after them returns `true`. -/
theorem counter_contract (w : Nat) (ops : ReferenceOps) (n : Nat) (hn : n < 2 ^ w) :
    ops.init = 1 ∧
    (ReferenceOps.releases w ops (n + 1) (ReferenceOps.addRefs w ops n ops.init)).1
      = List.replicate n false ++ [true] := by
  have hinit : ops.init = 1 := ReferenceOps.init_eq ops
  refine ⟨hinit, ?_⟩
  rw [hinit]
  rcases Nat.eq_zero_or_pos w with hw | hw
  · subst hw
    have : n = 0 := by simpa using hn
    subst this
    cases ops <;> decide
  · have h1 : 1 < 2 ^ w := ReferenceOps.one_lt_two_pow hw
    rw [ReferenceOps.addRefs_eq w ops n 1 h1]
    rcases Nat.lt_or_ge (n + 1) (2 ^ w) with h | h
    · rw [Nat.mod_eq_of_lt (by omega), Nat.add_comm 1 n,
        ReferenceOps.releases_countdown w hw ops n h]
    · have e : 1 + n = 2 ^ w := by omega
      rw [e, Nat.mod_self]
      have e2 : n + 1 = 2 ^ w := by omega
      rw [e2, ReferenceOps.releases_wrapped w hw ops]
      have : 2 ^ w - 1 = n := by omega
      rw [this]

/-- The counter contract for three `AddRef` calls on a 64-bit atomic counter. -/
theorem counter_contract_witness :
    3 < 2 ^ 64 ∧ ReferenceOps.MultiThreadCounter.init = 1 ∧
    (ReferenceOps.releases 64 .MultiThreadCounter (3 + 1)
        (ReferenceOps.addRefs 64 .MultiThreadCounter 3 ReferenceOps.MultiThreadCounter.init)).1
      = List.replicate 3 false ++ [true] :=
  ⟨by norm_num, counter_contract 64 .MultiThreadCounter 3 (by norm_num)⟩

/-- C9 as stated fails once the counter wraps: with a 32-bit `size_t`, after `2 ^ 32` calls
of `AddRef` on a fresh counter the results of the next `2 ^ 32 + 1` calls of `Release` are not
`2 ^ 32` times `false` followed by `true` (the first of them already returns `true`), for
either policy. -/
theorem counter_contract_overflow :
    ¬ ((ReferenceOps.releases 32 .SingleThreadCounter (4294967296 + 1)
        (ReferenceOps.addRefs 32 .SingleThreadCounter 4294967296
          ReferenceOps.SingleThreadCounter.init)).1
      = List.replicate 4294967296 false ++ [true]) ∧
    ¬ ((ReferenceOps.releases 32 .MultiThreadCounter (4294967296 + 1)
        (ReferenceOps.addRefs 32 .MultiThreadCounter 4294967296
          ReferenceOps.MultiThreadCounter.init)).1
      = List.replicate 4294967296 false ++ [true]) := by
  have e : List.replicate 4294967296 false ++ [true]
      = false :: (List.replicate 4294967295 false ++ [true]) := rfl
  have a : ∀ ops : ReferenceOps, ReferenceOps.addRefs 32 ops 4294967296 1 = 1 := by
    intro ops
    rw [ReferenceOps.addRefs_eq 32 ops _ 1 (by norm_num)]
    norm_num
  constructor
  · intro h
    have h2 := congrArg List.head? h
    rw [ReferenceOps.releases_head, e] at h2
    have : ReferenceOps.SingleThreadCounter.init = 1 := rfl
    rw [this, a] at h2
    revert h2
    decide
  · intro h
    have h2 := congrArg List.head? h
    rw [ReferenceOps.releases_head, e] at h2
    have : ReferenceOps.MultiThreadCounter.init = 1 := rfl
    rw [this, a] at h2
    revert h2
    decide

/-- C10, handle equality is payload identity: `a == b` holds exactly when `a.Get()` and
`b.Get()` are the same pointer, `a != b` is its negation, two null handles are equal, and
handles to two distinct payloads are unequal even when the two objects have identical
contents. -/
theorem handle_equality (s : State) (a b : Nat) :
    (IntrusivePtr.eq s a b = true ↔ IntrusivePtr.Get s a = IntrusivePtr.Get s b) ∧
    IntrusivePtr.ne s a b = !IntrusivePtr.eq s a b ∧
    (IntrusivePtr.Get s a = none → IntrusivePtr.Get s b = none →
      IntrusivePtr.eq s a b = true) ∧
    (∀ p q, IntrusivePtr.Get s a = some p → IntrusivePtr.Get s b = some q → p ≠ q →
      s.payloads[p]? = s.payloads[q]? →
      IntrusivePtr.eq s a b = false ∧ IntrusivePtr.ne s a b = true) := by
  unfold IntrusivePtr.eq IntrusivePtr.ne IntrusivePtr.Get
  refine ⟨by simp, by simp [bne], ?_, ?_⟩
  · intro ha hb; simp [ha, hb]
  · intro p q ha hb hne _
    simp [ha, hb, hne, bne]

/-! ## Further lemmas on counters and assignments -/

theorem ReferenceOps.AddRef_lt (w : Nat) (ops : ReferenceOps) (c : Nat) :
    ReferenceOps.AddRef w ops c < 2 ^ w := by
  rw [ReferenceOps.AddRef_eq]
  exact Nat.mod_lt _ (by positivity)

theorem ReferenceOps.Release_lt (w : Nat) (ops : ReferenceOps) (c : Nat) :
    (ReferenceOps.Release w ops c).1 < 2 ^ w := by
  rw [ReferenceOps.Release_fst]
  exact Nat.mod_lt _ (by positivity)

theorem ReferenceOps.call_independent (w : Nat) (hw : 0 < w) (c : Nat) (hc : c < 2 ^ w)
    (x : Call) :
    ReferenceOps.call w .SingleThreadCounter c x = ReferenceOps.call w .MultiThreadCounter c x ∧
    (ReferenceOps.call w .SingleThreadCounter c x).1 < 2 ^ w := by
  cases x with
  | AddRef =>
    exact ⟨rfl, ReferenceOps.AddRef_lt w .SingleThreadCounter c⟩
  | Release =>
    refine ⟨?_, ReferenceOps.Release_lt w .SingleThreadCounter c⟩
    simp only [ReferenceOps.call]
    rw [ReferenceOps.Release_fst, ReferenceOps.Release_fst,
      ReferenceOps.Release_snd w hw _ c hc, ReferenceOps.Release_snd w hw _ c hc]

theorem ReferenceOps.calls_independent (w : Nat) (hw : 0 < w) (xs : List Call) :
    ∀ c, c < 2 ^ w →
      ReferenceOps.calls w .SingleThreadCounter c xs
        = ReferenceOps.calls w .MultiThreadCounter c xs := by
  induction xs with
  | nil => intro c _; rfl
  | cons x xs ih =>
    intro c hc
    obtain ⟨h1, h2⟩ := ReferenceOps.call_independent w hw c hc x
    simp only [ReferenceOps.calls]
    rw [ih _ h2, h1]

theorem IntrusivePtrEnabled.acquired_released (o : IntrusivePtrEnabled)
    (h : 2 ≤ o.reference_count) : o.released.acquired = o := by
  have h1 : ¬ (o.reference_count = 1) := by omega
  have h2 : o.reference_count - 1 + 1 = o.reference_count := by omega
  cases o
  simp only [IntrusivePtrEnabled.released, IntrusivePtrEnabled.acquired] at h1 h2 ⊢
  simp [h1, h2]

/-- Copy assignment between two different handles of one payload whose counter equals the
number of its handles: only the trace grows. -/
theorem IntrusivePtr.assignCopyU_same_payload (w : Nat) (s : State) (a b p : Nat)
    (o : IntrusivePtrEnabled) (ho : s.payloads[p]? = some o)
    (hcount : o.reference_count = s.refs p) (hrange : o.reference_count < 2 ^ w)
    (hab : a ≠ b) (ha : s.data a = some p) (hb : s.data b = some p) :
    IntrusivePtr.assignCopyU w s a b =
      { s with trace := Event.AddRef p (o.reference_count - 1) ::
          Event.Release p o.reference_count :: s.trace } := by
  have h2 : 2 ≤ s.refs p := State.two_le_refs s a b p hab ha hb
  have hw : 0 < w := by
    rcases Nat.eq_zero_or_pos w with e | e
    · subst e; simp at hrange; omega
    · exact e
  have hl := State.live_of_data s a p ha
  have hne1 : ¬ (o.reference_count = 1) := by omega
  have hreset : IntrusivePtr.Reset w s a =
      { payloads := s.payloads.set p o.released
        handles := s.handles.set a (some { data := none })
        trace := Event.Release p o.reference_count :: s.trace } := by
    unfold IntrusivePtr.Reset
    rw [ha]
    simp only
    rw [IntrusivePtrEnabled.ReleaseReference_of w hw s p o ho (by omega) hrange, if_neg hne1]
    rfl
  have hl1 : (IntrusivePtr.Reset w s a).live a = true := by
    rw [IntrusivePtr.Reset_live w s a hl]; exact hl
  have hb1 : (IntrusivePtr.Reset w s a).data b = some p := by
    rw [IntrusivePtr.Reset_data w s a hl b, if_neg hab]; exact hb
  have hpay : ((IntrusivePtr.Reset w s a).setData a (some p)).payloads[p]? = some o.released := by
    rw [State.payloads_setData, hreset]
    show (s.payloads.set p o.released)[p]? = _
    rw [getElem?_set_of_some s.payloads p p o _ ho, if_pos rfl]
  have hc : o.released.reference_count + 1 < 2 ^ w := by
    simp only [IntrusivePtrEnabled.released]; omega
  rw [IntrusivePtr.assignCopyU_eq]
  unfold IntrusivePtr.copyFrom
  rw [hb1]
  simp only [State.data_setData _ a (some p) hl1 a, if_true]
  rw [IntrusivePtrEnabled.AddRef_of w _ p o.released hpay hc]
  rw [IntrusivePtrEnabled.acquired_released o (by omega)]
  simp only [State.payloads_setData, State.trace_setData, hreset, State.setData,
    IntrusivePtrEnabled.released, List.set_set]
  rw [set_same s.payloads p o ho, set_same s.handles a _ ((State.data_eq_some s a p).mp ha)]

/-! ## Address arithmetic and memory -/

theorem addressSpace_eq (S : Nat) : addressSpace S = 256 ^ S := by
  unfold addressSpace
  rw [Nat.pow_mul]

/-- Masking with the complement of `2 ^ k - 1` rounds down to a multiple of `2 ^ k`. -/
theorem land_mask (n k x : Nat) (hx : x < 2 ^ n) (hk : k ≤ n) :
    x &&& (2 ^ n - 1 - (2 ^ k - 1)) = x - x % 2 ^ k := by
  have hkn : 2 ^ k ≤ 2 ^ n := Nat.pow_le_pow_right (by decide) hk
  have hpos : 0 < 2 ^ k := Nat.pos_of_ne_zero (by positivity)
  have e1 : 2 ^ n - 1 - (2 ^ k - 1) = 2 ^ n - ((2 ^ k - 1) + 1) := by omega
  have hlt : 2 ^ k - 1 < 2 ^ n := by omega
  have e2 : x - x % 2 ^ k = 2 ^ k * (x / 2 ^ k) := by
    have := Nat.div_add_mod x (2 ^ k)
    omega
  rw [e1, e2]
  apply Nat.eq_of_testBit_eq
  intro i
  rw [Nat.testBit_and, Nat.testBit_two_pow_sub_succ hlt, Nat.testBit_two_pow_sub_one,
    Nat.testBit_mul_pow_two, ← Nat.shiftRight_eq_div_pow, Nat.testBit_shiftRight]
  by_cases h1 : i < k
  · have h2 : ¬ (i ≥ k) := by omega
    simp [h1, h2]
  · have h2 : i ≥ k := by omega
    have h3 : k + (i - k) = i := by omega
    rw [h3]
    by_cases h4 : i < n
    · simp [h1, h2, h4]
    · have hxi : x < 2 ^ i :=
        Nat.lt_of_lt_of_le hx (Nat.pow_le_pow_right (by decide) (by omega))
      simp [Nat.testBit_lt_two_pow hxi]

theorem storePtr_outside (S : Nat) :
    ∀ (mem : Memory) (a v x : Nat), x < a ∨ a + S ≤ x → storePtr S mem a v x = mem x := by
  induction S with
  | zero => intro mem a v x _; rfl
  | succ S ih =>
    intro mem a v x hx
    rw [storePtr, ih _ (a + 1) (v / 256) x (by omega)]
    have : ¬ (x = a) := by omega
    simp only [this, if_false]

theorem loadPtr_storePtr (S : Nat) :
    ∀ (mem : Memory) (a v : Nat), loadPtr S (storePtr S mem a v) a = v % 256 ^ S := by
  induction S with
  | zero => intro mem a v; simp [loadPtr, Nat.mod_one]
  | succ S ih =>
    intro mem a v
    rw [loadPtr, storePtr, ih, storePtr_outside S _ (a + 1) (v / 256) a (by omega)]
    simp only [if_true]
    rw [Nat.pow_succ, Nat.mul_comm (256 ^ S) 256, Nat.mod_mul]

theorem loadPtr_congr (S : Nat) :
    ∀ (m1 m2 : Memory) (a : Nat), (∀ x, a ≤ x → x < a + S → m1 x = m2 x) →
      loadPtr S m1 a = loadPtr S m2 a := by
  induction S with
  | zero => intro m1 m2 a _; rfl
  | succ S ih =>
    intro m1 m2 a h
    rw [loadPtr, loadPtr, h a (Nat.le_refl _) (by omega),
      ih m1 m2 (a + 1) (fun x h1 h2 => h x (by omega) (by omega))]

/-- A `memset` on a range that ends inside the address space succeeds, sets the range and
leaves the rest. -/
theorem memset_some (S : Nat) (mem : Memory) (dst value n : Nat)
    (h : dst + n ≤ addressSpace S) :
    ∃ m, memset S mem dst value n = some m ∧
      (∀ x, dst ≤ x → x < dst + n → m x = value % 256) ∧
      (∀ x, ¬ (dst ≤ x ∧ x < dst + n) → m x = mem x) := by
  refine ⟨fun x => if dst ≤ x ∧ x < dst + n then value % 256 else mem x, ?_, ?_, ?_⟩
  · unfold memset
    rw [if_pos h]
  · intro x h1 h2
    simp only [h1, h2, and_self, if_true]
  · intro x hx
    simp only [hx, if_false]

/-- The zero-fill of `memalign_calloc` on a non-null pointer whose range ends inside the
address space. -/
theorem memalign_calloc_some (S : Nat) (libc : Libc) (mem : Memory) (branch : Branch)
    (boundary size : Nat) (hne : (memalign_alloc S libc mem branch boundary size).1 ≠ 0)
    (h : (memalign_alloc S libc mem branch boundary size).1 + size ≤ addressSpace S) :
    ∃ m, memalign_calloc S libc mem branch boundary size
        = some ((memalign_alloc S libc mem branch boundary size).1, m) ∧
      (∀ x, (memalign_alloc S libc mem branch boundary size).1 ≤ x →
        x < (memalign_alloc S libc mem branch boundary size).1 + size → m x = 0) ∧
      (∀ x, ¬ ((memalign_alloc S libc mem branch boundary size).1 ≤ x ∧
          x < (memalign_alloc S libc mem branch boundary size).1 + size) →
        m x = (memalign_alloc S libc mem branch boundary size).2 x) := by
  obtain ⟨m, hm, h1, h2⟩ := memset_some S (memalign_alloc S libc mem branch boundary size).2
    (memalign_alloc S libc mem branch boundary size).1 0 size h
  refine ⟨m, ?_, h1, h2⟩
  unfold memalign_calloc
  simp only
  rw [if_pos hne, hm]

/-- A null result of `memalign_alloc` is returned as it is. -/
theorem memalign_calloc_null (S : Nat) (libc : Libc) (mem : Memory) (branch : Branch)
    (boundary size : Nat) (h0 : (memalign_alloc S libc mem branch boundary size).1 = 0) :
    memalign_calloc S libc mem branch boundary size
      = some (memalign_alloc S libc mem branch boundary size) := by
  unfold memalign_calloc
  simp only
  rw [if_neg (by simp [h0])]

/-- Outside the hand-rolled branch `memalign_alloc` writes nothing. -/
theorem memalign_alloc_native (S : Nat) (libc : Libc) (mem : Memory) (branch : Branch)
    (boundary size : Nat) (hb : branch ≠ Branch.fallback) :
    (memalign_alloc S libc mem branch boundary size).2 = mem := by
  cases branch with
  | windows => rfl
  | isoc11 => rfl
  | posix =>
    simp only [memalign_alloc]
    split <;> rfl
  | fallback => exact absurd rfl hb

/-- The hand-rolled branch on a power-of-two boundary, a non-null `malloc` result and a block
that ends inside the address space: the address is the sum rounded down, and the pointer is
stored in the slot before it. -/
theorem memalign_alloc_fallback (S k size ptr : Nat) (libc : Libc) (mem : Memory)
    (hmalloc : libc.malloc (2 ^ k + size + S) = ptr) (hptr : ptr ≠ 0)
    (hover : ptr + 2 ^ k + size + S < addressSpace S) :
    memalign_alloc S libc mem .fallback (2 ^ k) size =
      (ptr + S + 2 ^ k - (ptr + S + 2 ^ k) % 2 ^ k,
        storePtr S mem (ptr + S + 2 ^ k - (ptr + S + 2 ^ k) % 2 ^ k - S) ptr) ∧
    ptr + S < ptr + S + 2 ^ k - (ptr + S + 2 ^ k) % 2 ^ k ∧
    ptr + S + 2 ^ k - (ptr + S + 2 ^ k) % 2 ^ k ≤ ptr + S + 2 ^ k := by
  have hpos : 0 < 2 ^ k := Nat.pos_of_ne_zero (by positivity)
  have hmod := Nat.mod_lt (ptr + S + 2 ^ k) hpos
  have hle := Nat.mod_le (ptr + S + 2 ^ k) (2 ^ k)
  have hk : k ≤ 8 * S := by
    have h1 : 2 ^ k < 2 ^ (8 * S) := by unfold addressSpace at hover; omega
    exact Nat.le_of_lt ((Nat.pow_lt_pow_iff_right (by decide)).mp h1)
  refine ⟨?_, by omega, by omega⟩
  unfold memalign_alloc
  simp only
  rw [Nat.mod_eq_of_lt (by omega : 2 ^ k + size + S < addressSpace S), hmalloc, if_neg hptr]
  have e1 : (ptr + S + 2 ^ k) % addressSpace S = ptr + S + 2 ^ k :=
    Nat.mod_eq_of_lt (by omega)
  have e2 : (2 ^ k + (addressSpace S - 1)) % addressSpace S = 2 ^ k - 1 := by
    have : 2 ^ k + (addressSpace S - 1) = (2 ^ k - 1) + addressSpace S := by omega
    rw [this, Nat.add_mod_right]
    exact Nat.mod_eq_of_lt (by omega)
  have e3 : (ptr + S + 2 ^ k) &&& (addressSpace S - 1 - (2 ^ k - 1))
      = ptr + S + 2 ^ k - (ptr + S + 2 ^ k) % 2 ^ k := by
    unfold addressSpace
    exact land_mask (8 * S) k _ (by unfold addressSpace at hover; omega) hk
  rw [e1, e2, e3]
  have e4 : (ptr + S + 2 ^ k - (ptr + S + 2 ^ k) % 2 ^ k + (addressSpace S - S))
      % addressSpace S = ptr + S + 2 ^ k - (ptr + S + 2 ^ k) % 2 ^ k - S := by
    have : ptr + S + 2 ^ k - (ptr + S + 2 ^ k) % 2 ^ k + (addressSpace S - S)
        = (ptr + S + 2 ^ k - (ptr + S + 2 ^ k) % 2 ^ k - S) + addressSpace S := by omega
    rw [this, Nat.add_mod_right]
    exact Nat.mod_eq_of_lt (by omega)
  rw [e4]

/-- The hand-rolled branch when a non-null `malloc` result comes with a power-of-two
boundary and a block that ends inside the address space: either `malloc` failed and nothing
was written, or the address lies more than a pointer above the block's start, the `size`
bytes at it end inside the block, the slot before it holds the `malloc` result and no other
byte was written. -/
theorem memalign_alloc_fallback_cases (S boundary size : Nat) (libc : Libc) (mem : Memory)
    (h : libc.malloc ((boundary + size + S) % addressSpace S) ≠ 0 →
      (∃ k, boundary = 2 ^ k) ∧
      libc.malloc ((boundary + size + S) % addressSpace S) + boundary + size + S
        < addressSpace S) :
    (libc.malloc ((boundary + size + S) % addressSpace S) = 0 ∧
      memalign_alloc S libc mem .fallback boundary size = (0, mem)) ∨
    (libc.malloc ((boundary + size + S) % addressSpace S) ≠ 0 ∧
      libc.malloc ((boundary + size + S) % addressSpace S) + S
        < (memalign_alloc S libc mem .fallback boundary size).1 ∧
      (memalign_alloc S libc mem .fallback boundary size).1 + size
        ≤ libc.malloc ((boundary + size + S) % addressSpace S) + boundary + size + S ∧
      loadPtr S (memalign_alloc S libc mem .fallback boundary size).2
          ((memalign_alloc S libc mem .fallback boundary size).1 - S)
        = libc.malloc ((boundary + size + S) % addressSpace S) ∧
      (∀ x, x < (memalign_alloc S libc mem .fallback boundary size).1 - S ∨
          (memalign_alloc S libc mem .fallback boundary size).1 ≤ x →
        (memalign_alloc S libc mem .fallback boundary size).2 x = mem x)) := by
  by_cases hp : libc.malloc ((boundary + size + S) % addressSpace S) = 0
  · left
    refine ⟨hp, ?_⟩
    simp only [memalign_alloc, hp, if_true]
  · right
    obtain ⟨⟨k, rfl⟩, hover⟩ := h hp
    have e : (2 ^ k + size + S) % addressSpace S = 2 ^ k + size + S :=
      Nat.mod_eq_of_lt (by omega)
    rw [e] at hover hp ⊢
    obtain ⟨hE, h1, h2⟩ := memalign_alloc_fallback S k size (libc.malloc (2 ^ k + size + S))
      libc mem rfl hp hover
    have hlt : libc.malloc (2 ^ k + size + S) < 256 ^ S := by rw [← addressSpace_eq]; omega
    rw [hE]
    simp only
    refine ⟨hp, h1, by omega, ?_, ?_⟩
    · rw [loadPtr_storePtr, Nat.mod_eq_of_lt hlt]
    · intro x hx
      exact storePtr_outside S mem _ _ x (by omega)

/-! ## The claims, continued -/

/-- C11, `ReferenceFromThis`: in a reachable state, for a payload that has not been deleted,
whose counter `c` is then at least 1, `ReferenceFromThis`, the new handle fitting into the
address space, first increments the counter (by one `AddRef` call that finds `c`, the handles
being as before) and then constructs a handle on the result; afterwards the counter is
`c + 1`, the returned handle is a new one whose `Get()` is the payload, and no other payload
object and no other handle has changed. -/
theorem reference_from_this (w : Nat) (s : State) (hs : Reachable w s) (p : Nat)
    (o : IntrusivePtrEnabled) (ho : s.payloads[p]? = some o) (hlive : o.deleted = 0)
    (hf : (IntrusivePtrEnabled.ReferenceFromThis w s p).1.fits w) :
    1 ≤ o.reference_count ∧
    IntrusivePtrEnabled.ReferenceFromThis w s p
      = IntrusivePtr.constructRaw (IntrusivePtrEnabled.AddRef w s p) (some p) ∧
    (IntrusivePtrEnabled.AddRef w s p).count p = o.reference_count + 1 ∧
    (IntrusivePtrEnabled.AddRef w s p).handles = s.handles ∧
    (IntrusivePtrEnabled.ReferenceFromThis w s p).1.count p = o.reference_count + 1 ∧
    IntrusivePtr.Get (IntrusivePtrEnabled.ReferenceFromThis w s p).1
      (IntrusivePtrEnabled.ReferenceFromThis w s p).2 = some p ∧
    s.live (IntrusivePtrEnabled.ReferenceFromThis w s p).2 = false ∧
    (∀ q, q ≠ p →
      (IntrusivePtrEnabled.ReferenceFromThis w s p).1.payloads[q]? = s.payloads[q]?) ∧
    (IntrusivePtrEnabled.ReferenceFromThis w s p).1.deleted p = 0 ∧
    (IntrusivePtrEnabled.ReferenceFromThis w s p).1.trace
      = Event.AddRef p o.reference_count :: s.trace ∧
    (∀ k, k ≠ (IntrusivePtrEnabled.ReferenceFromThis w s p).2 →
      (IntrusivePtrEnabled.ReferenceFromThis w s p).1.data k = s.data k) := by
  have hI := hs.inv
  obtain ⟨h0, hr, _⟩ := hI.count_bounds p o ho hlive
  have hfit1 : s.liveHandles + 1 < 2 ^ w := by
    have h1 : (IntrusivePtrEnabled.ReferenceFromThis w s p).1.liveHandles < 2 ^ w := hf
    unfold IntrusivePtrEnabled.ReferenceFromThis at h1
    rw [IntrusivePtr.constructRaw_liveHandles,
      State.liveHandles_congr (IntrusivePtrEnabled.handles_AddRef w s p)] at h1
    exact h1
  have hc : o.reference_count + 1 < 2 ^ w := by
    have := State.refs_le_liveHandles s p
    omega
  have hA := IntrusivePtrEnabled.AddRef_of w s p o ho hc
  have hpay : ∀ q, (IntrusivePtrEnabled.AddRef w s p).payloads[q]? =
      if p = q then some o.acquired else s.payloads[q]? := by
    intro q
    rw [hA]
    exact getElem?_set_of_some s.payloads p q o _ ho
  have hdata : ∀ k, (IntrusivePtrEnabled.ReferenceFromThis w s p).1.data k =
      if k = s.handles.length then some p else s.data k := by
    intro k
    unfold IntrusivePtrEnabled.ReferenceFromThis
    rw [IntrusivePtr.constructRaw_data, IntrusivePtrEnabled.handles_AddRef,
      State.data_congr (IntrusivePtrEnabled.handles_AddRef w s p) k]
  have hcount : (IntrusivePtrEnabled.AddRef w s p).count p = o.reference_count + 1 := by
    unfold State.count
    rw [hpay p, if_pos rfl]
    rfl
  have hsnd : (IntrusivePtrEnabled.ReferenceFromThis w s p).2 = s.handles.length := by
    unfold IntrusivePtrEnabled.ReferenceFromThis
    rw [IntrusivePtr.constructRaw_snd, IntrusivePtrEnabled.handles_AddRef]
  refine ⟨h0, rfl, hcount, IntrusivePtrEnabled.handles_AddRef w s p, hcount, ?_, ?_, ?_, ?_,
    ?_, ?_⟩
  · show (IntrusivePtrEnabled.ReferenceFromThis w s p).1.data _ = _
    rw [hdata, hsnd, if_pos rfl]
  · rw [hsnd]
    exact (IntrusivePtr.dead_of_length_le s _ (Nat.le_refl _)).1
  · intro q hq
    show (IntrusivePtrEnabled.AddRef w s p).payloads[q]? = _
    rw [hpay q, if_neg (fun e => hq e.symm)]
  · show (IntrusivePtrEnabled.AddRef w s p).deleted p = 0
    unfold State.deleted
    rw [hpay p, if_pos rfl]
    exact hlive
  · show (IntrusivePtrEnabled.AddRef w s p).trace = _
    rw [hA]
  · intro k hk
    rw [hsnd] at hk
    rw [hdata, if_neg hk]

/-- Minting a third handle of the payload shared by the two handles of `Example.shared`. -/
theorem reference_from_this_witness :
    (IntrusivePtrEnabled.ReferenceFromThis 64 Example.shared 0).1.count 0 = 2 + 1 ∧
    IntrusivePtr.Get (IntrusivePtrEnabled.ReferenceFromThis 64 Example.shared 0).1
      (IntrusivePtrEnabled.ReferenceFromThis 64 Example.shared 0).2 = some 0 :=
  have h := reference_from_this 64 Example.shared
    (Reachable.run (w := 64) Reachable.empty
      [.MakeHandle .SingleThreadCounter, .constructCopy 0] (by decide))
    0 { ops := .SingleThreadCounter, reference_count := 2, deleted := 0 } rfl rfl (by decide)
  ⟨h.2.2.2.2.1, h.2.2.2.2.2.1⟩

/-- C12, fallback aligned allocation arithmetic: in the hand-rolled branch, for a boundary
`2 ^ k`, every size and a non-null `malloc` result `ptr` whose block of
`boundary + size + sizeof(uintptr_t)` bytes ends inside the address space, the returned
address is a multiple of the boundary, the pointer-sized slot before it lies inside the block
(`addr - sizeof(uintptr_t) >= ptr`), and so do the `size` bytes starting at the address
(`addr + size <= ptr + boundary + size + sizeof(uintptr_t)`); the address is not null, and
`ptr` is stored in that slot and nowhere else. -/
theorem fallback_arithmetic (S k size ptr : Nat) (libc : Libc) (mem : Memory)
    (hmalloc : libc.malloc (2 ^ k + size + S) = ptr) (hptr : ptr ≠ 0)
    (hover : ptr + 2 ^ k + size + S < addressSpace S) :
    2 ^ k ∣ (memalign_alloc S libc mem .fallback (2 ^ k) size).1 ∧
    S ≤ (memalign_alloc S libc mem .fallback (2 ^ k) size).1 ∧
    ptr ≤ (memalign_alloc S libc mem .fallback (2 ^ k) size).1 - S ∧
    (memalign_alloc S libc mem .fallback (2 ^ k) size).1 + size ≤ ptr + 2 ^ k + size + S ∧
    (memalign_alloc S libc mem .fallback (2 ^ k) size).1 ≠ 0 ∧
    (memalign_alloc S libc mem .fallback (2 ^ k) size).2
      = storePtr S mem ((memalign_alloc S libc mem .fallback (2 ^ k) size).1 - S) ptr ∧
    (∀ x, x < (memalign_alloc S libc mem .fallback (2 ^ k) size).1 - S ∨
        (memalign_alloc S libc mem .fallback (2 ^ k) size).1 ≤ x →
      (memalign_alloc S libc mem .fallback (2 ^ k) size).2 x = mem x) := by
  obtain ⟨hE, h1, h2⟩ := memalign_alloc_fallback S k size ptr libc mem hmalloc hptr hover
  rw [hE]
  simp only
  refine ⟨?_, by omega, by omega, by omega, by omega, trivial, ?_⟩
  · have e : ptr + S + 2 ^ k - (ptr + S + 2 ^ k) % 2 ^ k
        = 2 ^ k * ((ptr + S + 2 ^ k) / 2 ^ k) := by
      have := Nat.div_add_mod (ptr + S + 2 ^ k) (2 ^ k)
      omega
    rw [e]
    exact Nat.dvd_mul_right _ _
  · intro x hx
    exact storePtr_outside S mem _ ptr x (by omega)

/-- The hand-rolled branch with 8-byte pointers, boundary 16, size 100 and a block at
address 1000: the result is 1024. -/
theorem fallback_arithmetic_witness :
    2 ^ 4 ∣ (memalign_alloc 8 Example.libc Example.sevens .fallback (2 ^ 4) 100).1 ∧
    8 ≤ (memalign_alloc 8 Example.libc Example.sevens .fallback (2 ^ 4) 100).1 ∧
    1000 ≤ (memalign_alloc 8 Example.libc Example.sevens .fallback (2 ^ 4) 100).1 - 8 ∧
    (memalign_alloc 8 Example.libc Example.sevens .fallback (2 ^ 4) 100).1 + 100
      ≤ 1000 + 2 ^ 4 + 100 + 8 :=
  have h := fallback_arithmetic 8 4 100 1000 Example.libc Example.sevens rfl (by decide)
    (by decide)
  ⟨h.1, h.2.1, h.2.2.1, h.2.2.2.1⟩

/-- C13, fallback allocate/free round trip: in the hand-rolled branch, after a successful
`memalign_alloc(boundary, size)` on a power-of-two boundary that obtained `ptr` from `malloc`
and returned `addr`, the slot before `addr` holds `ptr` and `memalign_free(addr)` calls
`free(ptr)`; this stays so after the zero-fill of `memalign_calloc`; and
`memalign_free(nullptr)` calls no deallocation function. -/
theorem fallback_round_trip (S k size ptr : Nat) (libc : Libc) (mem : Memory)
    (hmalloc : libc.malloc (2 ^ k + size + S) = ptr) (hptr : ptr ≠ 0)
    (hover : ptr + 2 ^ k + size + S < addressSpace S) :
    loadPtr S (memalign_alloc S libc mem .fallback (2 ^ k) size).2
      ((memalign_alloc S libc mem .fallback (2 ^ k) size).1 - S) = ptr ∧
    memalign_free S (memalign_alloc S libc mem .fallback (2 ^ k) size).2 .fallback
      (memalign_alloc S libc mem .fallback (2 ^ k) size).1 = some (FreeCall.free ptr) ∧
    (∃ m, memalign_calloc S libc mem .fallback (2 ^ k) size
        = some ((memalign_alloc S libc mem .fallback (2 ^ k) size).1, m) ∧
      memalign_free S m .fallback (memalign_alloc S libc mem .fallback (2 ^ k) size).1
        = some (FreeCall.free ptr)) ∧
    (∀ m : Memory, memalign_free S m .fallback 0 = none) := by
  obtain ⟨hE, h1, h2⟩ := memalign_alloc_fallback S k size ptr libc mem hmalloc hptr hover
  have hpos : 0 < 2 ^ k := Nat.pos_of_ne_zero (by positivity)
  have hlt : ptr < 256 ^ S := by rw [← addressSpace_eq]; omega
  have hload : loadPtr S (storePtr S mem (ptr + S + 2 ^ k - (ptr + S + 2 ^ k) % 2 ^ k - S) ptr)
      (ptr + S + 2 ^ k - (ptr + S + 2 ^ k) % 2 ^ k - S) = ptr := by
    rw [loadPtr_storePtr, Nat.mod_eq_of_lt hlt]
  have hslot : (ptr + S + 2 ^ k - (ptr + S + 2 ^ k) % 2 ^ k + (addressSpace S - S))
      % addressSpace S = ptr + S + 2 ^ k - (ptr + S + 2 ^ k) % 2 ^ k - S := by
    have : ptr + S + 2 ^ k - (ptr + S + 2 ^ k) % 2 ^ k + (addressSpace S - S)
        = (ptr + S + 2 ^ k - (ptr + S + 2 ^ k) % 2 ^ k - S) + addressSpace S := by omega
    rw [this, Nat.add_mod_right]
    exact Nat.mod_eq_of_lt (by omega)
  have hne : ptr + S + 2 ^ k - (ptr + S + 2 ^ k) % 2 ^ k ≠ 0 := by omega
  refine ⟨?_, ?_, ?_, ?_⟩
  · rw [hE]; exact hload
  · rw [hE]
    simp only [memalign_free]
    rw [if_pos hne, hslot, hload]
  · obtain ⟨m, hm, _, hout⟩ := memalign_calloc_some S libc mem .fallback (2 ^ k) size
      (by rw [hE]; exact hne) (by rw [hE]; simp only; omega)
    refine ⟨m, hm, ?_⟩
    rw [hE] at hout ⊢
    simp only at hout ⊢
    simp only [memalign_free]
    rw [if_pos hne, hslot]
    have : loadPtr S m (ptr + S + 2 ^ k - (ptr + S + 2 ^ k) % 2 ^ k - S) = ptr := by
      rw [loadPtr_congr S m
        (storePtr S mem (ptr + S + 2 ^ k - (ptr + S + 2 ^ k) % 2 ^ k - S) ptr) _
        (fun x hx1 hx2 => hout x (by omega))]
      exact hload
    rw [this]
  · intro m
    simp [memalign_free]

/-- The round trip for the allocation at address 1000 that returned 1024. -/
theorem fallback_round_trip_witness :
    memalign_free 8 (memalign_alloc 8 Example.libc Example.sevens .fallback (2 ^ 4) 100).2
      .fallback (memalign_alloc 8 Example.libc Example.sevens .fallback (2 ^ 4) 100).1
      = some (FreeCall.free 1000) :=
  (fallback_round_trip 8 4 100 1000 Example.libc Example.sevens rfl (by decide)
    (by decide)).2.1

/-- C14 at the failing input: in the `posix_memalign` branch, when the primitive fails with
`ENOMEM` (12) and has left a non-null value in the pointer, `memalign_alloc` returns that
value, not `nullptr`. In general the test `< 0` is false for every positive error code, so
the branch returns whatever the primitive left in the pointer, which starts as `nullptr`;
memory is untouched. In the other three branches a null result of the primitive is returned
as `nullptr` with memory untouched. -/
theorem posix_failure_not_null :
    (Example.enomem.posix_memalign 0 16 64).1 = 12 ∧
    (memalign_alloc 8 Example.enomem Example.sevens .posix 16 64).1 = 4096 ∧
    (∀ (S : Nat) (libc : Libc) (mem : Memory) (boundary size : Nat),
      0 < (libc.posix_memalign 0 boundary size).1 →
      memalign_alloc S libc mem .posix boundary size
        = ((libc.posix_memalign 0 boundary size).2, mem)) ∧
    (∀ (S : Nat) (libc : Libc) (mem : Memory) (boundary size : Nat),
      libc.aligned_malloc size boundary = 0 →
      memalign_alloc S libc mem .windows boundary size = (0, mem)) ∧
    (∀ (S : Nat) (libc : Libc) (mem : Memory) (boundary size : Nat),
      libc.aligned_alloc boundary size = 0 →
      memalign_alloc S libc mem .isoc11 boundary size = (0, mem)) ∧
    (∀ (S : Nat) (libc : Libc) (mem : Memory) (boundary size : Nat),
      libc.malloc ((boundary + size + S) % addressSpace S) = 0 →
      memalign_alloc S libc mem .fallback boundary size = (0, mem)) := by
  refine ⟨rfl, rfl, ?_, ?_, ?_, ?_⟩
  · intro S libc mem boundary size h
    have : ¬ ((libc.posix_memalign 0 boundary size).1 < 0) := by omega
    simp only [memalign_alloc]
    rw [if_neg this]
  · intro S libc mem boundary size h
    simp only [memalign_alloc, h]
  · intro S libc mem boundary size h
    simp only [memalign_alloc, h]
  · intro S libc mem boundary size h
    simp only [memalign_alloc, h, if_true]


/-- C15, `memalign_calloc` is `memalign_alloc` followed by zero-fill, amended: let every
non-null pointer obtained be the start of a block inside the address space (in the native and
`posix_memalign` configurations `size` bytes at the returned pointer, `posix_memalign`
leaving the pointer null when it fails; in the hand-rolled one a power-of-two boundary and
the `malloc` block of `boundary + size + sizeof(uintptr_t)` bytes). Then `memalign_calloc`
returns the pointer `memalign_alloc` returns. When it is non-null, the `size` bytes starting
at it are zero afterwards and every other byte is as `memalign_alloc` left it: untouched in
the native and `posix_memalign` configurations, and in the hand-rolled one untouched outside
the pointer-sized slot before the returned address, which lies in the `malloc` block and
holds the `malloc` result. When it is null, no memory is written. -/
theorem calloc_zero_fill (S : Nat) (libc : Libc) (mem : Memory) (branch : Branch)
    (boundary size : Nat)
    (hnative : branch ≠ Branch.fallback →
      (memalign_alloc S libc mem branch boundary size).1 ≠ 0 →
      (memalign_alloc S libc mem branch boundary size).1 + size ≤ addressSpace S)
    (hposix : branch = Branch.posix → (libc.posix_memalign 0 boundary size).1 ≠ 0 →
      (libc.posix_memalign 0 boundary size).2 = 0)
    (hfallback : branch = Branch.fallback →
      libc.malloc ((boundary + size + S) % addressSpace S) ≠ 0 →
      (∃ k, boundary = 2 ^ k) ∧
      libc.malloc ((boundary + size + S) % addressSpace S) + boundary + size + S
        < addressSpace S) :
    ∃ m, memalign_calloc S libc mem branch boundary size
        = some ((memalign_alloc S libc mem branch boundary size).1, m) ∧
      ((memalign_alloc S libc mem branch boundary size).1 ≠ 0 →
        (∀ x, (memalign_alloc S libc mem branch boundary size).1 ≤ x →
          x < (memalign_alloc S libc mem branch boundary size).1 + size → m x = 0) ∧
        (∀ x, ¬ ((memalign_alloc S libc mem branch boundary size).1 ≤ x ∧
            x < (memalign_alloc S libc mem branch boundary size).1 + size) →
          m x = (memalign_alloc S libc mem branch boundary size).2 x)) ∧
      ((memalign_alloc S libc mem branch boundary size).1 = 0 → m = mem) ∧
      (branch ≠ Branch.fallback →
        ∀ x, ¬ ((memalign_alloc S libc mem branch boundary size).1 ≤ x ∧
            x < (memalign_alloc S libc mem branch boundary size).1 + size) → m x = mem x) ∧
      (branch = Branch.posix → (memalign_alloc S libc mem branch boundary size).1 ≠ 0 →
        (libc.posix_memalign 0 boundary size).1 = 0) ∧
      (branch = Branch.fallback → (memalign_alloc S libc mem branch boundary size).1 ≠ 0 →
        libc.malloc ((boundary + size + S) % addressSpace S)
          ≤ (memalign_alloc S libc mem branch boundary size).1 - S ∧
        S ≤ (memalign_alloc S libc mem branch boundary size).1 ∧
        (memalign_alloc S libc mem branch boundary size).1 + size
          ≤ libc.malloc ((boundary + size + S) % addressSpace S) + boundary + size + S ∧
        loadPtr S m ((memalign_alloc S libc mem branch boundary size).1 - S)
          = libc.malloc ((boundary + size + S) % addressSpace S) ∧
        (∀ x, ¬ ((memalign_alloc S libc mem branch boundary size).1 - S ≤ x ∧
            x < (memalign_alloc S libc mem branch boundary size).1 + size) → m x = mem x)) := by
  have hpx : branch = Branch.posix → (memalign_alloc S libc mem branch boundary size).1 ≠ 0 →
      (libc.posix_memalign 0 boundary size).1 = 0 := by
    intro hb hne
    subst hb
    by_cases hc : (libc.posix_memalign 0 boundary size).1 = 0
    · exact hc
    · exfalso
      apply hne
      simp only [memalign_alloc]
      split
      · rfl
      · exact hposix rfl hc
  by_cases h0 : (memalign_alloc S libc mem branch boundary size).1 = 0
  · have hmem : (memalign_alloc S libc mem branch boundary size).2 = mem := by
      by_cases hb : branch = Branch.fallback
      · subst hb
        rcases memalign_alloc_fallback_cases S boundary size libc mem (hfallback rfl) with
          ⟨_, hE⟩ | ⟨_, h1, _⟩
        · rw [hE]
        · omega
      · exact memalign_alloc_native S libc mem branch boundary size hb
    refine ⟨(memalign_alloc S libc mem branch boundary size).2,
      memalign_calloc_null S libc mem branch boundary size h0,
      fun hne => absurd h0 hne, fun _ => hmem, ?_, hpx, fun _ hne => absurd h0 hne⟩
    intro _ x _
    rw [hmem]
  · by_cases hb : branch = Branch.fallback
    · subst hb
      rcases memalign_alloc_fallback_cases S boundary size libc mem (hfallback rfl) with
        ⟨_, hE⟩ | ⟨hp, h1, h2, h3, h4⟩
      · rw [hE] at h0
        exact absurd rfl h0
      · obtain ⟨m, hm, hin, hout⟩ := memalign_calloc_some S libc mem .fallback boundary size
          h0 (by have := (hfallback rfl hp).2; omega)
        refine ⟨m, hm, fun _ => ⟨hin, hout⟩, fun e => absurd e h0,
          fun hne => absurd rfl hne, hpx, fun _ _ => ⟨by omega, by omega, h2, ?_, ?_⟩⟩
        · rw [loadPtr_congr S m (memalign_alloc S libc mem .fallback boundary size).2 _
            (fun x hx1 hx2 => hout x (by omega))]
          exact h3
        · intro x hx
          rw [hout x (by omega), h4 x (by omega)]
    · obtain ⟨m, hm, hin, hout⟩ := memalign_calloc_some S libc mem branch boundary size
        h0 (hnative hb h0)
      refine ⟨m, hm, fun _ => ⟨hin, hout⟩, fun e => absurd e h0, ?_, hpx,
        fun e => absurd e hb⟩
      intro _ x hx
      rw [hout x hx, memalign_alloc_native S libc mem branch boundary size hb]

/-- The hand-rolled configuration with 8-byte pointers, boundary 16, size 100, a `malloc`
block at address 1000 and a memory full of sevens: the bytes 1024 to 1123 are zero, the last
byte before the slot and the first byte after the range still hold 7, and the slot holds
1000. The `posix_memalign` configuration with a block at 4096: the 64 bytes from 4096 are
zero and the bytes next to them still hold 7. -/
theorem calloc_zero_fill_witness :
    (∃ m, memalign_calloc 8 Example.libc Example.sevens .fallback 16 100
        = some ((memalign_alloc 8 Example.libc Example.sevens .fallback 16 100).1, m) ∧
      m 1024 = 0 ∧ m 1123 = 0 ∧ m 1015 = 7 ∧ m 1124 = 7 ∧ loadPtr 8 m 1016 = 1000) ∧
    (∃ m, memalign_calloc 8 Example.native Example.sevens .posix 16 64
        = some ((memalign_alloc 8 Example.native Example.sevens .posix 16 64).1, m) ∧
      m 4096 = 0 ∧ m 4159 = 0 ∧ m 4095 = 7 ∧ m 4160 = 7) :=
  have f := calloc_zero_fill 8 Example.libc Example.sevens .fallback 16 100
    (fun h => absurd rfl h) (fun h => absurd h (by decide))
    (fun _ _ => ⟨⟨4, rfl⟩, by decide⟩)
  have g := calloc_zero_fill 8 Example.native Example.sevens .posix 16 64
    (fun _ _ => by decide) (fun _ h => absurd rfl h) (fun h => absurd h (by decide))
  ⟨f.elim (fun m h => ⟨m, h.1, (h.2.1 (by decide)).1 1024 (by decide) (by decide),
      (h.2.1 (by decide)).1 1123 (by decide) (by decide),
      (h.2.2.2.2.2 rfl (by decide)).2.2.2.2 1015 (by decide),
      (h.2.2.2.2.2 rfl (by decide)).2.2.2.2 1124 (by decide),
      (h.2.2.2.2.2 rfl (by decide)).2.2.2.1⟩),
    g.elim (fun m h => ⟨m, h.1, (h.2.1 (by decide)).1 4096 (by decide) (by decide),
      (h.2.1 (by decide)).1 4159 (by decide) (by decide),
      h.2.2.2.1 (by decide) 4095 (by decide), h.2.2.2.1 (by decide) 4160 (by decide)⟩)⟩

/-- C15 as stated fails in the hand-rolled configuration. With 8-byte pointers,
`memalign_calloc(16, 100)` on a `malloc` block at address 1000 returns the non-null pointer
1024, and byte 1016, which lies outside the 100 bytes starting at 1024 and held 7 before the
call, holds 232 afterwards: `memalign_alloc` has stored the `malloc` result in the slot
before the returned address. And not every size will do: `memalign_calloc(16, 2 ^ 64 - 11)`
asks `malloc` for 13 bytes, `memalign_alloc` returns 1024, and `memset` is called on a range
of `2 ^ 64 - 11` bytes from there, which does not end inside the address space. -/
theorem calloc_zero_fill_fails :
    (∃ m, memalign_calloc 8 Example.libc Example.sevens .fallback 16 100 = some (1024, m) ∧
      (memalign_alloc 8 Example.libc Example.sevens .fallback 16 100).1 = 1024 ∧
      ¬ (1024 ≤ 1016 ∧ 1016 < 1024 + 100) ∧
      Example.sevens 1016 = 7 ∧ m 1016 = 232) ∧
    ((16 + (2 ^ 64 - 11) + 8) % addressSpace 8 = 13 ∧
      (memalign_alloc 8 Example.libc Example.sevens .fallback 16 (2 ^ 64 - 11)).1 = 1024 ∧
      addressSpace 8 < 1024 + (2 ^ 64 - 11) ∧
      memalign_calloc 8 Example.libc Example.sevens .fallback 16 (2 ^ 64 - 11) = none) := by
  refine ⟨⟨_, rfl, rfl, by decide, rfl, rfl⟩, by decide, rfl, by decide, rfl⟩

/-- C17, assignment between two distinct handles of the same payload: in a state in which
the counter of payload `P` is a `size_t` value equal to the number of live handles referring
to `P`, for two different handles `a` and `b` that both refer to `P`, the copy assignment
`a = b` through the same-type operator and through the template operator (which calls
`Reset` before `AddRef` without comparing identities) leaves every payload object and every
handle as it was, so the counter of `P` and the targets of `a` and `b` are unchanged; the
only calls made are one `Release` that finds the counter at its value `c` and one `AddRef`
that finds `c - 1`, and the deleter is not run. -/
theorem same_payload_assignment (w : Nat) (s : State) (a b p : Nat) (o : IntrusivePtrEnabled)
    (ho : s.payloads[p]? = some o) (hcount : o.reference_count = s.refs p)
    (hrange : o.reference_count < 2 ^ w) (hab : a ≠ b) (ha : s.data a = some p)
    (hb : s.data b = some p) :
    IntrusivePtr.assignCopy w s a b = IntrusivePtr.assignCopyU w s a b ∧
    IntrusivePtr.assignCopyU w s a b =
      { s with trace := Event.AddRef p (o.reference_count - 1) ::
          Event.Release p o.reference_count :: s.trace } ∧
    (IntrusivePtr.assignCopyU w s a b).payloads = s.payloads ∧
    (IntrusivePtr.assignCopyU w s a b).handles = s.handles ∧
    (IntrusivePtr.assignCopyU w s a b).count p = s.count p ∧
    (IntrusivePtr.assignCopyU w s a b).deleted p = s.deleted p ∧
    IntrusivePtr.Get (IntrusivePtr.assignCopyU w s a b) a = some p ∧
    IntrusivePtr.Get (IntrusivePtr.assignCopyU w s a b) b = some p ∧
    2 ≤ o.reference_count := by
  have hE := IntrusivePtr.assignCopyU_same_payload w s a b p o ho hcount hrange hab ha hb
  have h2 : 2 ≤ s.refs p := State.two_le_refs s a b p hab ha hb
  refine ⟨?_, hE, ?_, ?_, ?_, ?_, ?_, ?_, by omega⟩
  · rw [IntrusivePtr.assignCopy_eq w s a b hab, IntrusivePtr.assignCopyU_eq]
  · rw [hE]
  · rw [hE]
  · rw [hE]; rfl
  · rw [hE]; rfl
  · rw [hE]; exact ha
  · rw [hE]; exact hb

/-- Assigning handle 1 to handle 0 in `Example.shared`, both handles of payload 0. -/
theorem same_payload_assignment_witness :
    IntrusivePtr.assignCopy 64 Example.shared 0 1
      = IntrusivePtr.assignCopyU 64 Example.shared 0 1 ∧
    IntrusivePtr.assignCopyU 64 Example.shared 0 1 =
      { Example.shared with trace := Event.AddRef 0 (2 - 1) :: Event.Release 0 2
          :: Example.shared.trace } :=
  have h := same_payload_assignment 64 Example.shared 0 1 0
    { ops := .SingleThreadCounter, reference_count := 2, deleted := 0 } rfl rfl (by decide)
    (by decide) rfl rfl
  ⟨h.1, h.2.1⟩

/-- C18, the two counter policies are interchangeable under sequential use: for a `size_t`
of at least one bit and every finite sequence of `AddRef` and `Release` calls, a fresh
`SingleThreadCounter` and a fresh `MultiThreadCounter` hold the same value after every call
and every `Release` returns the same flag for both, all arithmetic being taken modulo
`2 ^ w`. -/
theorem policies_interchangeable (w : Nat) (hw : 0 < w) (xs : List Call) :
    ReferenceOps.calls w .SingleThreadCounter SingleThreadCounter.init xs
      = ReferenceOps.calls w .MultiThreadCounter MultiThreadCounter.init xs :=
  ReferenceOps.calls_independent w hw xs 1 (ReferenceOps.one_lt_two_pow hw)

/-- A sequence that releases a fresh 64-bit counter below zero and raises it again. -/
theorem policies_interchangeable_witness :
    ReferenceOps.calls 64 .SingleThreadCounter SingleThreadCounter.init
        [Call.AddRef, Call.Release, Call.Release, Call.Release, Call.AddRef, Call.AddRef]
      = ReferenceOps.calls 64 .MultiThreadCounter MultiThreadCounter.init
        [Call.AddRef, Call.Release, Call.Release, Call.Release, Call.AddRef, Call.AddRef] :=
  policies_interchangeable 64 (by decide)
    [Call.AddRef, Call.Release, Call.Release, Call.Release, Call.AddRef, Call.AddRef]

end Util
